import Mathlib

/-!
Verification of the nsort repository (external line sorter `nsort.c` with in-memory
engine `qsort.c` and fallback `heapsort.c`) against its natural-language specification.

The C code is shallowly embedded at the level of record arrays represented as `List α`
with an abstract comparator `cmp : α → α → Int` (the C comparator returns an `int`
whose sign alone is meaningful).  All pointer arithmetic of the source is in units of
the element size `es`; since every pointer handled by the source is element-aligned,
dividing all offsets by `es` gives an exact element-level account of the byte-level
code.  The element size `es` is kept as a parameter wherever it influences control
flow (the heapsort scratch allocation, the `es = 0` guards).

Floating-point quantities of the source (`flog2`, `max_itn`, `pivot_fraction` compared
against `MAX_PIVOT_FRACTION`) cannot influence which values end up where except by
selecting between control-flow branches.  They are modelled by quantifying over the
branch decisions: `max_itn` is an arbitrary function `MI : Nat -> Nat` of the segment
size, the `pivot_fraction > MAX_PIVOT_FRACTION` test is an arbitrary Boolean function
of the integer data that determines the float value, and heapsort scratch-allocation
success is an arbitrary Boolean stream.  Theorems proved for every choice of these
parameters in particular cover the actual float computations.  The threads of the
`PAR_SORT` build hand disjoint subsegments to `local_qsort` and are joined before
`qsort` returns, so their net effect on the array equals the sequential recursion;
`new_thread` is accordingly embedded as a direct recursive call.

`qsort.c` specialises data movement for `es = 4` and `es = 8` (word loads, `memmove`
shifts, binary insertion); at the element level those paths move elements to exactly
the positions the generic byte path does, so the embedding follows the generic path.
-/

/-! ### Generic list infrastructure -/

/-- Element read used throughout: `aget l i` is the record at element index `i`. -/
def aget {α : Type} [Inhabited α] (l : List α) (i : Nat) : α :=
  l.getD i default

/-- `swapfunc` from qsort.c/heapsort.c: exchange the records at element indices
`i` and `j` (the `es = 4` / `es = 8` word paths and the generic byte loop all
realise exactly this element exchange). -/
def swapfunc {α : Type} [Inhabited α] (l : List α) (i j : Nat) : List α :=
  (l.set i (aget l j)).set j (aget l i)

/-- `vecswap`: exchange the length-`len` blocks starting at element indices `i`
and `j`, one element at a time (qsort.c does this one byte at a time). -/
def vecswapF {α : Type} [Inhabited α] (cnt : Nat) (l : List α) (i j : Nat) : List α :=
  match cnt with
  | 0 => l
  | c + 1 => vecswapF c (swapfunc l i j) (i + 1) (j + 1)

/-- Lawfulness of a C comparator, as assumed by the spec ("a total preorder"):
the sign of `cmp` is antisymmetric and its non-positive part is transitive. -/
def LawfulCmp {α : Type} (cmp : α → α → Int) : Prop :=
  (∀ x y, cmp x y > 0 ↔ cmp y x < 0) ∧
  (∀ x y z, cmp x y ≤ 0 → cmp y z ≤ 0 → cmp x z ≤ 0)

/-! ### nsort.c : command-line option handling -/

/-- C `tolower` in the C locale restricted to the byte values that occur in
command-line options: uppercase ASCII is shifted down into lowercase, every
other character is unchanged. -/
def c_tolower (c : Char) : Char :=
  if 65 ≤ c.toNat ∧ c.toNat ≤ 90 then Char.ofNat (c.toNat + 32) else c

/-- The comparator selected by nsort's option parsing: `mysCompare`,
`mynCompare` or `mynqCompare`. -/
inductive CompSel : Type
| str : CompSel
| num : CompSel
| numq : CompSel
deriving DecidableEq, Repr

/-- Option-parser state of `main` in nsort.c: the selected comparator function
pointer `comp`, the flags `do_uniq`, `verbose`, `need_outfile`, and whether
`argc` has been set negative (usage message then exit). -/
structure OptState : Type where
  comp : CompSel
  do_uniq : Bool
  verbose : Bool
  need_outfile : Bool
  usage_exit : Bool
deriving DecidableEq, Repr

/-- Initial state of `main`: `comp=mysCompare` (compare as strings by default). -/
def initOptState : OptState :=
  { comp := CompSel.str, do_uniq := false, verbose := false,
    need_outfile := false, usage_exit := false }

/-- One step of the option `switch(tolower(c))` in `main` (nsort.c lines
188-204).  Note the source's `case 'q'` assigns `mynCompare`, not
`mynqCompare`, exactly as transcribed here. -/
def optStep (st : OptState) (c : Char) : OptState :=
  match c_tolower c with
  | 'n' => { st with comp := CompSel.num }
  | 'o' => { st with need_outfile := true }
  | 'q' => { st with comp := CompSel.num }
  | 'u' => { st with do_uniq := true }
  | 'v' => { st with verbose := true }
  | '?' => { st with usage_exit := true }
  | 'h' => { st with usage_exit := true }
  | _ => { st with usage_exit := true }

/-- Process every character of one clustered option argument (the inner
`while( (c= *++argv[0]) )` loop). -/
def optArg (st : OptState) (cs : List Char) : OptState :=
  cs.foldl optStep st

/-- The outer `while(--argc>0 && (*++argv)[0] == '-')` loop: consume leading
`-`-arguments, returning the final state and the remaining arguments. -/
def parseArgs (st : OptState) : List (List Char) → OptState × List (List Char)
  | [] => (st, [])
  | a :: rest =>
    match a with
    | '-' :: cs => parseArgs (optArg st cs) rest
    | _ => (st, a :: rest)

/-! ### nsort.c : comparators

Lines are modelled as `List Char` (the bytes of the NUL-terminated C string,
without the terminator). -/

/-- C `strcmp`, sign-normalised: lexicographic byte comparison where the
terminating NUL makes a proper prefix compare less.  All uses in nsort.c only
inspect the sign of `strcmp`. -/
def strcmpM : List Char → List Char → Int
  | [], [] => 0
  | [], _ :: _ => -1
  | _ :: _, [] => 1
  | a :: as, b :: bs =>
    if a.toNat < b.toNat then -1 else if b.toNat < a.toNat then 1 else strcmpM as bs

/-- C `isspace` for the characters relevant to number parsing. -/
def isspaceC (c : Char) : Bool :=
  c = ' ' ∨ c = '\t' ∨ c = '\n' ∨ c = '\x0b' ∨ c = '\x0c' ∨ c = '\r'

/-- Decimal digit test. -/
def isdigitC (c : Char) : Bool := 48 ≤ c.toNat ∧ c.toNat ≤ 57

/-- Accumulate a run of decimal digits: value so far, number of digits, rest. -/
def digitsAux : List Char → Nat → Nat → Nat × Nat × List Char
  | [], v, k => (v, k, [])
  | c :: cs, v, k =>
    if isdigitC c then digitsAux cs (10 * v + (c.toNat - 48)) (k + 1) else (v, k, c :: cs)

/-- Read a maximal run of decimal digits from the front of a string. -/
def takeDigits (s : List Char) : Nat × Nat × List Char := digitsAux s 0 0

/-- Modelled from the spec: the number parser `fast_strtod` (atof.c) used by the
comparators is not part of src/, so the spec's "parse a leading number
(floating-point)" is modelled here: skip leading whitespace, an optional sign,
a decimal mantissa (at least one digit before or after the optional point) and
an optional decimal exponent; the value is returned exactly as a rational
(`none` when no conversion could be performed, the `endptr == s` case of
`strtod`).  Rounding to binary floating point is not modelled. -/
def strtodM (s : List Char) : Option ℚ :=
  let s1 := s.dropWhile (fun c => isspaceC c)
  let sgn : Bool × List Char :=
    match s1 with
    | '-' :: r => (true, r)
    | '+' :: r => (false, r)
    | r => (false, r)
  let ipart := takeDigits sgn.2
  let fpart : Nat × Nat × List Char :=
    match ipart.2.2 with
    | '.' :: r => takeDigits r
    | r => (0, 0, r)
  if ipart.2.1 + fpart.2.1 = 0 then none
  else
    let mant : ℚ := (ipart.1 : ℚ) + (fpart.1 : ℚ) / (10 : ℚ) ^ fpart.2.1
    let ex : Int :=
      match fpart.2.2 with
      | c :: r =>
        if c = 'e' ∨ c = 'E' then
          let esgn : Bool × List Char :=
            match r with
            | '-' :: rr => (true, rr)
            | '+' :: rr => (false, rr)
            | rr => (false, rr)
          let ed := takeDigits esgn.2
          if ed.2.1 = 0 then 0 else if esgn.1 then -(ed.1 : Int) else (ed.1 : Int)
        else 0
      | [] => 0
    some (if sgn.1 then -(mant * (10 : ℚ) ^ ex) else mant * (10 : ℚ) ^ ex)

/-- `-DBL_MAX`, the most negative finite IEEE double, as an exact rational. -/
def negMax : ℚ := -((2 : ℚ) ^ 1024 - (2 : ℚ) ^ 971)

/-- The sort key a line receives in `mynCompare`/`mynqCompare`, parametrised by
the number parser `P`: the parsed leading number, or `-DBL_MAX` when `P`
performs no conversion (`v = -DBL_MAX` on `sret == s`). -/
def keyOfGen (P : List Char → Option ℚ) (s : List Char) : ℚ :=
  (P s).getD negMax

/-- `mysCompare` (nsort.c lines 545-548): compare lines as strings. -/
def mysCompare (a b : List Char) : Int := strcmpM a b

/-- `mynCompare` (nsort.c lines 550-566), parametrised by the number parser:
compare the leading numbers, falling back to whole-line string comparison when
the numeric keys are equal. -/
def mynCompareGen (P : List Char → Option ℚ) (a b : List Char) : Int :=
  let v1 := keyOfGen P a
  let v2 := keyOfGen P b
  if v1 = v2 then strcmpM a b else if v1 < v2 then -1 else 1

/-- `mynCompare` with the modelled parser. -/
def mynCompare (a b : List Char) : Int := mynCompareGen strtodM a b

/-- The quote-skipping prefix step of `mynqCompare`: skip initial whitespace
and one opening double quote, if present. -/
def qskip (s : List Char) : List Char :=
  match s.dropWhile (fun c => isspaceC c) with
  | '"' :: r => r
  | r => r

/-- `mynqCompare` (nsort.c lines 569-595), parametrised by the number parser:
as `mynCompare` but the number is parsed after skipping whitespace and an
opening `"`; the string fallback still compares the whole original lines. -/
def mynqCompareGen (P : List Char → Option ℚ) (a b : List Char) : Int :=
  let v1 := keyOfGen P (qskip a)
  let v2 := keyOfGen P (qskip b)
  if v1 = v2 then strcmpM a b else if v1 < v2 then -1 else 1

/-- `mynqCompare` with the modelled parser. -/
def mynqCompare (a b : List Char) : Int := mynqCompareGen strtodM a b

/-- The comparator function designated by a `CompSel` value. -/
def compFn : CompSel → List Char → List Char → Int
  | CompSel.str => mysCompare
  | CompSel.num => mynCompare
  | CompSel.numq => mynqCompare

/-! ### nsort.c : external sorter run bookkeeping

A run (temporary subfile) is modelled by its remaining contents, a `List L` of
lines in file order; the struct's `line` buffer holds the run's current front
line, which is the head of that list.  `MAXSUBFILES = 16` as in nsort.c. -/

/-- `MAXSUBFILES` from nsort.c. -/
def MAXSUBFILES : Nat := 16

/-- Index of the run with the minimal front line, by the linear scan
`for (min_idx = 0, i = 1; i < nfiles; ++i) if (comp(...) < 0) min_idx = i`. -/
def findMinRun {L : Type} [Inhabited L] (comp : L → L → Int) (runs : List (List L)) : Nat :=
  (List.range runs.length).foldl
    (fun m i =>
      if 1 ≤ i ∧ comp (aget (aget runs i) 0) (aget (aget runs m) 0) < 0 then i else m) 0

/-- One step of the k-way merge loop: output the minimal front line, advance
that run, and on exhaustion remove it by the swap-with-last
`subfiles[min_idx] = subfiles[--nfiles]`. -/
def mergeStep {L : Type} [Inhabited L] (comp : L → L → Int)
    (runs : List (List L)) : L × List (List L) :=
  let m := findMinRun comp runs
  let front := aget (aget runs m) 0
  let rest := (aget runs m).tail
  if rest.isEmpty then
    (front, (runs.set m (aget runs (runs.length - 1))).dropLast)
  else
    (front, runs.set m rest)

/-- The k-way merge loop (`while (nfiles) { ... }`), with fuel bounding the
number of lines output. -/
def kmergeAux {L : Type} [Inhabited L] (comp : L → L → Int)
    (fuel : Nat) (runs : List (List L)) (acc : List L) : List L :=
  match fuel with
  | 0 => acc.reverse
  | f + 1 =>
    if runs.isEmpty then acc.reverse
    else
      let s := mergeStep comp runs
      kmergeAux comp f s.2 (s.1 :: acc)

/-- k-way merge of a set of runs into a single output sequence. -/
def kmerge {L : Type} [Inhabited L] (comp : L → L → Int) (runs : List (List L)) : List L :=
  kmergeAux comp (runs.foldr (fun r n => r.length + n) 0) runs []

/-- `make_subfile` (nsort.c lines 443-543) at the level of the run set: given
the open runs and the batch of lines to spill (already read into RAM), write
the sorted batch to a fresh run; if the maximum number of runs is already open,
first sub-merge all of them into a single run.  Returns the new run set and the
`sub_merge` flag (the caller then executes `if(make_subfile(...)) nfiles=2;`).
The in-memory sort of the batch is the embedded qsort, abstracted here as the
parameter `srt`. -/
def make_subfileF {L : Type} [Inhabited L] (comp : L → L → Int)
    (srt : List L → List L) (runs : List (List L)) (batch : List L) :
    List (List L) × Bool :=
  if MAXSUBFILES ≤ runs.length then
    ([kmerge comp runs, srt batch], true)
  else
    (runs ++ [srt batch], false)

/-- The run set after a sequence of spills, starting from no open runs
(each spill site in `main` executes `if(make_subfile(lines,nlines,subfiles,nfiles++)) nfiles=2;`). -/
def runsAfter {L : Type} [Inhabited L] (comp : L → L → Int)
    (srt : List L → List L) (spills : List (List L)) : List (List L) :=
  spills.foldl (fun st b => (make_subfileF comp srt st b).1) []

/-! ### qsort.c : configuration constants -/

/-- `USE_SMALL_SORT` from qsort.c: below this length, insertion sort. -/
def USE_SMALL_SORT : Nat := 32

/-- `MAX_INS_MOVES` from qsort.c: out-of-place items allowed before the
initial insertion sort gives up. -/
def MAX_INS_MOVES : Nat := 2

/-- `USE_MEDIAN25` from qsort.c: from this length on, median of 25. -/
def USE_MEDIAN25 : Nat := 100000

/-! ### qsort.c : small_sortq (insertion sort) -/

/-- The inner loop of the insertion sorts: starting at element index `j`, swap
the record at `j` with its predecessor while the predecessor compares greater
(`for (pl = pm; pl > a && CMP(pl - es, pl) > 0; pl -= es) swapfunc(pl, pl - es, es)`). -/
def bubble {α : Type} [Inhabited α] (cmp : α → α → Int) (l : List α) : Nat → List α
  | 0 => l
  | j + 1 =>
    if cmp (aget l j) (aget l (j + 1)) > 0 then bubble cmp (swapfunc l (j + 1) j) j
    else l

/-- The outer loop of `small_sortq`: insert the records at indices
`i, i+1, ...` (`r` of them) into the sorted prefix. -/
def ssAux {α : Type} [Inhabited α] (cmp : α → α → Int) : Nat → List α → Nat → List α
  | 0, l, _ => l
  | r + 1, l, i => ssAux cmp r (bubble cmp l i) (i + 1)

/-- `small_sortq` (qsort.c lines 410-456): straight insertion sort.  The
`es = 8` and `es = 4` cases move the inserted record with a bulk shift instead
of element swaps, to the same final positions. -/
def small_sortq {α : Type} [Inhabited α] (cmp : α → α → Int) (l : List α) : List α :=
  ssAux cmp (l.length - 1) l 1

/-! ### qsort.c : the bounded initial insertion sort of local_qsort -/

/-- The driver's initial insertion sort (qsort.c lines 577-664): insert
left-to-right, counting out-of-order positions; once more than
`MAX_INS_MOVES` are seen, give up, returning the partially reshuffled array
and `false`.  The `es = 8` / `es = 4` paths use a binary search plus bulk
shift for insertions far from the start; over a sorted prefix that places the
record where the generic linear scan does. -/
def insPassAux {α : Type} [Inhabited α] (cmp : α → α → Int) :
    Nat → List α → Nat → Nat → List α × Bool
  | 0, l, _, _ => (l, true)
  | r + 1, l, i, cnt =>
    if cmp (aget l (i - 1)) (aget l i) > 0 then
      if MAX_INS_MOVES < cnt + 1 then (l, false)
      else insPassAux cmp r (bubble cmp l i) (i + 1) (cnt + 1)
    else insPassAux cmp r (bubble cmp l i) (i + 1) cnt

/-- The bounded insertion attempt over a whole segment. -/
def insPass {α : Type} [Inhabited α] (cmp : α → α → Int) (l : List α) : List α × Bool :=
  insPassAux cmp (l.length - 1) l 1 0

/-! ### qsort.c : median networks of N. Devillard -/

/-- `Zv(a,b)` at base offset `b0`: conditionally exchange elements `b0+i`,
`b0+j` so the smaller comes first. -/
def Zv {α : Type} [Inhabited α] (cmp : α → α → Int) (b0 : Nat) (l : List α)
    (p : Nat × Nat) : List α :=
  if cmp (aget l (b0 + p.1)) (aget l (b0 + p.2)) > 0 then
    swapfunc l (b0 + p.1) (b0 + p.2)
  else l

/-- The comparison-exchange schedule of `opt_med9`. -/
def med9Pairs : List (Nat × Nat) :=
  [(1,2), (4,5), (7,8), (0,1), (3,4), (6,7), (1,2), (4,5), (7,8),
   (0,3), (5,8), (4,7), (3,6), (1,4), (2,5), (4,7), (4,2), (6,4), (4,2)]

/-- `opt_med9` (qsort.c lines 487-497) on the 9 records starting at `b0`:
leaves the median at offset 4. -/
def opt_med9 {α : Type} [Inhabited α] (cmp : α → α → Int) (l : List α) (b0 : Nat) : List α :=
  med9Pairs.foldl (Zv cmp b0) l

/-- The comparison-exchange schedule of `opt_med25`. -/
def med25Pairs : List (Nat × Nat) :=
  [(0,1), (3,4), (2,4),
   (2,3), (6,7), (5,7),
   (5,6), (9,10), (8,10),
   (8,9), (12,13), (11,13),
   (11,12), (15,16), (14,16),
   (14,15), (18,19), (17,19),
   (17,18), (21,22), (20,22),
   (20,21), (23,24), (2,5),
   (3,6), (0,6), (0,3),
   (4,7), (1,7), (1,4),
   (11,14), (8,14), (8,11),
   (12,15), (9,15), (9,12),
   (13,16), (10,16), (10,13),
   (20,23), (17,23), (17,20),
   (21,24), (18,24), (18,21),
   (19,22), (8,17), (9,18),
   (0,18), (0,9), (10,19),
   (1,19), (1,10), (11,20),
   (2,20), (2,11), (12,21),
   (3,21), (3,12), (13,22),
   (4,22), (4,13), (14,23),
   (5,23), (5,14), (15,24),
   (6,24), (6,15), (7,16),
   (7,19), (13,21), (15,23),
   (7,13), (7,15), (1,9),
   (3,11), (5,17), (11,17),
   (9,17), (4,10), (6,12),
   (7,14), (4,6), (4,7),
   (12,14), (10,14), (6,7),
   (10,12), (6,10), (6,17),
   (12,17), (7,17), (7,10),
   (12,18), (7,12), (10,18),
   (12,20), (10,20), (10,12)]

/-- `opt_med25` (qsort.c lines 510-546) on the 25 records starting at `b0`:
leaves the median at offset 12. -/
def opt_med25 {α : Type} [Inhabited α] (cmp : α → α → Int) (l : List α) (b0 : Nat) : List α :=
  med25Pairs.foldl (Zv cmp b0) l

/-! ### qsort.c : pivot selection -/

/-- The fast pivot path (qsort.c lines 817-855): gather 25 (or 9) equally
spaced records at the front, run the median network, and move the median to
index 0. -/
def pivotFast {α : Type} [Inhabited α] (cmp : α → α → Int) (l : List α) : List α :=
  let n := l.length
  if USE_MEDIAN25 ≤ n then
    let d := (n - 1) / 24
    let l1 := (List.range 24).foldl (fun acc i => swapfunc acc (i + 1) ((i + 1) * d)) l
    let l2 := opt_med25 cmp l1 0
    swapfunc l2 0 12
  else
    let pm := n / 2
    let pn := n - 1
    let d := n / 8
    let l1 := swapfunc l d 1
    let l2 := swapfunc l1 (2 * d) 2
    let l3 := swapfunc l2 (pm - d) 3
    let l4 := swapfunc l3 pm 4
    let l5 := swapfunc l4 (pm + d) 5
    let l6 := swapfunc l5 (pn - 2 * d) 6
    let l7 := swapfunc l6 (pn - d) 7
    let l8 := swapfunc l7 pn 8
    let l9 := opt_med9 cmp l8 0
    swapfunc l9 0 4

/-- `small_sortq` applied in place to the slice `[off, off+len)` of the array
(the recursive-median code sorts sub-blocks this way). -/
def small_sortq_at {α : Type} [Inhabited α] (cmp : α → α → Int)
    (l : List α) (off len : Nat) : List α :=
  l.take off ++ small_sortq cmp ((l.drop off).take len) ++ l.drop (off + len)

/-- One pass of the recursive median-of-medians pivot path (the `for` loop
over blocks of 25 in qsort.c lines 714-744): blockwise medians of 25 are
collected at the front (position `p1`); for the final partial block of 25-49
records, one median of 9 may be taken to keep the median count odd, and the
remainder is split into two insertion-sorted halves contributing their middle
elements.  Returns the array and the number of medians collected. -/
def momInner {α : Type} [Inhabited α] (cmp : α → α → Int) :
    Nat → List α → Nat → Nat → Nat → List α × Nat
  | 0, l, _, p1, _ => (l, p1)
  | f + 1, l, n1, p1, p2 =>
    if p2 + 24 < n1 then
      if n1 ≤ p2 + 49 ∧ n1 - p2 ≠ 25 then
        let a1 : List α × Nat × Nat × Nat :=
          if p1 % 2 = 0 ∧ 11 ≤ n1 - p2 then
            let la := opt_med9 cmp l p2
            let lb := swapfunc la p1 (p2 + 4)
            (lb, p1 + 1, p2 + 9, n1 - p2 - 9)
          else (l, p1, p2, n1 - p2)
        let n2 := a1.2.2.2 / 2
        let l2 := small_sortq_at cmp a1.1 a1.2.2.1 n2
        let l3 := swapfunc l2 a1.2.1 (a1.2.2.1 + (n2 - 1) / 2)
        let l4 := small_sortq_at cmp l3 (a1.2.2.1 + n2) (a1.2.2.2 - n2)
        let l5 := swapfunc l4 (a1.2.1 + 1) (a1.2.2.1 + n2 + (a1.2.2.2 - n2 - 1) / 2)
        (l5, a1.2.1 + 2)
      else
        let l1 := opt_med25 cmp l p2
        let l2 := swapfunc l1 p1 (p2 + 12)
        momInner cmp f l2 n1 (p1 + 1) (p2 + 25)
    else (l, p1)

/-- The `while(n1>50)` loop of the recursive median-of-medians path: repeat
the blockwise pass on the collected medians.  Returns the array, the final
`n1` and the median count `p1` of the last pass. -/
def momOuter {α : Type} [Inhabited α] (cmp : α → α → Int) :
    Nat → List α → Nat → Nat → List α × Nat × Nat
  | 0, l, n1, p1 => (l, n1, p1)
  | f + 1, l, n1, p1 =>
    if 50 < n1 then
      let r := momInner cmp n1 l n1 0 0
      momOuter cmp f r.1 (n1 / 25) r.2
    else (l, n1, p1)

/-- The robust pivot path (qsort.c lines 683-755): recursive median of
medians of 25, followed by a final insertion sort of the ≤ 50 remaining
medians, placing the overall median estimate at index 0. -/
def pivotRobust {α : Type} [Inhabited α] (cmp : α → α → Int) (l : List α) : List α :=
  let n := l.length
  let r := momOuter cmp n l n 0
  let n1 := if r.2.2 ≠ 0 then r.2.2 else r.2.1
  if 1 < n1 then
    let l2 := small_sortq_at cmp r.1 0 n1
    if 2 < n1 then swapfunc l2 0 ((n1 - 1) / 2) else l2
  else r.1

/-! ### qsort.c : the Bentley-McIlroy three-way partition

Element indices: the pivot is at index 0, `pa = pb = 1`, `pc = pd = n - 1` to
start.  Records equal to the pivot are parked at `[1, pa)` and `(pd, n)`;
`[pa, pb)` collects records less than the pivot, `(pc, pd]` records greater. -/

/-- First inner scan: `while (pb <= pc && (cmp_result = CMP(pb, a)) <= 0)`,
parking pivot-equal records at `pa`.  Returns the array and the new `pa`, `pb`. -/
def pscan1 {α : Type} [Inhabited α] (cmp : α → α → Int) :
    Nat → List α → Nat → Nat → Nat → List α × Nat × Nat
  | 0, l, pa, pb, _ => (l, pa, pb)
  | f + 1, l, pa, pb, pc =>
    if pb ≤ pc then
      if cmp (aget l pb) (aget l 0) ≤ 0 then
        if cmp (aget l pb) (aget l 0) = 0 then
          pscan1 cmp f (swapfunc l pa pb) (pa + 1) (pb + 1) pc
        else pscan1 cmp f l pa (pb + 1) pc
      else (l, pa, pb)
    else (l, pa, pb)

/-- Second inner scan: `while (pb <= pc && (cmp_result = CMP(pc, a)) >= 0)`,
parking pivot-equal records at `pd`.  Returns the array and the new `pc`, `pd`. -/
def pscan2 {α : Type} [Inhabited α] (cmp : α → α → Int) :
    Nat → List α → Nat → Nat → Nat → List α × Nat × Nat
  | 0, l, _, pc, pd => (l, pc, pd)
  | f + 1, l, pb, pc, pd =>
    if pb ≤ pc then
      if 0 ≤ cmp (aget l pc) (aget l 0) then
        if cmp (aget l pc) (aget l 0) = 0 then
          pscan2 cmp f (swapfunc l pc pd) pb (pc - 1) (pd - 1)
        else pscan2 cmp f l pb (pc - 1) pd
      else (l, pc, pd)
    else (l, pc, pd)

/-- The outer partition loop (`for (;;)` in qsort.c lines 860-885). -/
def ploop {α : Type} [Inhabited α] (cmp : α → α → Int) :
    Nat → List α → Nat → Nat → Nat → Nat → List α × Nat × Nat × Nat × Nat
  | 0, l, pa, pb, pc, pd => (l, pa, pb, pc, pd)
  | f + 1, l, pa, pb, pc, pd =>
    let s1 := pscan1 cmp (pc + 2) l pa pb pc
    let s2 := pscan2 cmp (pc + 2) s1.1 s1.2.2 pc pd
    if s2.2.1 < s1.2.2 then (s2.1, s1.2.1, s1.2.2, s2.2.1, s2.2.2)
    else ploop cmp f (swapfunc s2.1 s1.2.2 s2.2.1) s1.2.1 (s1.2.2 + 1) (s2.2.1 - 1) s2.2.2

/-- Result of the partition step: the array after the final block swaps, the
scan boundaries, and the amounts `d1`, `d2` moved by the two `vecswap`s. -/
structure PartOut (α : Type) : Type where
  l : List α
  pa : Nat
  pb : Nat
  pc : Nat
  pd : Nat
  d1 : Nat
  d2 : Nat

/-- The complete partition step (qsort.c lines 856-896): the scans followed by
the two `vecswap`s that move the parked pivot-equal records to the middle.
All offsets are in elements (`d1 = MIN(pa - a, pb - pa)` etc. divided by `es`). -/
def partitionF {α : Type} [Inhabited α] (cmp : α → α → Int) (l : List α) : PartOut α :=
  let n := l.length
  let r := ploop cmp n l 1 1 (n - 1) (n - 1)
  let d1 := min r.2.1 (r.2.2.1 - r.2.1)
  let l2 := vecswapF d1 r.1 0 (r.2.2.1 - d1)
  let d2 := min (r.2.2.2.2 - r.2.2.2.1) (n - r.2.2.2.2 - 1)
  let l3 := vecswapF d2 l2 r.2.2.1 (n - d2)
  { l := l3, pa := r.2.1, pb := r.2.2.1, pc := r.2.2.2.1, pd := r.2.2.2.2,
    d1 := d1, d2 := d2 }

/-- Size of the `< pivot` class produced by a partition. -/
def partL {α : Type} (P : PartOut α) : Nat := P.pb - P.pa

/-- Size of the `> pivot` class produced by a partition. -/
def partR {α : Type} (P : PartOut α) : Nat := P.pd - P.pc

/-- The `pivot_fraction` value computed by qsort.c line 912 after a partition,
as an exact rational:
`(MAX(pb-pa, pd-pc) - MIN(pb-pa, pd-pc) - (d1+d2)) / (es*n)`; every byte
quantity is `es` times the element quantity, so `es` cancels. -/
def pivot_fraction_code {α : Type} [Inhabited α] (cmp : α → α → Int) (l : List α) : ℚ :=
  let P := partitionF cmp l
  (((max (partL P) (partR P) : Nat) : ℚ) - ((min (partL P) (partR P) : Nat) : ℚ)
      - ((P.d1 : ℚ) + (P.d2 : ℚ)))
    / (l.length : ℚ)

/-- The value the specification claims for `pivot_fraction`:
`(max(L,R) - min(L,R) - E) / n` with `E = n - L - R`. -/
def pivot_fraction_claim {α : Type} [Inhabited α] (cmp : α → α → Int) (l : List α) : ℚ :=
  let P := partitionF cmp l
  (((max (partL P) (partR P) : Nat) : ℚ) - ((min (partL P) (partR P) : Nat) : ℚ)
      - ((l.length - partL P - partR P : Nat) : ℚ))
    / (l.length : ℚ)

/-! ### heapsort.c

The source works on a 1-indexed heap via `base = vbase - es`; heap position
`i` (1-based) is element index `i - 1` here.  `hcreate` is the `CREATE` macro
(sift down with swaps), `hph1`/`hph2` are the two phases of the `SELECT`
macro (Floyd's optimisation: promote the larger child all the way down, then
ascend from the leaf to the insertion point of the displaced record `k`). -/

/-- `CREATE(l, nmemb, ...)` from heapsort.c: sift the record at heap position
`i` down a heap of size `m`, swapping with the larger child while that child
compares greater. -/
def hcreate {α : Type} [Inhabited α] (cmp : α → α → Int) :
    Nat → Nat → Nat → List α → List α
  | 0, _, _, l => l
  | f + 1, m, i, l =>
    let c := 2 * i
    if m < c then l
    else
      let c' := if c < m ∧ cmp (aget l (c - 1)) (aget l c) < 0 then c + 1 else c
      if cmp (aget l (c' - 1)) (aget l (i - 1)) ≤ 0 then l
      else hcreate cmp f m c' (swapfunc l (i - 1) (c' - 1))

/-- The heap construction loop `for (l = nmemb / 2 + 1; --l;) CREATE(l, ...)`:
sift down positions `j, j-1, ..., 1`. -/
def hbuild {α : Type} [Inhabited α] (cmp : α → α → Int) (m : Nat) :
    Nat → List α → List α
  | 0, l => l
  | j + 1, l => hbuild cmp m j (hcreate cmp (m + 1) m (j + 1) l)

/-- Phase 1 of `SELECT`: starting from the root, copy the larger child over
its parent all the way to a leaf; returns the array and the leaf position. -/
def hph1 {α : Type} [Inhabited α] (cmp : α → α → Int) :
    Nat → Nat → Nat → List α → List α × Nat
  | 0, _, i, l => (l, i)
  | f + 1, m, i, l =>
    let c := 2 * i
    if m < c then (l, i)
    else
      let c' := if c < m ∧ cmp (aget l (c - 1)) (aget l c) < 0 then c + 1 else c
      hph1 cmp f m c' (l.set (i - 1) (aget l (c' - 1)))

/-- Phase 2 of `SELECT`: ascend from position `ci`, copying parents back down
until the displaced record `k` fits (`child_i == 1 || compar(k, par) < 0`). -/
def hph2 {α : Type} [Inhabited α] (cmp : α → α → Int) (k : α) :
    Nat → Nat → List α → List α
  | 0, _, l => l
  | f + 1, ci, l =>
    let pi := ci / 2
    if ci = 1 ∨ cmp k (aget l (pi - 1)) < 0 then l.set (ci - 1) k
    else hph2 cmp k f pi (l.set (ci - 1) (aget l (pi - 1)))

/-- The full `SELECT(m, k)`: heapify with the larger-child promotion, then
insert `k` from the leaf upward. -/
def hselect {α : Type} [Inhabited α] (cmp : α → α → Int) (m : Nat) (k : α)
    (l : List α) : List α :=
  let r := hph1 cmp (m + 1) m 1 l
  hph2 cmp k (r.2 + 1) r.2 r.1

/-- The selection loop `while (nmemb > 1)` of heapsort.c: save the last heap
record as `k`, move the root into the freed slot, shrink the heap and `SELECT`. -/
def hsel {α : Type} [Inhabited α] (cmp : α → α → Int) : Nat → List α → List α
  | 0, l => l
  | 1, l => l
  | m + 2, l =>
    let k := aget l (m + 1)
    let l1 := l.set (m + 1) (aget l 0)
    hsel cmp (m + 1) (hselect cmp (m + 1) k l1)

/-- The sorting body of `heapsort` for `nmemb > 1` and a usable scratch area. -/
def hrun {α : Type} [Inhabited α] (cmp : α → α → Int) (l : List α) : List α :=
  hsel cmp l.length (hbuild cmp l.length (l.length / 2) l)

/-- `heapsort` (heapsort.c lines 171-211).  Returns the C return code and the
array: `0` for `nmemb <= 1`; `-1` untouched for `size == 0`; for `size > 8`
the scratch area is `malloc`ed and failure (`allocOk = false`) returns `-1`
with the array untouched; otherwise the array is heap-sorted. -/
def heapsortF {α : Type} [Inhabited α] (cmp : α → α → Int) (es : Nat)
    (allocOk : Bool) (l : List α) : Int × List α :=
  if l.length ≤ 1 then (0, l)
  else if es = 0 then (-1, l)
  else if 8 < es ∧ ¬ allocOk then (-1, l)
  else (0, hrun cmp l)

/-! ### qsort.c : the driver local_qsort -/

/-- The quantities of the source that are computed in floating point or by the
allocator, abstracted as parameters (see the header comment): `MI n` models
`max_itn = (int)(INTROSORT_MULT * flog2(n) + 0.5f)`; `bad L R d1 d2 n` models
`pivot_fraction > MAX_PIVOT_FRACTION` for the float computed from those
element counts; `alloc` is the stream of heapsort scratch `malloc` outcomes. -/
structure QCfg : Type where
  MI : Nat → Nat
  bad : Nat → Nat → Nat → Nat → Nat → Bool
  alloc : Nat → Bool

/-- The body of `local_qsort` (qsort.c lines 550-959) with the `PAR_SORT`
branch taken sequentially: `fuel` is a structural bound (every recursive call
is on a strictly shorter segment), `maxItn`/`itn` the introsort bound and
counter of this invocation, `k` the position in the allocation stream, `bad`
the `pivot_fraction > MAX_PIVOT_FRACTION` outcome carried from the previous
partition (initially `0.5 > 0.999` is false).  Returns the sorted segment and
the advanced allocation-stream position. -/
def lqsGo {α : Type} [Inhabited α] (cfg : QCfg) (cmp : α → α → Int) (es : Nat) :
    Nat → Nat → Nat → Nat → Bool → List α → List α × Nat
  | 0, _, _, k, _, l => (l, k)
  | fuel + 1, maxItn, itn, k, bad, l =>
    let n := l.length
    if n ≤ 1 then (l, k)
    else if n < USE_SMALL_SORT then (small_sortq cmp l, k)
    else
      let ip := insPass cmp l
      if ip.2 then (ip.1, k)
      else
        let l1 := ip.1
        let itn' := itn + 1
        let attempt := maxItn < itn'
        let hres := if attempt then heapsortF cmp es (cfg.alloc k) l1 else (-1, l1)
        let k' := if attempt ∧ 8 < es then k + 1 else k
        if attempt ∧ hres.1 = 0 then (hres.2, k')
        else
          let l2 := if bad then pivotRobust cmp hres.2 else pivotFast cmp hres.2
          let P := partitionF cmp l2
          let L := partL P
          let R := partR P
          let bad' := cfg.bad L R P.d1 P.d2 n
          let left := P.l.take L
          let mid := (P.l.drop L).take (n - L - R)
          let right := P.l.drop (n - R)
          if L ≤ R then
            let a1 := if 1 < L then lqsGo cfg cmp es fuel (cfg.MI L) 0 k' false left
              else (left, k')
            if 1 < R then
              let a2 := lqsGo cfg cmp es fuel maxItn itn' a1.2 bad' right
              (a1.1 ++ mid ++ a2.1, a2.2)
            else (a1.1 ++ mid ++ right, a1.2)
          else
            let a1 := if 1 < R then lqsGo cfg cmp es fuel (cfg.MI R) 0 k' false right
              else (right, k')
            if 1 < L then
              let a2 := lqsGo cfg cmp es fuel maxItn itn' a1.2 bad' left
              (a2.1 ++ mid ++ a1.1, a2.2)
            else (left ++ mid ++ a1.1, a1.2)

/-- `local_qsort(a, n, es, cmp, pT_i)`: one top-level invocation of the driver
(`itn = 0`, `max_itn` computed from the segment length, initial
`pivot_fraction = 0.5`). -/
def local_qsortF {α : Type} [Inhabited α] (cfg : QCfg) (cmp : α → α → Int)
    (es : Nat) (l : List α) (k : Nat) : List α × Nat :=
  lqsGo cfg cmp es l.length (cfg.MI l.length) 0 k false l

/-- `qsort` (qsort.c lines 998-1020): the public entry point.  `n <= 1` or
`es == 0` is a no-op; short arrays go straight to `small_sortq`; otherwise
`local_qsort` runs (with or without the thread pool, which does not change the
result). -/
def qsortF {α : Type} [Inhabited α] (cfg : QCfg) (cmp : α → α → Int)
    (es : Nat) (l : List α) : List α :=
  if l.length ≤ 1 ∨ es = 0 then l
  else if l.length < USE_SMALL_SORT then small_sortq cmp l
  else (local_qsortF cfg cmp es l 0).1

/-! ### Statement-level definitions -/

/-- The sortedness property of the specification: the comparator applied to
record `i` and record `i+1` is `≤ 0` for every `0 ≤ i < n-1`. -/
def SortedA {α : Type} [Inhabited α] (cmp : α → α → Int) (l : List α) : Prop :=
  ∀ i, i + 1 < l.length → cmp (aget l i) (aget l (i + 1)) ≤ 0

/-- The number of pivot-equal records parked at the front of the segment by
the partition scans (the pivot itself included): `pa - a` in elements. -/
def partEa {α : Type} (P : PartOut α) : Nat := P.pa

/-- The number of pivot-equal records parked at the back of the segment by
the partition scans: `pn - pd - es` in elements. -/
def partEb {α : Type} (P : PartOut α) : Nat := P.l.length - 1 - P.pd

/-- The value `pivot_fraction` actually receives (amended claim): with the
partition classes `L`, `R` and the parked pivot-equal counts `Ea` (front,
pivot included) and `Eb` (back), the fraction is
`(max(L,R) - min(L,R) - (min(Ea,L) + min(Eb,R))) / n`. -/
def pivot_fraction_fix {α : Type} [Inhabited α] (cmp : α → α → Int) (l : List α) : ℚ :=
  let P := partitionF cmp l
  (((max (partL P) (partR P) : Nat) : ℚ) - ((min (partL P) (partR P) : Nat) : ℚ)
      - ((min (partEa P) (partL P) : Nat) : ℚ) - ((min (partEb P) (partR P) : Nat) : ℚ))
    / (l.length : ℚ)

/-- The sort key of a line under the numeric comparators with the modelled
parser. -/
def keyOf (s : List Char) : ℚ := keyOfGen strtodM s

/-- A concrete lawful comparator on `Int`, used to instantiate theorems at
concrete inputs. -/
def intCmp (a b : Int) : Int := if a < b then -1 else if a = b then 0 else 1

/-- A fixed driver configuration for instantiating theorems at concrete
inputs (`max_itn = 0`, fast pivot path, allocations succeed). -/
def qcfg0 : QCfg :=
  { MI := fun _ => 0, bad := fun _ _ _ _ _ => false, alloc := fun _ => true }

/-- A driver configuration whose every heapsort scratch allocation fails
(`malloc` returns `NULL` each time). -/
def qcfgF : QCfg :=
  { MI := fun _ => 0, bad := fun _ _ _ _ _ => false, alloc := fun _ => false }

/-- The max-heap property of heapsort.c on 1-based positions `1..m`: each
record compares `≤ 0` against its parent. -/
def Heap {α : Type} [Inhabited α] (cmp : α → α → Int) (m : Nat) (l : List α) : Prop :=
  ∀ i, 2 ≤ i → i ≤ m → cmp (aget l (i - 1)) (aget l (i / 2 - 1)) ≤ 0

/-- Every record of the heap area (element indices `< m`) compares `≤ 0`
against the value `v`. -/
def Below {α : Type} [Inhabited α] (cmp : α → α → Int) (m : Nat) (v : α)
    (l : List α) : Prop :=
  ∀ j, j < m → cmp (aget l j) v ≤ 0

/-! ## Theorems -/

/-! ### Basic facts about `aget`, `set` and `swapfunc` -/

theorem length_swapfunc {α : Type} [Inhabited α] (l : List α) (i j : Nat) :
    (swapfunc l i j).length = l.length := by
  simp [swapfunc]

theorem aget_set_self {α : Type} [Inhabited α] (l : List α) (i : Nat) (x : α)
    (h : i < l.length) : aget (l.set i x) i = x := by
  simp [aget, List.getD, List.getElem?_set_self', h]

theorem aget_set_ne {α : Type} [Inhabited α] (l : List α) (i j : Nat) (x : α)
    (h : i ≠ j) : aget (l.set i x) j = aget l j := by
  simp [aget, List.getD, List.getElem?_set_ne, h]

theorem aget_swapfunc_fst {α : Type} [Inhabited α] (l : List α) (i j : Nat)
    (hi : i < l.length) : aget (swapfunc l i j) i = if j = i then aget l i else aget l j := by
  by_cases h : j = i
  · subst h; simp [swapfunc, aget_set_self _ _ _ (by simpa using hi)]
  · rw [swapfunc, aget_set_ne (l.set i (aget l j)) j i (aget l i) h,
      aget_set_self _ _ _ hi]
    simp [h]

theorem aget_swapfunc_snd {α : Type} [Inhabited α] (l : List α) (i j : Nat)
    (hj : j < l.length) : aget (swapfunc l i j) j = aget l i := by
  rw [swapfunc, aget_set_self _ _ _ (by simpa using hj)]

theorem aget_swapfunc_other {α : Type} [Inhabited α] (l : List α) (i j t : Nat)
    (hi : t ≠ i) (hj : t ≠ j) : aget (swapfunc l i j) t = aget l t := by
  rw [swapfunc, aget_set_ne _ _ _ _ (fun h => hj h.symm), aget_set_ne _ _ _ _ (fun h => hi h.symm)]

theorem getset_cons_perm {α : Type} [Inhabited α] :
    ∀ (t : List α) (j : Nat) (x : α), j < t.length →
      (aget t j :: t.set j x).Perm (x :: t)
  | a :: t, 0, x, _ => by
    simpa [aget] using List.Perm.swap x a t
  | a :: t, j + 1, x, h => by
    have ih := getset_cons_perm t j x (by simpa using h)
    have h1 : (aget (a :: t) (j + 1) :: (a :: t).set (j + 1) x).Perm
        (a :: aget t j :: t.set j x) := by
      simpa [aget, List.getD_cons_succ] using List.Perm.swap a (aget t j) (t.set j x)
    exact h1.trans ((ih.cons a).trans (List.Perm.swap x a t))

theorem swapfunc_perm {α : Type} [Inhabited α] :
    ∀ (l : List α) (i j : Nat), i < l.length → j < l.length →
      (swapfunc l i j).Perm l
  | [], i, j, hi, _ => by simp at hi
  | a :: t, 0, 0, _, _ => by simp [swapfunc, aget]
  | a :: t, 0, j + 1, hi, hj => by
    rw [swapfunc]
    have hj' : j < t.length := by simpa using hj
    have : ((a :: t).set 0 (aget (a :: t) (j + 1))).set (j + 1) (aget (a :: t) 0)
        = aget t j :: t.set j a := by
      simp [aget, List.getD_cons_succ, List.getD_cons_zero]
    rw [this]
    exact getset_cons_perm t j a hj'
  | a :: t, i + 1, 0, hi, hj => by
    rw [swapfunc]
    have hi' : i < t.length := by simpa using hi
    have : ((a :: t).set (i + 1) (aget (a :: t) 0)).set 0 (aget (a :: t) (i + 1))
        = aget t i :: t.set i a := by
      simp [aget, List.getD_cons_succ, List.getD_cons_zero]
    rw [this]
    exact getset_cons_perm t i a hi'
  | a :: t, i + 1, j + 1, hi, hj => by
    rw [swapfunc]
    have hi' : i < t.length := by simpa using hi
    have hj' : j < t.length := by simpa using hj
    have : ((a :: t).set (i + 1) (aget (a :: t) (j + 1))).set (j + 1) (aget (a :: t) (i + 1))
        = a :: ((t.set i (aget t j)).set j (aget t i)) := by
      simp [aget, List.getD_cons_succ]
    rw [this]
    exact (swapfunc_perm t i j hi' hj').cons a

theorem length_vecswapF {α : Type} [Inhabited α] :
    ∀ (c : Nat) (l : List α) (i j : Nat), (vecswapF c l i j).length = l.length
  | 0, _, _, _ => rfl
  | c + 1, l, i, j => by
    rw [vecswapF, length_vecswapF c, length_swapfunc]

theorem vecswapF_perm {α : Type} [Inhabited α] :
    ∀ (c : Nat) (l : List α) (i j : Nat), i + c ≤ l.length → j + c ≤ l.length →
      (vecswapF c l i j).Perm l
  | 0, l, _, _, _, _ => List.Perm.refl l
  | c + 1, l, i, j, hi, hj => by
    rw [vecswapF]
    have hs := swapfunc_perm l i j (by omega) (by omega)
    have hl := length_swapfunc l i j
    exact (vecswapF_perm c _ (i + 1) (j + 1) (by omega) (by omega)).trans hs

theorem length_bubble {α : Type} [Inhabited α] (cmp : α → α → Int) :
    ∀ (j : Nat) (l : List α), (bubble cmp l j).length = l.length
  | 0, _ => rfl
  | j + 1, l => by
    rw [bubble]
    split
    · rw [length_bubble cmp j, length_swapfunc]
    · rfl

theorem bubble_perm {α : Type} [Inhabited α] (cmp : α → α → Int) :
    ∀ (j : Nat) (l : List α), j < l.length → (bubble cmp l j).Perm l
  | 0, l, _ => List.Perm.refl l
  | j + 1, l, h => by
    rw [bubble]
    split
    · exact (bubble_perm cmp j _ (by rw [length_swapfunc]; omega)).trans
        (swapfunc_perm l (j + 1) j h (by omega))
    · exact List.Perm.refl l

theorem length_ssAux {α : Type} [Inhabited α] (cmp : α → α → Int) :
    ∀ (r : Nat) (l : List α) (i : Nat), (ssAux cmp r l i).length = l.length
  | 0, _, _ => rfl
  | r + 1, l, i => by rw [ssAux, length_ssAux cmp r, length_bubble]

theorem ssAux_perm {α : Type} [Inhabited α] (cmp : α → α → Int) :
    ∀ (r : Nat) (l : List α) (i : Nat), i + r ≤ l.length → (ssAux cmp r l i).Perm l
  | 0, l, _, _ => List.Perm.refl l
  | r + 1, l, i, h => by
    rw [ssAux]
    exact (ssAux_perm cmp r _ (i + 1) (by rw [length_bubble]; omega)).trans
      (bubble_perm cmp i l (by omega))

theorem length_small_sortq {α : Type} [Inhabited α] (cmp : α → α → Int) (l : List α) :
    (small_sortq cmp l).length = l.length := by
  rw [small_sortq, length_ssAux]

theorem small_sortq_perm {α : Type} [Inhabited α] (cmp : α → α → Int) (l : List α) :
    (small_sortq cmp l).Perm l := by
  rw [small_sortq]
  match l with
  | [] => exact List.Perm.refl []
  | a :: t => exact ssAux_perm cmp _ _ 1 (by simp; omega)

theorem length_insPassAux {α : Type} [Inhabited α] (cmp : α → α → Int) :
    ∀ (r : Nat) (l : List α) (i cnt : Nat),
      (insPassAux cmp r l i cnt).1.length = l.length
  | 0, _, _, _ => rfl
  | r + 1, l, i, cnt => by
    rw [insPassAux]
    split
    · split
      · rfl
      · rw [length_insPassAux cmp r, length_bubble]
    · rw [length_insPassAux cmp r, length_bubble]

theorem insPassAux_perm {α : Type} [Inhabited α] (cmp : α → α → Int) :
    ∀ (r : Nat) (l : List α) (i cnt : Nat), 1 ≤ i → i + r ≤ l.length →
      (insPassAux cmp r l i cnt).1.Perm l
  | 0, l, _, _, _, _ => List.Perm.refl l
  | r + 1, l, i, cnt, h1, h => by
    rw [insPassAux]
    split
    · split
      · exact List.Perm.refl l
      · exact (insPassAux_perm cmp r _ (i + 1) _ (by omega)
            (by rw [length_bubble]; omega)).trans (bubble_perm cmp i l (by omega))
    · exact (insPassAux_perm cmp r _ (i + 1) _ (by omega)
          (by rw [length_bubble]; omega)).trans (bubble_perm cmp i l (by omega))

theorem length_insPass {α : Type} [Inhabited α] (cmp : α → α → Int) (l : List α) :
    (insPass cmp l).1.length = l.length := by
  rw [insPass, length_insPassAux]

theorem insPass_perm {α : Type} [Inhabited α] (cmp : α → α → Int) (l : List α) :
    (insPass cmp l).1.Perm l := by
  rw [insPass]
  match l with
  | [] => exact List.Perm.refl []
  | a :: t => exact insPassAux_perm cmp _ _ 1 0 (by omega) (by simp; omega)

/-! ### Sorted inputs are untouched (the C8 no-op paths) -/

theorem bubble_of_le {α : Type} [Inhabited α] (cmp : α → α → Int) (l : List α)
    (i : Nat) (h1 : 1 ≤ i) (h : ¬ cmp (aget l (i - 1)) (aget l i) > 0) :
    bubble cmp l i = l := by
  match i, h1 with
  | j + 1, _ =>
    rw [bubble, if_neg (by simpa using h)]

theorem ssAux_sorted {α : Type} [Inhabited α] (cmp : α → α → Int) :
    ∀ (r : Nat) (l : List α) (i : Nat), 1 ≤ i → i + r ≤ l.length →
      SortedA cmp l → ssAux cmp r l i = l
  | 0, _, _, _, _, _ => rfl
  | r + 1, l, i, h1, h, hs => by
    have hb : bubble cmp l i = l := by
      refine bubble_of_le cmp l i h1 ?_
      have := hs (i - 1) (by omega)
      have hi : i - 1 + 1 = i := by omega
      rw [hi] at this
      omega
    rw [ssAux, hb]
    exact ssAux_sorted cmp r l (i + 1) (by omega) (by omega) hs

theorem small_sortq_sorted {α : Type} [Inhabited α] (cmp : α → α → Int) (l : List α)
    (hs : SortedA cmp l) : small_sortq cmp l = l := by
  rw [small_sortq]
  match l with
  | [] => rfl
  | a :: t => exact ssAux_sorted cmp _ _ 1 (by omega) (by simp; omega) hs

theorem insPassAux_sorted {α : Type} [Inhabited α] (cmp : α → α → Int) :
    ∀ (r : Nat) (l : List α) (i cnt : Nat), 1 ≤ i → i + r ≤ l.length →
      SortedA cmp l → insPassAux cmp r l i cnt = (l, true)
  | 0, _, _, _, _, _, _ => rfl
  | r + 1, l, i, cnt, h1, h, hs => by
    have hle : ¬ cmp (aget l (i - 1)) (aget l i) > 0 := by
      have := hs (i - 1) (by omega)
      have hi : i - 1 + 1 = i := by omega
      rw [hi] at this
      omega
    rw [insPassAux, if_neg hle, bubble_of_le cmp l i h1 hle]
    exact insPassAux_sorted cmp r l (i + 1) cnt (by omega) (by omega) hs

theorem insPass_sorted {α : Type} [Inhabited α] (cmp : α → α → Int) (l : List α)
    (hs : SortedA cmp l) : insPass cmp l = (l, true) := by
  rw [insPass]
  match l with
  | [] => rfl
  | a :: t => exact insPassAux_sorted cmp _ _ 1 0 (by omega) (by simp; omega) hs

/-! ### Claim C10 : option letters are case-insensitive -/

theorem toNat_ofNat_valid (n : Nat) (h : n < 55296) : (Char.ofNat n).toNat = n := by
  rw [Char.ofNat, dif_pos (Or.inl h)]
  simp [Char.ofNatAux, Char.toNat, UInt32.toNat]

theorem ctl_idem (c : Char) : c_tolower (c_tolower c) = c_tolower c := by
  unfold c_tolower
  by_cases h : 65 ≤ c.toNat ∧ c.toNat ≤ 90
  · rw [if_pos h, if_neg]
    rw [toNat_ofNat_valid _ (by omega)]
    omega
  · rw [if_neg h, if_neg h]

/-- Claim C10: nsort's option characters are passed through `tolower` before
dispatch, so processing any option character has exactly the effect of
processing its lowercased form, and a whole cluster of uppercase options has
the effect of the lowercase cluster. -/
theorem claim_C10 :
    (∀ (st : OptState) (c : Char), optStep st c = optStep st (c_tolower c)) ∧
    (∀ (st : OptState) (cs : List Char), optArg st cs = optArg st (cs.map c_tolower)) := by
  have h1 : ∀ (st : OptState) (c : Char), optStep st c = optStep st (c_tolower c) := by
    intro st c
    show (match c_tolower c with
      | 'n' => { st with comp := CompSel.num }
      | 'o' => { st with need_outfile := true }
      | 'q' => { st with comp := CompSel.num }
      | 'u' => { st with do_uniq := true }
      | 'v' => { st with verbose := true }
      | '?' => { st with usage_exit := true }
      | 'h' => { st with usage_exit := true }
      | _ => { st with usage_exit := true }) = optStep st (c_tolower c)
    rw [optStep, ctl_idem]
  refine ⟨h1, ?_⟩
  intro st cs
  induction cs generalizing st with
  | nil => rfl
  | cons c cs ih =>
    show optArg (optStep st c) cs = optArg (optStep st (c_tolower c)) (cs.map c_tolower)
    rw [← h1, ih]

/-! ### Claim C3 : the -q flag does not select the quoted-numeric comparator -/

/-- Claim C3 (code bug): parsing `-q` sets the comparator to `mynCompare`, the
plain numeric comparator, not `mynqCompare` — contrary to the help text
"-q sort on initial numbers in double quotes" and the source comment
"compare quoted numbers"; and the two comparators order the quoted lines
`"2",y` and `"10",x` differently, so the difference is observable. -/
theorem claim_C3 :
    (parseArgs initOptState [['-', 'q']]).1.comp = CompSel.num ∧
    compFn CompSel.num = mynCompare ∧
    mynCompare ("\"2\",y".toList) ("\"10\",x".toList) = 1 ∧
    mynqCompare ("\"2\",y".toList) ("\"10\",x".toList) = -1 := by
  refine ⟨by decide, rfl, ?_, ?_⟩
  · show mynCompare ['"', '2', '"', ',', 'y'] ['"', '1', '0', '"', ',', 'x'] = 1
    simp [mynCompare, mynCompareGen, keyOfGen, strtodM, takeDigits, digitsAux,
      isdigitC, isspaceC, strcmpM]
  · show mynqCompare ['"', '2', '"', ',', 'y'] ['"', '1', '0', '"', ',', 'x'] = -1
    simp [mynqCompare, mynqCompareGen, keyOfGen, qskip, strtodM, takeDigits, digitsAux,
      isdigitC, isspaceC, strcmpM]
    norm_num

/-! ### Claim C6 : numeric comparator keys -/

/-- Claim C6, amended: under `mynCompare`, (i) a line whose prefix does not
parse receives the key `-DBL_MAX`; (ii) an unparseable line sorts strictly
before any line whose parsed number exceeds `-DBL_MAX` (not before every
parseable line: a parsed value can lie at or below `-DBL_MAX`); (iii) lines
with equal numeric keys are ordered by byte-wise comparison of the whole
lines. -/
theorem claim_C6 :
    (∀ (P : List Char → Option ℚ) (a : List Char), P a = none → keyOfGen P a = negMax) ∧
    (∀ (P : List Char → Option ℚ) (a b : List Char) (v : ℚ),
      P a = none → P b = some v → negMax < v →
      mynCompareGen P a b = -1 ∧ mynCompareGen P b a = 1) ∧
    (∀ (P : List Char → Option ℚ) (a b : List Char),
      keyOfGen P a = keyOfGen P b → mynCompareGen P a b = strcmpM a b) := by
  refine ⟨?_, ?_, ?_⟩
  · intro P a h
    simp [keyOfGen, h]
  · intro P a b v ha hb hv
    have h1 : keyOfGen P a = negMax := by simp [keyOfGen, ha]
    have h2 : keyOfGen P b = v := by simp [keyOfGen, hb]
    constructor
    · rw [mynCompareGen, h1, h2, if_neg (by exact fun h => absurd h (ne_of_lt hv)),
        if_pos hv]
    · rw [mynCompareGen, h1, h2, if_neg (by exact fun h => absurd h.symm (ne_of_lt hv)),
        if_neg (by exact fun h => absurd (lt_trans h hv) (lt_irrefl v))]
  · intro P a b h
    rw [mynCompareGen, if_pos h]

/-- Claim C6, counterexample to the claim as stated: the line `-1e400` parses
to a number strictly below `-DBL_MAX`, so this parseable line sorts strictly
before the unparseable line `zzz` under `mynCompare` — refuting "all
unparseable lines sort before any line with a parseable number". -/
theorem claim_C6_cex :
    strtodM ['z', 'z', 'z'] = none ∧
    strtodM ['-', '1', 'e', '4', '0', '0'] = some (-((10 : ℚ) ^ (400 : Nat))) ∧
    (-((10 : ℚ) ^ (400 : Nat))) < negMax ∧
    mynCompare ['-', '1', 'e', '4', '0', '0'] ['z', 'z', 'z'] = -1 ∧
    mynCompare ['z', 'z', 'z'] ['-', '1', 'e', '4', '0', '0'] = 1 := by
  have h1 : strtodM ['z', 'z', 'z'] = none := by
    simp [strtodM, takeDigits, digitsAux, isdigitC, isspaceC]
  have h2 : strtodM ['-', '1', 'e', '4', '0', '0'] = some (-((10 : ℚ) ^ (400 : Nat))) := by
    simp [strtodM, takeDigits, digitsAux, isdigitC, isspaceC]
    norm_num
  have h3 : (-((10 : ℚ) ^ (400 : Nat))) < negMax := by
    rw [negMax]
    norm_num
  have ka : keyOfGen strtodM ['-', '1', 'e', '4', '0', '0'] = -((10 : ℚ) ^ (400 : Nat)) := by
    rw [keyOfGen, h2]
    rfl
  have kb : keyOfGen strtodM ['z', 'z', 'z'] = negMax := by
    rw [keyOfGen, h1]
    rfl
  refine ⟨h1, h2, h3, ?_, ?_⟩
  · rw [mynCompare, mynCompareGen]
    rw [ka, kb, if_neg (by exact fun h => absurd h (ne_of_lt h3)), if_pos h3]
  · rw [mynCompare, mynCompareGen]
    rw [ka, kb, if_neg (by exact fun h => absurd h.symm (ne_of_lt h3)),
      if_neg (by exact fun h => absurd (lt_trans h h3) (lt_irrefl _))]

/-- Witness for the amended claim C6 at concrete lines (`zzz` unparseable,
`2.5` parsing to `5/2 > -DBL_MAX`). -/
theorem claim_C6_witness :
    keyOfGen strtodM ['z', 'z', 'z'] = negMax ∧
    mynCompareGen strtodM ['z', 'z', 'z'] ['2', '.', '5'] = -1 ∧
    mynCompareGen strtodM ['2', '.', '5'] ['z', 'z', 'z'] = 1 := by
  have h1 : strtodM ['z', 'z', 'z'] = none := by
    simp [strtodM, takeDigits, digitsAux, isdigitC, isspaceC]
  have h2 : strtodM ['2', '.', '5'] = some (5 / 2) := by
    simp [strtodM, takeDigits, digitsAux, isdigitC, isspaceC]
    norm_num
  have h3 : negMax < 5 / 2 := by
    rw [negMax]
    norm_num
  exact ⟨claim_C6.1 strtodM _ h1,
    (claim_C6.2.1 strtodM _ _ _ h1 h2 h3).1,
    (claim_C6.2.1 strtodM _ _ _ h1 h2 h3).2⟩

/-! ### Claim C4 : the run set never exceeds MAXSUBFILES -/

theorem runsFold_le {L : Type} [Inhabited L] (comp : L → L → Int)
    (srt : List L → List L) :
    ∀ (spills : List (List L)) (st : List (List L)), st.length ≤ MAXSUBFILES →
      (spills.foldl (fun st b => (make_subfileF comp srt st b).1) st).length ≤ MAXSUBFILES
  | [], _, h => h
  | b :: rest, st, h => by
    rw [List.foldl_cons]
    refine runsFold_le comp srt rest _ ?_
    rw [make_subfileF]
    split
    · simp [MAXSUBFILES]
    · rename_i hlt
      simp only [MAXSUBFILES, not_le] at hlt
      simp [MAXSUBFILES]
      omega

/-- Claim C4: starting from no open runs, the number of open runs after any
sequence of spills never exceeds `MAXSUBFILES = 16`; a spill that would push
the count above 16 (the count is already 16) first merges all open runs into
one and leaves exactly 2 open runs (the merged-of-old plus the new), and a
spill from fewer than 16 runs just appends the new run. -/
theorem claim_C4 {L : Type} [Inhabited L] (comp : L → L → Int) (srt : List L → List L) :
    (∀ spills : List (List L), (runsAfter comp srt spills).length ≤ MAXSUBFILES) ∧
    (∀ (runs : List (List L)) (batch : List L), runs.length = MAXSUBFILES →
      make_subfileF comp srt runs batch = ([kmerge comp runs, srt batch], true) ∧
      (make_subfileF comp srt runs batch).1.length = 2) ∧
    (∀ (runs : List (List L)) (batch : List L), runs.length < MAXSUBFILES →
      make_subfileF comp srt runs batch = (runs ++ [srt batch], false) ∧
      (make_subfileF comp srt runs batch).1.length = runs.length + 1) := by
  refine ⟨?_, ?_, ?_⟩
  · intro spills
    exact runsFold_le comp srt spills [] (by simp)
  · intro runs batch h
    have he : make_subfileF comp srt runs batch = ([kmerge comp runs, srt batch], true) := by
      rw [make_subfileF, if_pos (le_of_eq h.symm)]
    exact ⟨he, by rw [he]; simp⟩
  · intro runs batch h
    have he : make_subfileF comp srt runs batch = (runs ++ [srt batch], false) := by
      rw [make_subfileF, if_neg (by omega)]
    exact ⟨he, by rw [he]; simp⟩

/-- Witness for claim C4: seventeen consecutive spills of empty batches stay
within the run bound; a spill at exactly 16 open runs sub-merges down to 2;
a spill below the bound appends. -/
theorem claim_C4_witness :
    (runsAfter intCmp id (List.replicate 17 ([] : List Int))).length ≤ MAXSUBFILES ∧
    (make_subfileF intCmp id (List.replicate 16 ([] : List Int)) []).1.length = 2 ∧
    (make_subfileF intCmp id (List.replicate 3 ([] : List Int)) []).1.length = 3 + 1 := by
  refine ⟨(claim_C4 intCmp id).1 (List.replicate 17 []), ?_, ?_⟩
  · exact ((claim_C4 intCmp id).2.1 (List.replicate 16 []) [] (by simp [MAXSUBFILES])).2
  · have := ((claim_C4 intCmp id).2.2 (List.replicate 3 []) [] (by simp [MAXSUBFILES])).2
    simpa using this

/-! ### Claim C8 : sorting a sorted array is the identity -/

theorem intCmp_lawful : LawfulCmp intCmp := by
  constructor
  · intro x y
    simp only [intCmp]
    split_ifs <;> omega
  · intro x y z h1 h2
    simp only [intCmp] at h1 h2 ⊢
    split_ifs at h1 h2 ⊢ <;> omega

theorem lqsGo_sorted {α : Type} [Inhabited α] (cfg : QCfg) (cmp : α → α → Int)
    (es : Nat) (fuel maxItn itn k : Nat) (bad : Bool) (l : List α)
    (hf : 1 ≤ fuel) (hs : SortedA cmp l) :
    lqsGo cfg cmp es fuel maxItn itn k bad l = (l, k) := by
  match fuel, hf with
  | f + 1, _ =>
    rw [lqsGo]
    by_cases h1 : l.length ≤ 1
    · rw [if_pos h1]
    · rw [if_neg h1]
      by_cases h2 : l.length < USE_SMALL_SORT
      · rw [if_pos h2, small_sortq_sorted cmp l hs]
      · rw [if_neg h2]
        simp [insPass_sorted cmp l hs]

/-- Claim C8: for an array already sorted under the comparator (every adjacent
pair compares `≤ 0`), `qsort` returns the array unchanged.  (Lawfulness of the
comparator makes the specialised `es = 4` / `es = 8` source paths, which test
the mirrored comparison `cmp a[i] a[i-1] < 0`, agree with the generic path
embedded here.) -/
theorem claim_C8 {α : Type} [Inhabited α] (cfg : QCfg) (cmp : α → α → Int)
    (es : Nat) (l : List α) (hlaw : LawfulCmp cmp) (hs : SortedA cmp l) :
    qsortF cfg cmp es l = l := by
  rw [qsortF]
  by_cases h1 : l.length ≤ 1 ∨ es = 0
  · rw [if_pos h1]
  · rw [if_neg h1]
    by_cases h2 : l.length < USE_SMALL_SORT
    · rw [if_pos h2]
      exact small_sortq_sorted cmp l hs
    · rw [if_neg h2, local_qsortF, lqsGo_sorted cfg cmp es _ _ _ _ _ _ (by omega) hs]

/-- Witness for claim C8: a concrete sorted array of ints is returned
unchanged. -/
theorem claim_C8_witness : qsortF qcfg0 intCmp 8 [1, 2, 3] = [1, 2, 3] :=
  claim_C8 qcfg0 intCmp 8 [1, 2, 3] intCmp_lawful
    (fun i hi => by
      have hi2 : i < 2 := by simp at hi; omega
      interval_cases i <;> decide)

/-! ### Claim C5 : the partition invariant and the pivot fraction -/

theorem pscan1_spec {α : Type} [Inhabited α] (cmp : α → α → Int) :
    ∀ (f : Nat) (l : List α) (pa pb pc : Nat),
      1 ≤ pa → pa ≤ pb → pb ≤ pc + 1 → pc + 1 ≤ l.length → pc + 2 ≤ f + pb →
      (∀ i, 1 ≤ i → i < pa → cmp (aget l i) (aget l 0) = 0) →
      (∀ i, pa ≤ i → i < pb → cmp (aget l i) (aget l 0) < 0) →
      ∃ l' pa' pb', pscan1 cmp f l pa pb pc = (l', pa', pb') ∧
        l'.length = l.length ∧
        l'.Perm l ∧
        aget l' 0 = aget l 0 ∧
        pa ≤ pa' ∧ pa' ≤ pb' ∧ pb ≤ pb' ∧ pb' ≤ pc + 1 ∧
        (∀ i, 1 ≤ i → i < pa' → cmp (aget l' i) (aget l 0) = 0) ∧
        (∀ i, pa' ≤ i → i < pb' → cmp (aget l' i) (aget l 0) < 0) ∧
        (∀ i, pb' ≤ i → aget l' i = aget l i) ∧
        (pb' = pc + 1 ∨ cmp (aget l' pb') (aget l 0) > 0) := by
  intro f
  induction f with
  | zero =>
    intro l pa pb pc h1 h2 h3 h4 hf z1 z2
    omega
  | succ f ih =>
    intro l pa pb pc h1 h2 h3 h4 hf z1 z2
    rw [pscan1]
    by_cases hbc : pb ≤ pc
    · rw [if_pos hbc]
      by_cases hle : cmp (aget l pb) (aget l 0) ≤ 0
      · rw [if_pos hle]
        by_cases heq : cmp (aget l pb) (aget l 0) = 0
        · rw [if_pos heq]
          have hpalen : pa < l.length := by omega
          have hpblen : pb < l.length := by omega
          have hlen : (swapfunc l pa pb).length = l.length := length_swapfunc l pa pb
          have hpiv : aget (swapfunc l pa pb) 0 = aget l 0 :=
            aget_swapfunc_other l pa pb 0 (by omega) (by omega)
          have z1' : ∀ i, 1 ≤ i → i < pa + 1 →
              cmp (aget (swapfunc l pa pb) i) (aget (swapfunc l pa pb) 0) = 0 := by
            intro i hi1 hi2
            rw [hpiv]
            by_cases hie : i = pa
            · subst hie
              rw [aget_swapfunc_fst l i pb hpalen]
              by_cases hpe : pb = i
              · rw [if_pos hpe]
                rw [hpe] at heq
                exact heq
              · rw [if_neg hpe]
                exact heq
            · rw [aget_swapfunc_other l pa pb i (fun h => hie h) (by omega)]
              exact z1 i hi1 (by omega)
          have z2' : ∀ i, pa + 1 ≤ i → i < pb + 1 →
              cmp (aget (swapfunc l pa pb) i) (aget (swapfunc l pa pb) 0) < 0 := by
            intro i hi1 hi2
            rw [hpiv]
            by_cases hie : i = pb
            · subst hie
              rw [aget_swapfunc_snd l pa i hpblen]
              exact z2 pa (le_refl pa) (by omega)
            · rw [aget_swapfunc_other l pa pb i (by omega) hie]
              exact z2 i (by omega) (by omega)
          obtain ⟨l', pa', pb', heqr, hl, hperm, hpiv', hpa, hab, hpb, hpc1, w1, w2, w3, w4⟩ :=
            ih (swapfunc l pa pb) (pa + 1) (pb + 1) pc (by omega) (by omega) (by omega)
              (by omega) (by omega) z1' z2'
          refine ⟨l', pa', pb', heqr, by omega, hperm.trans (swapfunc_perm l pa pb hpalen hpblen),
            by rw [hpiv', hpiv], by omega, hab, by omega, hpc1, ?_, ?_, ?_, ?_⟩
          · intro i hi1 hi2
            have := w1 i hi1 hi2
            rw [hpiv] at this
            exact this
          · intro i hi1 hi2
            have := w2 i hi1 hi2
            rw [hpiv] at this
            exact this
          · intro i hi
            rw [w3 i hi, aget_swapfunc_other l pa pb i (by omega) (by omega)]
          · rcases w4 with h | h
            · exact Or.inl h
            · rw [hpiv] at h
              exact Or.inr h
        · rw [if_neg heq]
          have hlt : cmp (aget l pb) (aget l 0) < 0 := by omega
          have z2' : ∀ i, pa ≤ i → i < pb + 1 → cmp (aget l i) (aget l 0) < 0 := by
            intro i hi1 hi2
            by_cases hie : i = pb
            · subst hie; exact hlt
            · exact z2 i hi1 (by omega)
          obtain ⟨l', pa', pb', heqr, hl, hperm, hpiv', hpa, hab, hpb, hpc1, w1, w2, w3, w4⟩ :=
            ih l pa (pb + 1) pc h1 (by omega) (by omega) h4 (by omega) z1 z2'
          exact ⟨l', pa', pb', heqr, hl, hperm, hpiv', hpa, hab, by omega, hpc1,
            w1, w2, w3, w4⟩
      · rw [if_neg hle]
        refine ⟨l, pa, pb, rfl, rfl, List.Perm.refl l, rfl, le_refl pa, h2, le_refl pb,
          by omega, z1, z2, fun i _ => rfl, Or.inr (by omega)⟩
    · rw [if_neg hbc]
      refine ⟨l, pa, pb, rfl, rfl, List.Perm.refl l, rfl, le_refl pa, h2, le_refl pb,
        by omega, z1, z2, fun i _ => rfl, Or.inl (by omega)⟩

theorem pscan2_spec {α : Type} [Inhabited α] (cmp : α → α → Int) :
    ∀ (f : Nat) (l : List α) (pb pc pd : Nat),
      1 ≤ pb → pb ≤ pc + 1 → pc ≤ pd → pd + 1 ≤ l.length → pc + 2 ≤ f + pb →
      (∀ i, pc < i → i ≤ pd → cmp (aget l i) (aget l 0) > 0) →
      (∀ i, pd < i → i + 1 ≤ l.length → cmp (aget l i) (aget l 0) = 0) →
      ∃ l' pc' pd', pscan2 cmp f l pb pc pd = (l', pc', pd') ∧
        l'.length = l.length ∧
        l'.Perm l ∧
        aget l' 0 = aget l 0 ∧
        pb ≤ pc' + 1 ∧ pc' ≤ pc ∧ pc' ≤ pd' ∧ pd' ≤ pd ∧
        (∀ i, pc' < i → i ≤ pd' → cmp (aget l' i) (aget l 0) > 0) ∧
        (∀ i, pd' < i → i + 1 ≤ l.length → cmp (aget l' i) (aget l 0) = 0) ∧
        (∀ i, i ≤ pc' → aget l' i = aget l i) ∧
        (pc' + 1 = pb ∨ cmp (aget l' pc') (aget l 0) < 0) := by
  intro f
  induction f with
  | zero =>
    intro l pb pc pd h1 h2 h3 h4 hf z3 z4
    omega
  | succ f ih =>
    intro l pb pc pd h1 h2 h3 h4 hf z3 z4
    rw [pscan2]
    by_cases hbc : pb ≤ pc
    · rw [if_pos hbc]
      by_cases hge : 0 ≤ cmp (aget l pc) (aget l 0)
      · rw [if_pos hge]
        by_cases heq : cmp (aget l pc) (aget l 0) = 0
        · rw [if_pos heq]
          have hpclen : pc < l.length := by omega
          have hpdlen : pd < l.length := by omega
          have hpiv : aget (swapfunc l pc pd) 0 = aget l 0 :=
            aget_swapfunc_other l pc pd 0 (by omega) (by omega)
          have z3' : ∀ i, pc - 1 < i → i ≤ pd - 1 →
              cmp (aget (swapfunc l pc pd) i) (aget (swapfunc l pc pd) 0) > 0 := by
            intro i hi1 hi2
            rw [hpiv]
            have hcd : pc < pd := by omega
            by_cases hie : i = pc
            · subst hie
              rw [aget_swapfunc_fst l i pd hpclen, if_neg (by omega)]
              exact z3 pd hcd (le_refl pd)
            · rw [aget_swapfunc_other l pc pd i (fun h => hie h) (by omega)]
              exact z3 i (by omega) (by omega)
          have z4' : ∀ i, pd - 1 < i → i + 1 ≤ (swapfunc l pc pd).length →
              cmp (aget (swapfunc l pc pd) i) (aget (swapfunc l pc pd) 0) = 0 := by
            intro i hi1 hi2
            rw [length_swapfunc] at hi2
            rw [hpiv]
            by_cases hie : i = pd
            · subst hie
              rw [aget_swapfunc_snd l pc i hpdlen]
              exact heq
            · rw [aget_swapfunc_other l pc pd i (by omega) hie]
              exact z4 i (by omega) hi2
          obtain ⟨l', pc', pd', heqr, hl, hperm, hpiv', hpb, hpc, hcd', hpd, w3, w4, w5, w6⟩ :=
            ih (swapfunc l pc pd) pb (pc - 1) (pd - 1) h1 (by omega) (by omega)
              (by rw [length_swapfunc]; omega) (by omega) z3' z4'
          refine ⟨l', pc', pd', heqr, by rw [hl, length_swapfunc],
            hperm.trans (swapfunc_perm l pc pd hpclen hpdlen),
            by rw [hpiv', hpiv], by omega, by omega, hcd', by omega, ?_, ?_, ?_, ?_⟩
          · intro i hi1 hi2
            have := w3 i hi1 hi2
            rw [hpiv] at this
            exact this
          · intro i hi1 hi2
            have := w4 i hi1 (by rw [length_swapfunc]; exact hi2)
            rw [hpiv] at this
            exact this
          · intro i hi
            rw [w5 i hi, aget_swapfunc_other l pc pd i (by omega) (by omega)]
          · rcases w6 with h | h
            · exact Or.inl h
            · rw [hpiv] at h
              exact Or.inr h
        · rw [if_neg heq]
          have hgt : cmp (aget l pc) (aget l 0) > 0 := by omega
          have z3' : ∀ i, pc - 1 < i → i ≤ pd → cmp (aget l i) (aget l 0) > 0 := by
            intro i hi1 hi2
            by_cases hie : i = pc
            · subst hie; exact hgt
            · exact z3 i (by omega) hi2
          obtain ⟨l', pc', pd', heqr, hl, hperm, hpiv', hpb, hpc, hcd', hpd, w3, w4, w5, w6⟩ :=
            ih l pb (pc - 1) pd h1 (by omega) (by omega) h4 (by omega) z3' z4
          exact ⟨l', pc', pd', heqr, hl, hperm, hpiv', hpb, by omega, hcd', hpd,
            w3, w4, w5, w6⟩
      · rw [if_neg hge]
        refine ⟨l, pc, pd, rfl, rfl, List.Perm.refl l, rfl, by omega, le_refl pc, h3,
          le_refl pd, z3, z4, fun i _ => rfl, Or.inr (by omega)⟩
    · rw [if_neg hbc]
      refine ⟨l, pc, pd, rfl, rfl, List.Perm.refl l, rfl, by omega, le_refl pc, h3,
        le_refl pd, z3, z4, fun i _ => rfl, Or.inl (by omega)⟩

theorem ploop_spec {α : Type} [Inhabited α] (cmp : α → α → Int) :
    ∀ (f : Nat) (l : List α) (pa pb pc pd : Nat),
      1 ≤ pa → pa ≤ pb → pb ≤ pc + 1 → pc ≤ pd → pd + 1 ≤ l.length → pc + 2 ≤ f + pb →
      (∀ i, 1 ≤ i → i < pa → cmp (aget l i) (aget l 0) = 0) →
      (∀ i, pa ≤ i → i < pb → cmp (aget l i) (aget l 0) < 0) →
      (∀ i, pc < i → i ≤ pd → cmp (aget l i) (aget l 0) > 0) →
      (∀ i, pd < i → i + 1 ≤ l.length → cmp (aget l i) (aget l 0) = 0) →
      ∃ l' pa' pb' pc' pd', ploop cmp f l pa pb pc pd = (l', pa', pb', pc', pd') ∧
        l'.length = l.length ∧
        l'.Perm l ∧
        aget l' 0 = aget l 0 ∧
        1 ≤ pa' ∧ pa' ≤ pb' ∧ pb' = pc' + 1 ∧ pc' ≤ pd' ∧ pd' + 1 ≤ l.length ∧
        pa ≤ pa' ∧ pd' ≤ pd ∧
        (∀ i, 1 ≤ i → i < pa' → cmp (aget l' i) (aget l 0) = 0) ∧
        (∀ i, pa' ≤ i → i < pb' → cmp (aget l' i) (aget l 0) < 0) ∧
        (∀ i, pc' < i → i ≤ pd' → cmp (aget l' i) (aget l 0) > 0) ∧
        (∀ i, pd' < i → i + 1 ≤ l.length → cmp (aget l' i) (aget l 0) = 0) := by
  intro f
  induction f with
  | zero =>
    intro l pa pb pc pd h1 h2 h3 h4 h5 hf z1 z2 z3 z4
    omega
  | succ f ih =>
    intro l pa pb pc pd h1 h2 h3 h4 h5 hf z1 z2 z3 z4
    rw [ploop]
    obtain ⟨l1, pa1, pb1, he1, hl1, hp1, hv1, q1, q2, q3, q4, y1, y2, y3, y4⟩ :=
      pscan1_spec cmp (pc + 2) l pa pb pc h1 h2 h3 (by omega) (by omega) z1 z2
    rw [he1]
    simp only []
    have z3m : ∀ i, pc < i → i ≤ pd → cmp (aget l1 i) (aget l1 0) > 0 := by
      intro i hi1 hi2
      rw [hv1, y3 i (by omega)]
      exact z3 i hi1 hi2
    have z4m : ∀ i, pd < i → i + 1 ≤ l1.length → cmp (aget l1 i) (aget l1 0) = 0 := by
      intro i hi1 hi2
      rw [hv1, y3 i (by omega)]
      exact z4 i hi1 (by omega)
    obtain ⟨l2, pc2, pd2, he2, hl2, hp2, hv2, r1, r2, r3, r4, x3, x4, x5, x6⟩ :=
      pscan2_spec cmp (pc + 2) l1 pb1 pc pd (by omega) (by omega) h4 (by omega)
        (by omega) z3m z4m
    rw [he2]
    simp only []
    by_cases hex : pc2 < pb1
    · rw [if_pos hex]
      have hbe : pb1 = pc2 + 1 := by omega
      refine ⟨l2, pa1, pb1, pc2, pd2, rfl, by omega, hp2.trans hp1,
        by rw [hv2, hv1], by omega, by omega, hbe, r3, by omega, by omega, by omega,
        ?_, ?_, ?_, ?_⟩
      · intro i hi1 hi2
        rw [x5 i (by omega)]
        exact y1 i hi1 hi2
      · intro i hi1 hi2
        rw [x5 i (by omega)]
        exact y2 i hi1 hi2
      · intro i hi1 hi2
        have := x3 i hi1 hi2
        rw [hv1] at this
        exact this
      · intro i hi1 hi2
        have := x4 i hi1 (by omega)
        rw [hv1] at this
        exact this
    · rw [if_neg hex]
      have hble : pb1 ≤ pc2 := by omega
      have hgt : cmp (aget l2 pb1) (aget l 0) > 0 := by
        rcases y4 with h | h
        · omega
        · rw [x5 pb1 (by omega)]
          exact h
      have hlt : cmp (aget l2 pc2) (aget l 0) < 0 := by
        rcases x6 with h | h
        · omega
        · rw [hv1] at h
          exact h
      have hbc2 : pb1 < pc2 := by
        rcases Nat.lt_or_ge pb1 pc2 with h | h
        · exact h
        · have : pb1 = pc2 := by omega
          rw [this] at hgt
          omega
      have hpb1len : pb1 < l2.length := by omega
      have hpc2len : pc2 < l2.length := by omega
      have hv3 : aget (swapfunc l2 pb1 pc2) 0 = aget l2 0 :=
        aget_swapfunc_other l2 pb1 pc2 0 (by omega) (by omega)
      have z1s : ∀ i, 1 ≤ i → i < pa1 →
          cmp (aget (swapfunc l2 pb1 pc2) i) (aget (swapfunc l2 pb1 pc2) 0) = 0 := by
        intro i hi1 hi2
        rw [hv3, hv2, hv1, aget_swapfunc_other l2 pb1 pc2 i (by omega) (by omega),
          x5 i (by omega)]
        exact y1 i hi1 hi2
      have z2s : ∀ i, pa1 ≤ i → i < pb1 + 1 →
          cmp (aget (swapfunc l2 pb1 pc2) i) (aget (swapfunc l2 pb1 pc2) 0) < 0 := by
        intro i hi1 hi2
        rw [hv3, hv2, hv1]
        by_cases hie : i = pb1
        · subst hie
          rw [aget_swapfunc_fst l2 i pc2 hpb1len, if_neg (by omega)]
          exact hlt
        · rw [aget_swapfunc_other l2 pb1 pc2 i hie (by omega), x5 i (by omega)]
          exact y2 i hi1 (by omega)
      have z3s : ∀ i, pc2 - 1 < i → i ≤ pd2 →
          cmp (aget (swapfunc l2 pb1 pc2) i) (aget (swapfunc l2 pb1 pc2) 0) > 0 := by
        intro i hi1 hi2
        rw [hv3, hv2, hv1]
        by_cases hie : i = pc2
        · subst hie
          rw [aget_swapfunc_snd l2 pb1 i hpc2len]
          exact hgt
        · rw [aget_swapfunc_other l2 pb1 pc2 i (by omega) hie]
          have := x3 i (by omega) hi2
          rw [hv1] at this
          exact this
      have z4s : ∀ i, pd2 < i → i + 1 ≤ (swapfunc l2 pb1 pc2).length →
          cmp (aget (swapfunc l2 pb1 pc2) i) (aget (swapfunc l2 pb1 pc2) 0) = 0 := by
        intro i hi1 hi2
        rw [length_swapfunc] at hi2
        rw [hv3, hv2, hv1, aget_swapfunc_other l2 pb1 pc2 i (by omega) (by omega)]
        have := x4 i hi1 (by omega)
        rw [hv1] at this
        exact this
      obtain ⟨l', pa', pb', pc', pd', heqr, hl', hp', hv', g1, g2, g3, g4, g5, g6, g7,
        u1, u2, u3, u4⟩ :=
        ih (swapfunc l2 pb1 pc2) pa1 (pb1 + 1) (pc2 - 1) pd2 (by omega) (by omega)
          (by omega) (by omega) (by rw [length_swapfunc]; omega) (by omega)
          z1s z2s z3s z4s
      have hpsw : (swapfunc l2 pb1 pc2).Perm l :=
        ((swapfunc_perm l2 pb1 pc2 hpb1len hpc2len).trans hp2).trans hp1
      have hvsw : aget (swapfunc l2 pb1 pc2) 0 = aget l 0 := by
        rw [hv3, hv2, hv1]
      refine ⟨l', pa', pb', pc', pd', heqr, by rw [hl', length_swapfunc]; omega,
        hp'.trans hpsw, by rw [hv', hvsw], g1, g2, g3, g4,
        by rw [length_swapfunc] at g5; omega, by omega, by omega, ?_, ?_, ?_, ?_⟩
      · intro i hi1 hi2
        have := u1 i hi1 hi2
        rw [hvsw] at this
        exact this
      · intro i hi1 hi2
        have := u2 i hi1 hi2
        rw [hvsw] at this
        exact this
      · intro i hi1 hi2
        have := u3 i hi1 hi2
        rw [hvsw] at this
        exact this
      · intro i hi1 hi2
        have := u4 i hi1 (by rw [length_swapfunc]; omega)
        rw [hvsw] at this
        exact this

theorem aget_vecswapF {α : Type} [Inhabited α] :
    ∀ (c : Nat) (l : List α) (i j t : Nat), i + c ≤ j → j + c ≤ l.length →
      aget (vecswapF c l i j) t =
        if i ≤ t ∧ t < i + c then aget l (j + (t - i))
        else if j ≤ t ∧ t < j + c then aget l (i + (t - j))
        else aget l t
  | 0, l, i, j, t, _, _ => by
    rw [vecswapF, if_neg (by omega), if_neg (by omega)]
  | c + 1, l, i, j, t, h1, h2 => by
    rw [vecswapF]
    have hil : i < l.length := by omega
    have hjl : j < l.length := by omega
    have hji : j ≠ i := by omega
    rw [aget_vecswapF c (swapfunc l i j) (i + 1) (j + 1) t (by omega)
      (by rw [length_swapfunc]; omega)]
    by_cases hti : t = i
    · subst hti
      rw [if_neg (by omega), if_neg (by omega), if_pos (by omega)]
      rw [aget_swapfunc_fst l t j hil, if_neg hji]
      congr 1
      omega
    · by_cases htj : t = j
      · subst htj
        rw [if_neg (by omega), if_neg (by omega), if_neg (by omega), if_pos (by omega)]
        rw [aget_swapfunc_snd l i t hjl]
        congr 1
        omega
      · by_cases c1 : i + 1 ≤ t ∧ t < i + 1 + c
        · rw [if_pos c1, if_pos (by omega)]
          have hp : j + 1 + (t - (i + 1)) = j + (t - i) := by omega
          rw [hp, aget_swapfunc_other l i j (j + (t - i)) (by omega) (by omega)]
        · by_cases c2 : j + 1 ≤ t ∧ t < j + 1 + c
          · rw [if_neg c1, if_pos c2, if_neg (by omega), if_pos (by omega)]
            have hp : i + 1 + (t - (j + 1)) = i + (t - j) := by omega
            rw [hp, aget_swapfunc_other l i j (i + (t - j)) (by omega) (by omega)]
          · rw [if_neg c1, if_neg c2, if_neg (by omega), if_neg (by omega)]
            exact aget_swapfunc_other l i j t hti htj

theorem partitionF_spec {α : Type} [Inhabited α] (cmp : α → α → Int) (l : List α)
    (hn : 1 ≤ l.length) :
    (partitionF cmp l).l.length = l.length ∧
    (partitionF cmp l).l.Perm l ∧
    1 ≤ (partitionF cmp l).pa ∧
    (partitionF cmp l).pa ≤ (partitionF cmp l).pb ∧
    (partitionF cmp l).pb = (partitionF cmp l).pc + 1 ∧
    (partitionF cmp l).pc ≤ (partitionF cmp l).pd ∧
    (partitionF cmp l).pd + 1 ≤ l.length ∧
    (partitionF cmp l).d1 = min (partitionF cmp l).pa (partL (partitionF cmp l)) ∧
    (partitionF cmp l).d2 = min (partR (partitionF cmp l)) (l.length - (partitionF cmp l).pd - 1) ∧
    (∀ t, t < partL (partitionF cmp l) →
      cmp (aget (partitionF cmp l).l t) (aget l 0) < 0) ∧
    (cmp (aget l 0) (aget l 0) = 0 →
      ∀ t, partL (partitionF cmp l) ≤ t → t < l.length - partR (partitionF cmp l) →
        cmp (aget (partitionF cmp l).l t) (aget l 0) = 0) ∧
    (∀ t, l.length - partR (partitionF cmp l) ≤ t → t < l.length →
      cmp (aget (partitionF cmp l).l t) (aget l 0) > 0) := by
  obtain ⟨l1, pa, pb, pc, pd, he, hl1, hp1, hv1, g1, g2, g3, g4, g5, _, _, z1, z2, z3, z4⟩ :=
    ploop_spec cmp l.length l 1 1 (l.length - 1) (l.length - 1) (le_refl 1) (le_refl 1)
      (by omega) (le_refl _) (by omega) (by omega)
      (fun i hi1 hi2 => absurd hi2 (by omega))
      (fun i hi1 hi2 => absurd hi2 (by omega))
      (fun i hi1 hi2 => absurd hi1 (by omega))
      (fun i hi1 hi2 => absurd hi2 (by omega))
  have hP : partitionF cmp l =
      { l := vecswapF (min (pd - pc) (l.length - pd - 1))
          (vecswapF (min pa (pb - pa)) l1 0 (pb - min pa (pb - pa))) pb
          (l.length - min (pd - pc) (l.length - pd - 1)),
        pa := pa, pb := pb, pc := pc, pd := pd,
        d1 := min pa (pb - pa), d2 := min (pd - pc) (l.length - pd - 1) } := by
    rw [partitionF, he]
  set d1 := min pa (pb - pa) with hd1
  set d2 := min (pd - pc) (l.length - pd - 1) with hd2
  have hLd : pb - pa ≥ d1 := by omega
  have hd1a : d1 ≤ pa := by omega
  have hd1L : d1 ≤ pb - pa := by omega
  have hd2R : d2 ≤ pd - pc := by omega
  have hd2E : d2 ≤ l.length - pd - 1 := by omega
  have hw1 : 0 + d1 ≤ pb - d1 := by omega
  have hw1' : (pb - d1) + d1 ≤ l1.length := by omega
  have hl2 : (vecswapF d1 l1 0 (pb - d1)).length = l.length := by
    rw [length_vecswapF, hl1]
  have hw2 : pb + d2 ≤ l.length - d2 := by omega
  have hw2' : (l.length - d2) + d2 ≤ (vecswapF d1 l1 0 (pb - d1)).length := by
    rw [hl2]; omega
  have ha2 : ∀ t, aget (vecswapF d1 l1 0 (pb - d1)) t =
      if 0 ≤ t ∧ t < 0 + d1 then aget l1 ((pb - d1) + (t - 0))
      else if pb - d1 ≤ t ∧ t < (pb - d1) + d1 then aget l1 (0 + (t - (pb - d1)))
      else aget l1 t :=
    fun t => aget_vecswapF d1 l1 0 (pb - d1) t hw1 hw1'
  have ha3 : ∀ t, aget (vecswapF d2 (vecswapF d1 l1 0 (pb - d1)) pb (l.length - d2)) t =
      if pb ≤ t ∧ t < pb + d2 then
        aget (vecswapF d1 l1 0 (pb - d1)) ((l.length - d2) + (t - pb))
      else if l.length - d2 ≤ t ∧ t < (l.length - d2) + d2 then
        aget (vecswapF d1 l1 0 (pb - d1)) (pb + (t - (l.length - d2)))
      else aget (vecswapF d1 l1 0 (pb - d1)) t :=
    fun t => aget_vecswapF d2 (vecswapF d1 l1 0 (pb - d1)) pb (l.length - d2) t hw2 hw2'
  rw [hP]
  simp only [partL, partR]
  refine ⟨by rw [length_vecswapF, hl2], ?_, g1, g2, g3, g4, g5, trivial, trivial, ?_, ?_, ?_⟩
  · exact ((vecswapF_perm d2 _ pb (l.length - d2) (by rw [hl2]; omega)
      (by rw [hl2]; omega)).trans
      (vecswapF_perm d1 l1 0 (pb - d1) (by omega) (by omega))).trans hp1
  · -- left class
    intro t ht
    rw [ha3 t, if_neg (by omega), if_neg (by omega), ha2 t]
    by_cases c1 : 0 ≤ t ∧ t < 0 + d1
    · rw [if_pos c1]
      exact z2 ((pb - d1) + (t - 0)) (by omega) (by omega)
    · rw [if_neg c1, if_neg (by omega)]
      exact z2 t (by omega) (by omega)
  · -- middle class
    intro hpp t ht1 ht2
    rw [ha3 t]
    by_cases c1 : pb ≤ t ∧ t < pb + d2
    · rw [if_pos c1, ha2 ((l.length - d2) + (t - pb)), if_neg (by omega), if_neg (by omega)]
      exact z4 ((l.length - d2) + (t - pb)) (by omega) (by omega)
    · rw [if_neg c1, if_neg (by omega), ha2 t]
      by_cases c2 : 0 ≤ t ∧ t < 0 + d1
      · rw [if_pos c2]
        have hs : (pb - d1) + (t - 0) < pa ∨ (pb - d1) + (t - 0) = 0 := by omega
        rcases hs with hs | hs
        · by_cases hz : 1 ≤ (pb - d1) + (t - 0)
          · exact z1 _ hz hs
          · have : (pb - d1) + (t - 0) = 0 := by omega
            rw [this]
            rw [hv1]
            exact hpp
        · rw [hs, hv1]
          exact hpp
      · rw [if_neg c2]
        by_cases c3 : pb - d1 ≤ t ∧ t < (pb - d1) + d1
        · rw [if_pos c3]
          have hs : 0 + (t - (pb - d1)) < pa ∨ 0 + (t - (pb - d1)) = 0 := by omega
          rcases hs with hs | hs
          · by_cases hz : 1 ≤ 0 + (t - (pb - d1))
            · exact z1 _ hz hs
            · have : 0 + (t - (pb - d1)) = 0 := by omega
              rw [this, hv1]
              exact hpp
          · rw [hs, hv1]
            exact hpp
        · rw [if_neg c3]
          have hcase : t = 0 ∨ (1 ≤ t ∧ t < pa) ∨ (pd < t ∧ t + 1 ≤ l.length) := by omega
          rcases hcase with hs | hs | hs
          · rw [hs, hv1]
            exact hpp
          · exact z1 t hs.1 hs.2
          · exact z4 t hs.1 hs.2
  · -- right class
    intro t ht1 ht2
    rw [ha3 t]
    by_cases c1 : pb ≤ t ∧ t < pb + d2
    · rw [if_pos c1]
      omega
    · by_cases c2 : l.length - d2 ≤ t ∧ t < (l.length - d2) + d2
      · rw [if_neg c1, if_pos c2, ha2 (pb + (t - (l.length - d2))), if_neg (by omega),
          if_neg (by omega)]
        exact z3 (pb + (t - (l.length - d2))) (by omega) (by omega)
      · rw [if_neg c1, if_neg c2, ha2 t, if_neg (by omega), if_neg (by omega)]
        exact z3 t (by omega) (by omega)

/-- Claim C5, amended: after a three-way partition with class sizes `L`, `E`,
`R` (`L+E+R = n`), the `pivot_fraction` computed by qsort.c line 912 equals
`(max(L,R) - min(L,R) - (min(Ea,L) + min(Eb,R))) / n`, where `Ea` and `Eb`
(`Ea + Eb = E`) are the pivot-equal records parked at the front and at the
back by the scans — not `(max(L,R) - min(L,R) - E) / n` as claimed; the value
does lie in `[-1, 1]`. -/
theorem claim_C5 {α : Type} [Inhabited α] (cmp : α → α → Int) (l : List α)
    (hn : 1 ≤ l.length) :
    pivot_fraction_code cmp l = pivot_fraction_fix cmp l ∧
    partEa (partitionF cmp l) + partEb (partitionF cmp l)
      = l.length - partL (partitionF cmp l) - partR (partitionF cmp l) ∧
    -1 ≤ pivot_fraction_code cmp l ∧ pivot_fraction_code cmp l ≤ 1 := by
  obtain ⟨hPl, _, hpa, hab, hbc, hcd, hdn, h8, h9, _, _, _⟩ := partitionF_spec cmp l hn
  have hL : partL (partitionF cmp l) = (partitionF cmp l).pb - (partitionF cmp l).pa := rfl
  have hR : partR (partitionF cmp l) = (partitionF cmp l).pd - (partitionF cmp l).pc := rfl
  have hEb : partEb (partitionF cmp l) = l.length - 1 - (partitionF cmp l).pd := by
    rw [partEb, hPl]
  refine ⟨?_, by rw [partEa, hEb]; omega, ?_, ?_⟩
  · simp only [pivot_fraction_code, pivot_fraction_fix]
    rw [h8, h9, partEa, hEb]
    have hc : min (partR (partitionF cmp l)) (l.length - (partitionF cmp l).pd - 1)
        = min (l.length - 1 - (partitionF cmp l).pd) (partR (partitionF cmp l)) := by
      rw [Nat.min_comm]
      congr 1
      omega
    rw [hc]
    ring
  · simp only [pivot_fraction_code]
    rw [h8, h9]
    have hnq : (0 : ℚ) < (l.length : ℚ) := by
      have : (1 : ℚ) ≤ (l.length : ℚ) := by exact_mod_cast hn
      linarith
    rw [le_div_iff hnq]
    have hmm : min (partL (partitionF cmp l)) (partR (partitionF cmp l))
        ≤ max (partL (partitionF cmp l)) (partR (partitionF cmp l)) := by omega
    have hdd : min (partitionF cmp l).pa (partL (partitionF cmp l))
        + min (partR (partitionF cmp l)) (l.length - (partitionF cmp l).pd - 1)
        ≤ l.length := by
      rw [hL, hR]
      omega
    have hmmq : ((min (partL (partitionF cmp l)) (partR (partitionF cmp l)) : Nat) : ℚ)
        ≤ ((max (partL (partitionF cmp l)) (partR (partitionF cmp l)) : Nat) : ℚ) := by
      exact_mod_cast hmm
    have hddq : ((min (partitionF cmp l).pa (partL (partitionF cmp l)) : Nat) : ℚ)
        + ((min (partR (partitionF cmp l)) (l.length - (partitionF cmp l).pd - 1) : Nat) : ℚ)
        ≤ (l.length : ℚ) := by
      exact_mod_cast hdd
    linarith
  · simp only [pivot_fraction_code]
    have hnq : (0 : ℚ) < (l.length : ℚ) := by
      have : (1 : ℚ) ≤ (l.length : ℚ) := by exact_mod_cast hn
      linarith
    rw [div_le_one hnq]
    have hmx : max (partL (partitionF cmp l)) (partR (partitionF cmp l)) ≤ l.length := by
      rw [hL, hR] at *
      omega
    have hmxq : ((max (partL (partitionF cmp l)) (partR (partitionF cmp l)) : Nat) : ℚ)
        ≤ (l.length : ℚ) := by exact_mod_cast hmx
    have q1 : (0 : ℚ) ≤ ((min (partL (partitionF cmp l)) (partR (partitionF cmp l)) : Nat) : ℚ) := by
      positivity
    have q2 : (0 : ℚ) ≤ ((partitionF cmp l).d1 : ℚ) + ((partitionF cmp l).d2 : ℚ) := by
      positivity
    linarith

/-- Claim C5, counterexample to the claim as stated: on the 33-record segment
`[5, 5 x29, 1, 1, 1]` (pivot 5 at index 0) the partition yields `L = 3`,
`E = 30`, `R = 0` but parks all 30 pivot-equal records at the front
(`Ea = 30`, `Eb = 0`), so the code computes `pivot_fraction = 0` while the
claimed formula gives `(3 - 0 - 30)/33 = -9/11`. -/
theorem claim_C5_cex :
    pivot_fraction_code intCmp (5 :: (List.replicate 29 5 ++ [1, 1, 1]) : List Int)
      ≠ pivot_fraction_claim intCmp (5 :: (List.replicate 29 5 ++ [1, 1, 1]) : List Int) := by
  have hL : partL (partitionF intCmp (5 :: (List.replicate 29 5 ++ [1, 1, 1]) : List Int)) = 3 := by
    decide
  have hR : partR (partitionF intCmp (5 :: (List.replicate 29 5 ++ [1, 1, 1]) : List Int)) = 0 := by
    decide
  have hd1 : (partitionF intCmp (5 :: (List.replicate 29 5 ++ [1, 1, 1]) : List Int)).d1 = 3 := by
    decide
  have hd2 : (partitionF intCmp (5 :: (List.replicate 29 5 ++ [1, 1, 1]) : List Int)).d2 = 0 := by
    decide
  have hlen : (5 :: (List.replicate 29 5 ++ [1, 1, 1]) : List Int).length = 33 := by decide
  simp only [pivot_fraction_code, pivot_fraction_claim]
  rw [hL, hR, hd1, hd2, hlen]
  norm_num

/-- Witness for the amended claim C5 on the concrete two-record segment
`[5, 1]`. -/
theorem claim_C5_witness :
    pivot_fraction_code intCmp ([5, 1] : List Int)
        = pivot_fraction_fix intCmp ([5, 1] : List Int) ∧
      partEa (partitionF intCmp ([5, 1] : List Int))
          + partEb (partitionF intCmp ([5, 1] : List Int))
        = ([5, 1] : List Int).length - partL (partitionF intCmp ([5, 1] : List Int))
          - partR (partitionF intCmp ([5, 1] : List Int)) ∧
      -1 ≤ pivot_fraction_code intCmp ([5, 1] : List Int) ∧
      pivot_fraction_code intCmp ([5, 1] : List Int) ≤ 1 :=
  claim_C5 intCmp ([5, 1] : List Int) (by simp)

/-! ### Permutation lemmas for the pivot-selection code -/

theorem foldl_Zv_perm {α : Type} [Inhabited α] (cmp : α → α → Int) (b0 : Nat) :
    ∀ (ps : List (Nat × Nat)) (l : List α),
      (∀ p ∈ ps, b0 + p.1 < l.length ∧ b0 + p.2 < l.length) →
      (ps.foldl (Zv cmp b0) l).Perm l ∧ (ps.foldl (Zv cmp b0) l).length = l.length
  | [], l, _ => ⟨List.Perm.refl l, rfl⟩
  | p :: ps, l, h => by
    rw [List.foldl_cons]
    have hp := h p (List.mem_cons_self p ps)
    have hz : (Zv cmp b0 l p).Perm l ∧ (Zv cmp b0 l p).length = l.length := by
      rw [Zv]
      split
      · exact ⟨swapfunc_perm l _ _ hp.1 hp.2, length_swapfunc l _ _⟩
      · exact ⟨List.Perm.refl l, rfl⟩
    have ih := foldl_Zv_perm cmp b0 ps (Zv cmp b0 l p)
      (fun q hq => by rw [hz.2]; exact h q (List.mem_cons_of_mem p hq))
    exact ⟨ih.1.trans hz.1, by rw [ih.2, hz.2]⟩

theorem opt_med9_perm {α : Type} [Inhabited α] (cmp : α → α → Int) (l : List α)
    (b0 : Nat) (h : b0 + 9 ≤ l.length) :
    (opt_med9 cmp l b0).Perm l ∧ (opt_med9 cmp l b0).length = l.length := by
  rw [opt_med9]
  refine foldl_Zv_perm cmp b0 med9Pairs l ?_
  intro p hp
  have hb : p.1 ≤ 8 ∧ p.2 ≤ 8 := by
    fin_cases hp <;> exact ⟨by omega, by omega⟩
  omega

theorem opt_med25_perm {α : Type} [Inhabited α] (cmp : α → α → Int) (l : List α)
    (b0 : Nat) (h : b0 + 25 ≤ l.length) :
    (opt_med25 cmp l b0).Perm l ∧ (opt_med25 cmp l b0).length = l.length := by
  rw [opt_med25]
  refine foldl_Zv_perm cmp b0 med25Pairs l ?_
  intro p hp
  have hb : p.1 ≤ 24 ∧ p.2 ≤ 24 := by
    fin_cases hp <;> exact ⟨by omega, by omega⟩
  omega

theorem small_sortq_at_perm {α : Type} [Inhabited α] (cmp : α → α → Int)
    (l : List α) (off len : Nat) :
    (small_sortq_at cmp l off len).Perm l ∧
      (small_sortq_at cmp l off len).length = l.length := by
  have hdec : l = l.take off ++ ((l.drop off).take len ++ l.drop (off + len)) := by
    rw [← List.drop_drop]
    rw [List.take_append_drop len (l.drop off), List.take_append_drop off l]
  constructor
  · rw [small_sortq_at, List.append_assoc]
    conv_rhs => rw [hdec]
    exact List.Perm.append_left _ ((small_sortq_perm cmp _).append (List.Perm.refl _))
  · rw [small_sortq_at]
    simp [length_small_sortq]
    omega

theorem gather25_perm {α : Type} [Inhabited α] (d : Nat) :
    ∀ (ps : List Nat) (l : List α),
      (∀ i ∈ ps, i + 1 < l.length ∧ (i + 1) * d < l.length) →
      ((ps.foldl (fun acc i => swapfunc acc (i + 1) ((i + 1) * d)) l).Perm l ∧
        (ps.foldl (fun acc i => swapfunc acc (i + 1) ((i + 1) * d)) l).length = l.length)
  | [], l, _ => ⟨List.Perm.refl l, rfl⟩
  | p :: ps, l, h => by
    rw [List.foldl_cons]
    have hp := h p (List.mem_cons_self p ps)
    have ih := gather25_perm d ps (swapfunc l (p + 1) ((p + 1) * d))
      (fun q hq => by rw [length_swapfunc]; exact h q (List.mem_cons_of_mem p hq))
    exact ⟨ih.1.trans (swapfunc_perm l _ _ hp.1 hp.2),
      by rw [ih.2, length_swapfunc]⟩

theorem pivotFast_perm {α : Type} [Inhabited α] (cmp : α → α → Int) (l : List α)
    (h : 9 ≤ l.length) :
    (pivotFast cmp l).Perm l ∧ (pivotFast cmp l).length = l.length := by
  rw [pivotFast]
  by_cases hm : USE_MEDIAN25 ≤ l.length
  · rw [if_pos hm]
    rw [USE_MEDIAN25] at hm
    have hg := gather25_perm ((l.length - 1) / 24) (List.range 24) l
      (by
        intro i hi
        rw [List.mem_range] at hi
        have hd : (i + 1) * ((l.length - 1) / 24) ≤ 24 * ((l.length - 1) / 24) := by
          apply Nat.mul_le_mul_right
          omega
        have := Nat.mul_div_le (l.length - 1) 24
        constructor
        · omega
        · calc (i + 1) * ((l.length - 1) / 24) ≤ 24 * ((l.length - 1) / 24) := hd
            _ ≤ l.length - 1 := this
            _ < l.length := by omega)
    have hm25 := opt_med25_perm cmp _ 0 (by rw [hg.2]; omega)
    refine ⟨((swapfunc_perm _ 0 12 ?_ ?_).trans hm25.1).trans hg.1, ?_⟩
    · rw [hm25.2, hg.2]; omega
    · rw [hm25.2, hg.2]; omega
    · rw [length_swapfunc, hm25.2, hg.2]
  · rw [if_neg hm]
    have b5 : l.length / 2 + l.length / 8 < l.length := by omega
    have s1l : (swapfunc l (l.length / 8) 1).length = l.length := length_swapfunc l (l.length / 8) 1
    have s1p : (swapfunc l (l.length / 8) 1).Perm l := swapfunc_perm l (l.length / 8) 1 (by omega) (by omega)
    have s2l : (swapfunc (swapfunc l (l.length / 8) 1) (2 * (l.length / 8)) 2).length = l.length := (length_swapfunc (swapfunc l (l.length / 8) 1) (2 * (l.length / 8)) 2).trans s1l
    have s2p : (swapfunc (swapfunc l (l.length / 8) 1) (2 * (l.length / 8)) 2).Perm (swapfunc l (l.length / 8) 1) := swapfunc_perm (swapfunc l (l.length / 8) 1) (2 * (l.length / 8)) 2 (by rw [s1l]; omega) (by rw [s1l]; omega)
    have s3l : (swapfunc (swapfunc (swapfunc l (l.length / 8) 1) (2 * (l.length / 8)) 2) (l.length / 2 - l.length / 8) 3).length = l.length := (length_swapfunc (swapfunc (swapfunc l (l.length / 8) 1) (2 * (l.length / 8)) 2) (l.length / 2 - l.length / 8) 3).trans s2l
    have s3p : (swapfunc (swapfunc (swapfunc l (l.length / 8) 1) (2 * (l.length / 8)) 2) (l.length / 2 - l.length / 8) 3).Perm (swapfunc (swapfunc l (l.length / 8) 1) (2 * (l.length / 8)) 2) := swapfunc_perm (swapfunc (swapfunc l (l.length / 8) 1) (2 * (l.length / 8)) 2) (l.length / 2 - l.length / 8) 3 (by rw [s2l]; omega) (by rw [s2l]; omega)
    have s4l : (swapfunc (swapfunc (swapfunc (swapfunc l (l.length / 8) 1) (2 * (l.length / 8)) 2) (l.length / 2 - l.length / 8) 3) (l.length / 2) 4).length = l.length := (length_swapfunc (swapfunc (swapfunc (swapfunc l (l.length / 8) 1) (2 * (l.length / 8)) 2) (l.length / 2 - l.length / 8) 3) (l.length / 2) 4).trans s3l
    have s4p : (swapfunc (swapfunc (swapfunc (swapfunc l (l.length / 8) 1) (2 * (l.length / 8)) 2) (l.length / 2 - l.length / 8) 3) (l.length / 2) 4).Perm (swapfunc (swapfunc (swapfunc l (l.length / 8) 1) (2 * (l.length / 8)) 2) (l.length / 2 - l.length / 8) 3) := swapfunc_perm (swapfunc (swapfunc (swapfunc l (l.length / 8) 1) (2 * (l.length / 8)) 2) (l.length / 2 - l.length / 8) 3) (l.length / 2) 4 (by rw [s3l]; omega) (by rw [s3l]; omega)
    have s5l : (swapfunc (swapfunc (swapfunc (swapfunc (swapfunc l (l.length / 8) 1) (2 * (l.length / 8)) 2) (l.length / 2 - l.length / 8) 3) (l.length / 2) 4) (l.length / 2 + l.length / 8) 5).length = l.length := (length_swapfunc (swapfunc (swapfunc (swapfunc (swapfunc l (l.length / 8) 1) (2 * (l.length / 8)) 2) (l.length / 2 - l.length / 8) 3) (l.length / 2) 4) (l.length / 2 + l.length / 8) 5).trans s4l
    have s5p : (swapfunc (swapfunc (swapfunc (swapfunc (swapfunc l (l.length / 8) 1) (2 * (l.length / 8)) 2) (l.length / 2 - l.length / 8) 3) (l.length / 2) 4) (l.length / 2 + l.length / 8) 5).Perm (swapfunc (swapfunc (swapfunc (swapfunc l (l.length / 8) 1) (2 * (l.length / 8)) 2) (l.length / 2 - l.length / 8) 3) (l.length / 2) 4) := swapfunc_perm (swapfunc (swapfunc (swapfunc (swapfunc l (l.length / 8) 1) (2 * (l.length / 8)) 2) (l.length / 2 - l.length / 8) 3) (l.length / 2) 4) (l.length / 2 + l.length / 8) 5 (by rw [s4l]; omega) (by rw [s4l]; omega)
    have s6l : (swapfunc (swapfunc (swapfunc (swapfunc (swapfunc (swapfunc l (l.length / 8) 1) (2 * (l.length / 8)) 2) (l.length / 2 - l.length / 8) 3) (l.length / 2) 4) (l.length / 2 + l.length / 8) 5) (l.length - 1 - 2 * (l.length / 8)) 6).length = l.length := (length_swapfunc (swapfunc (swapfunc (swapfunc (swapfunc (swapfunc l (l.length / 8) 1) (2 * (l.length / 8)) 2) (l.length / 2 - l.length / 8) 3) (l.length / 2) 4) (l.length / 2 + l.length / 8) 5) (l.length - 1 - 2 * (l.length / 8)) 6).trans s5l
    have s6p : (swapfunc (swapfunc (swapfunc (swapfunc (swapfunc (swapfunc l (l.length / 8) 1) (2 * (l.length / 8)) 2) (l.length / 2 - l.length / 8) 3) (l.length / 2) 4) (l.length / 2 + l.length / 8) 5) (l.length - 1 - 2 * (l.length / 8)) 6).Perm (swapfunc (swapfunc (swapfunc (swapfunc (swapfunc l (l.length / 8) 1) (2 * (l.length / 8)) 2) (l.length / 2 - l.length / 8) 3) (l.length / 2) 4) (l.length / 2 + l.length / 8) 5) := swapfunc_perm (swapfunc (swapfunc (swapfunc (swapfunc (swapfunc l (l.length / 8) 1) (2 * (l.length / 8)) 2) (l.length / 2 - l.length / 8) 3) (l.length / 2) 4) (l.length / 2 + l.length / 8) 5) (l.length - 1 - 2 * (l.length / 8)) 6 (by rw [s5l]; omega) (by rw [s5l]; omega)
    have s7l : (swapfunc (swapfunc (swapfunc (swapfunc (swapfunc (swapfunc (swapfunc l (l.length / 8) 1) (2 * (l.length / 8)) 2) (l.length / 2 - l.length / 8) 3) (l.length / 2) 4) (l.length / 2 + l.length / 8) 5) (l.length - 1 - 2 * (l.length / 8)) 6) (l.length - 1 - l.length / 8) 7).length = l.length := (length_swapfunc (swapfunc (swapfunc (swapfunc (swapfunc (swapfunc (swapfunc l (l.length / 8) 1) (2 * (l.length / 8)) 2) (l.length / 2 - l.length / 8) 3) (l.length / 2) 4) (l.length / 2 + l.length / 8) 5) (l.length - 1 - 2 * (l.length / 8)) 6) (l.length - 1 - l.length / 8) 7).trans s6l
    have s7p : (swapfunc (swapfunc (swapfunc (swapfunc (swapfunc (swapfunc (swapfunc l (l.length / 8) 1) (2 * (l.length / 8)) 2) (l.length / 2 - l.length / 8) 3) (l.length / 2) 4) (l.length / 2 + l.length / 8) 5) (l.length - 1 - 2 * (l.length / 8)) 6) (l.length - 1 - l.length / 8) 7).Perm (swapfunc (swapfunc (swapfunc (swapfunc (swapfunc (swapfunc l (l.length / 8) 1) (2 * (l.length / 8)) 2) (l.length / 2 - l.length / 8) 3) (l.length / 2) 4) (l.length / 2 + l.length / 8) 5) (l.length - 1 - 2 * (l.length / 8)) 6) := swapfunc_perm (swapfunc (swapfunc (swapfunc (swapfunc (swapfunc (swapfunc l (l.length / 8) 1) (2 * (l.length / 8)) 2) (l.length / 2 - l.length / 8) 3) (l.length / 2) 4) (l.length / 2 + l.length / 8) 5) (l.length - 1 - 2 * (l.length / 8)) 6) (l.length - 1 - l.length / 8) 7 (by rw [s6l]; omega) (by rw [s6l]; omega)
    have s8l : (swapfunc (swapfunc (swapfunc (swapfunc (swapfunc (swapfunc (swapfunc (swapfunc l (l.length / 8) 1) (2 * (l.length / 8)) 2) (l.length / 2 - l.length / 8) 3) (l.length / 2) 4) (l.length / 2 + l.length / 8) 5) (l.length - 1 - 2 * (l.length / 8)) 6) (l.length - 1 - l.length / 8) 7) (l.length - 1) 8).length = l.length := (length_swapfunc (swapfunc (swapfunc (swapfunc (swapfunc (swapfunc (swapfunc (swapfunc l (l.length / 8) 1) (2 * (l.length / 8)) 2) (l.length / 2 - l.length / 8) 3) (l.length / 2) 4) (l.length / 2 + l.length / 8) 5) (l.length - 1 - 2 * (l.length / 8)) 6) (l.length - 1 - l.length / 8) 7) (l.length - 1) 8).trans s7l
    have s8p : (swapfunc (swapfunc (swapfunc (swapfunc (swapfunc (swapfunc (swapfunc (swapfunc l (l.length / 8) 1) (2 * (l.length / 8)) 2) (l.length / 2 - l.length / 8) 3) (l.length / 2) 4) (l.length / 2 + l.length / 8) 5) (l.length - 1 - 2 * (l.length / 8)) 6) (l.length - 1 - l.length / 8) 7) (l.length - 1) 8).Perm (swapfunc (swapfunc (swapfunc (swapfunc (swapfunc (swapfunc (swapfunc l (l.length / 8) 1) (2 * (l.length / 8)) 2) (l.length / 2 - l.length / 8) 3) (l.length / 2) 4) (l.length / 2 + l.length / 8) 5) (l.length - 1 - 2 * (l.length / 8)) 6) (l.length - 1 - l.length / 8) 7) := swapfunc_perm (swapfunc (swapfunc (swapfunc (swapfunc (swapfunc (swapfunc (swapfunc l (l.length / 8) 1) (2 * (l.length / 8)) 2) (l.length / 2 - l.length / 8) 3) (l.length / 2) 4) (l.length / 2 + l.length / 8) 5) (l.length - 1 - 2 * (l.length / 8)) 6) (l.length - 1 - l.length / 8) 7) (l.length - 1) 8 (by rw [s7l]; omega) (by rw [s7l]; omega)
    have m9 := opt_med9_perm cmp (swapfunc (swapfunc (swapfunc (swapfunc (swapfunc (swapfunc (swapfunc (swapfunc l (l.length / 8) 1) (2 * (l.length / 8)) 2) (l.length / 2 - l.length / 8) 3) (l.length / 2) 4) (l.length / 2 + l.length / 8) 5) (l.length - 1 - 2 * (l.length / 8)) 6) (l.length - 1 - l.length / 8) 7) (l.length - 1) 8) 0 (by rw [s8l]; omega)
    have s9l : (opt_med9 cmp (swapfunc (swapfunc (swapfunc (swapfunc (swapfunc (swapfunc (swapfunc (swapfunc l (l.length / 8) 1) (2 * (l.length / 8)) 2) (l.length / 2 - l.length / 8) 3) (l.length / 2) 4) (l.length / 2 + l.length / 8) 5) (l.length - 1 - 2 * (l.length / 8)) 6) (l.length - 1 - l.length / 8) 7) (l.length - 1) 8) 0).length = l.length := m9.2.trans s8l
    have chain : (opt_med9 cmp (swapfunc (swapfunc (swapfunc (swapfunc (swapfunc (swapfunc (swapfunc (swapfunc l (l.length / 8) 1) (2 * (l.length / 8)) 2) (l.length / 2 - l.length / 8) 3) (l.length / 2) 4) (l.length / 2 + l.length / 8) 5) (l.length - 1 - 2 * (l.length / 8)) 6) (l.length - 1 - l.length / 8) 7) (l.length - 1) 8) 0).Perm l := m9.1.trans (s8p.trans (s7p.trans (s6p.trans (s5p.trans (s4p.trans (s3p.trans (s2p.trans s1p)))))))
    exact ⟨(swapfunc_perm (opt_med9 cmp (swapfunc (swapfunc (swapfunc (swapfunc (swapfunc (swapfunc (swapfunc (swapfunc l (l.length / 8) 1) (2 * (l.length / 8)) 2) (l.length / 2 - l.length / 8) 3) (l.length / 2) 4) (l.length / 2 + l.length / 8) 5) (l.length - 1 - 2 * (l.length / 8)) 6) (l.length - 1 - l.length / 8) 7) (l.length - 1) 8) 0) 0 4 (by rw [s9l]; omega) (by rw [s9l]; omega)).trans chain,
      by rw [length_swapfunc, s9l]⟩

theorem perm_swapfunc_step {α : Type} [Inhabited α] (i j : Nat) {m l : List α}
    (hp : m.Perm l) (hl : m.length = l.length)
    (hi : i < l.length) (hj : j < l.length) :
    (swapfunc m i j).Perm l ∧ (swapfunc m i j).length = l.length :=
  ⟨(swapfunc_perm m i j (by rw [hl]; exact hi) (by rw [hl]; exact hj)).trans hp,
   (length_swapfunc m i j).trans hl⟩

theorem perm_sst_step {α : Type} [Inhabited α] (cmp : α → α → Int) (off len : Nat)
    {m l : List α} (hp : m.Perm l) (hl : m.length = l.length) :
    (small_sortq_at cmp m off len).Perm l ∧
      (small_sortq_at cmp m off len).length = l.length :=
  ⟨(small_sortq_at_perm cmp m off len).1.trans hp,
   (small_sortq_at_perm cmp m off len).2.trans hl⟩

theorem perm_med9_step {α : Type} [Inhabited α] (cmp : α → α → Int) (b0 : Nat)
    {m l : List α} (hp : m.Perm l) (hl : m.length = l.length)
    (h : b0 + 9 ≤ l.length) :
    (opt_med9 cmp m b0).Perm l ∧ (opt_med9 cmp m b0).length = l.length :=
  ⟨(opt_med9_perm cmp m b0 (by rw [hl]; exact h)).1.trans hp,
   (opt_med9_perm cmp m b0 (by rw [hl]; exact h)).2.trans hl⟩

theorem perm_med25_step {α : Type} [Inhabited α] (cmp : α → α → Int) (b0 : Nat)
    {m l : List α} (hp : m.Perm l) (hl : m.length = l.length)
    (h : b0 + 25 ≤ l.length) :
    (opt_med25 cmp m b0).Perm l ∧ (opt_med25 cmp m b0).length = l.length :=
  ⟨(opt_med25_perm cmp m b0 (by rw [hl]; exact h)).1.trans hp,
   (opt_med25_perm cmp m b0 (by rw [hl]; exact h)).2.trans hl⟩

theorem momInner_perm {α : Type} [Inhabited α] (cmp : α → α → Int) :
    ∀ (f : Nat) (l : List α) (n1 p1 p2 : Nat), p1 ≤ p2 → p2 ≤ n1 → n1 ≤ l.length →
      (momInner cmp f l n1 p1 p2).1.Perm l ∧
      (momInner cmp f l n1 p1 p2).1.length = l.length ∧
      (momInner cmp f l n1 p1 p2).2 ≤ n1 := by
  intro f
  induction f with
  | zero =>
    intro l n1 p1 p2 h1 h2 hn
    rw [momInner]
    exact ⟨List.Perm.refl l, rfl, show p1 ≤ n1 by omega⟩
  | succ f ih =>
    intro l n1 p1 p2 h1 h2 hn
    rw [momInner]
    by_cases hg : p2 + 24 < n1
    · rw [if_pos hg]
      by_cases hfin : n1 ≤ p2 + 49 ∧ n1 - p2 ≠ 25
      · rw [if_pos hfin]
        by_cases hodd : p1 % 2 = 0 ∧ 11 ≤ n1 - p2
        · rw [if_pos hodd]
          have h1s := perm_med9_step cmp p2 (List.Perm.refl l) rfl (by omega)
          have h2s := perm_swapfunc_step p1 (p2 + 4) h1s.1 h1s.2 (by omega) (by omega)
          have h3s := perm_sst_step cmp (p2 + 9) ((n1 - p2 - 9) / 2) h2s.1 h2s.2
          have h4s := perm_swapfunc_step (p1 + 1) (p2 + 9 + ((n1 - p2 - 9) / 2 - 1) / 2)
            h3s.1 h3s.2 (by omega) (by omega)
          have h5s := perm_sst_step cmp (p2 + 9 + (n1 - p2 - 9) / 2)
            (n1 - p2 - 9 - (n1 - p2 - 9) / 2) h4s.1 h4s.2
          have h6s := perm_swapfunc_step (p1 + 1 + 1)
            (p2 + 9 + (n1 - p2 - 9) / 2 + (n1 - p2 - 9 - (n1 - p2 - 9) / 2 - 1) / 2)
            h5s.1 h5s.2 (by omega) (by omega)
          exact ⟨h6s.1, h6s.2, show p1 + 1 + 2 ≤ n1 by omega⟩
        · rw [if_neg hodd]
          have h3s := perm_sst_step cmp p2 ((n1 - p2) / 2) (List.Perm.refl l) rfl
          have h4s := perm_swapfunc_step p1 (p2 + ((n1 - p2) / 2 - 1) / 2)
            h3s.1 h3s.2 (by omega) (by omega)
          have h5s := perm_sst_step cmp (p2 + (n1 - p2) / 2)
            (n1 - p2 - (n1 - p2) / 2) h4s.1 h4s.2
          have h6s := perm_swapfunc_step (p1 + 1)
            (p2 + (n1 - p2) / 2 + (n1 - p2 - (n1 - p2) / 2 - 1) / 2)
            h5s.1 h5s.2 (by omega) (by omega)
          exact ⟨h6s.1, h6s.2, show p1 + 2 ≤ n1 by omega⟩
      · rw [if_neg hfin]
        have h25 : p2 + 25 ≤ n1 := by
          by_cases hle : n1 ≤ p2 + 49
          · by_cases hne : n1 - p2 = 25
            · omega
            · exact absurd ⟨hle, hne⟩ hfin
          · omega
        have hA := perm_med25_step cmp p2 (List.Perm.refl l) rfl (by omega)
        have hB := perm_swapfunc_step p1 (p2 + 12) hA.1 hA.2 (by omega) (by omega)
        have hlen2 : n1 ≤ (swapfunc (opt_med25 cmp l p2) p1 (p2 + 12)).length := by
          rw [hB.2]; exact hn
        have hR := ih (swapfunc (opt_med25 cmp l p2) p1 (p2 + 12)) n1 (p1 + 1) (p2 + 25)
          (by omega) (by omega) hlen2
        exact ⟨hR.1.trans hB.1, hR.2.1.trans hB.2, hR.2.2⟩
    · rw [if_neg hg]
      exact ⟨List.Perm.refl l, rfl, show p1 ≤ n1 by omega⟩

theorem momOuter_perm {α : Type} [Inhabited α] (cmp : α → α → Int) :
    ∀ (f : Nat) (l : List α) (n1 p1 : Nat), n1 ≤ l.length → p1 ≤ l.length →
      (momOuter cmp f l n1 p1).1.Perm l ∧
      (momOuter cmp f l n1 p1).1.length = l.length ∧
      (momOuter cmp f l n1 p1).2.1 ≤ l.length ∧
      (momOuter cmp f l n1 p1).2.2 ≤ l.length := by
  intro f
  induction f with
  | zero =>
    intro l n1 p1 hn hp
    rw [momOuter]
    exact ⟨List.Perm.refl l, rfl, hn, hp⟩
  | succ f ih =>
    intro l n1 p1 hn hp
    rw [momOuter]
    by_cases h50 : 50 < n1
    · rw [if_pos h50]
      have hI := momInner_perm cmp n1 l n1 0 0 (Nat.le_refl 0) (Nat.zero_le n1) hn
      have hO := ih (momInner cmp n1 l n1 0 0).1 (n1 / 25) (momInner cmp n1 l n1 0 0).2
        (by rw [hI.2.1]; exact Nat.le_trans (Nat.div_le_self n1 25) hn)
        (by rw [hI.2.1]; exact Nat.le_trans hI.2.2 hn)
      refine ⟨hO.1.trans hI.1, hO.2.1.trans hI.2.1, ?_, ?_⟩
      · have := hO.2.2.1
        rw [hI.2.1] at this
        exact this
      · have := hO.2.2.2
        rw [hI.2.1] at this
        exact this
    · rw [if_neg h50]
      exact ⟨List.Perm.refl l, rfl, hn, hp⟩

theorem pivotRobust_perm {α : Type} [Inhabited α] (cmp : α → α → Int) (l : List α) :
    (pivotRobust cmp l).Perm l ∧ (pivotRobust cmp l).length = l.length := by
  rw [pivotRobust]
  have hO := momOuter_perm cmp l.length l l.length 0 (Nat.le_refl _) (Nat.zero_le _)
  simp only []
  by_cases hz : (momOuter cmp l.length l l.length 0).2.2 ≠ 0
  · rw [if_pos hz]
    by_cases h1 : 1 < (momOuter cmp l.length l l.length 0).2.2
    · rw [if_pos h1]
      have hS := perm_sst_step cmp 0 (momOuter cmp l.length l l.length 0).2.2 hO.1 hO.2.1
      by_cases h2 : 2 < (momOuter cmp l.length l l.length 0).2.2
      · rw [if_pos h2]
        exact perm_swapfunc_step 0 (((momOuter cmp l.length l l.length 0).2.2 - 1) / 2)
          hS.1 hS.2 (by have := hO.2.2.2; omega)
          (by have := hO.2.2.2; omega)
      · rw [if_neg h2]
        exact hS
    · rw [if_neg h1]
      exact ⟨hO.1, hO.2.1⟩
  · rw [if_neg hz]
    by_cases h1 : 1 < (momOuter cmp l.length l l.length 0).2.1
    · rw [if_pos h1]
      have hS := perm_sst_step cmp 0 (momOuter cmp l.length l l.length 0).2.1 hO.1 hO.2.1
      by_cases h2 : 2 < (momOuter cmp l.length l l.length 0).2.1
      · rw [if_pos h2]
        exact perm_swapfunc_step 0 (((momOuter cmp l.length l l.length 0).2.1 - 1) / 2)
          hS.1 hS.2 (by have := hO.2.2.1; omega)
          (by have := hO.2.2.1; omega)
      · rw [if_neg h2]
        exact hS
    · rw [if_neg h1]
      exact ⟨hO.1, hO.2.1⟩

theorem set_aget_self {α : Type} [Inhabited α] :
    ∀ (l : List α) (i : Nat), i < l.length → l.set i (aget l i) = l
  | a :: t, 0, _ => by simp [aget, List.getD]
  | a :: t, i + 1, h => by
    have ih := set_aget_self t i (by simp at h; omega)
    show a :: t.set i (aget (a :: t) (i + 1)) = a :: t
    have hg : aget (a :: t) (i + 1) = aget t i := by simp [aget, List.getD]
    rw [hg, ih]

theorem set_move_perm {α : Type} [Inhabited α] (l : List α) (i j : Nat) (v : α)
    (hij : i ≠ j) (hi : i < l.length) (hj : j < l.length) :
    ((l.set i (aget l j)).set j v).Perm (l.set i v) := by
  have hs := swapfunc_perm (l.set i v) i j
    (by rw [List.length_set]; exact hi) (by rw [List.length_set]; exact hj)
  rw [swapfunc] at hs
  rw [List.set_set] at hs
  rw [aget_set_ne l i j v hij] at hs
  rw [aget_set_self l i v hi] at hs
  exact hs

theorem hph1_spec {α : Type} [Inhabited α] (cmp : α → α → Int) :
    ∀ (f m i : Nat) (l : List α), 1 ≤ i → i ≤ m → m ≤ l.length →
      1 ≤ (hph1 cmp f m i l).2 ∧ (hph1 cmp f m i l).2 ≤ m ∧
      (hph1 cmp f m i l).1.length = l.length ∧
      ∀ v, ((hph1 cmp f m i l).1.set ((hph1 cmp f m i l).2 - 1) v).Perm
        (l.set (i - 1) v) := by
  intro f
  induction f with
  | zero =>
    intro m i l h1 h2 h3
    rw [hph1]
    exact ⟨h1, h2, rfl, fun v => List.Perm.refl _⟩
  | succ f ih =>
    intro m i l h1 h2 h3
    rw [hph1]
    simp only []
    by_cases hc : m < 2 * i
    · rw [if_pos hc]
      exact ⟨h1, h2, rfl, fun v => List.Perm.refl _⟩
    · rw [if_neg hc]
      by_cases hcc : 2 * i < m ∧ cmp (aget l (2 * i - 1)) (aget l (2 * i)) < 0
      · rw [if_pos hcc]
        have hI := ih m (2 * i + 1) (l.set (i - 1) (aget l (2 * i + 1 - 1)))
          (by omega) (by omega) (by rw [List.length_set]; exact h3)
        refine ⟨hI.1, hI.2.1, hI.2.2.1.trans (by rw [List.length_set]), fun v => ?_⟩
        exact (hI.2.2.2 v).trans
          (set_move_perm l (i - 1) (2 * i + 1 - 1) v (by omega) (by omega) (by omega))
      · rw [if_neg hcc]
        have hI := ih m (2 * i) (l.set (i - 1) (aget l (2 * i - 1)))
          (by omega) (by omega) (by rw [List.length_set]; exact h3)
        refine ⟨hI.1, hI.2.1, hI.2.2.1.trans (by rw [List.length_set]), fun v => ?_⟩
        exact (hI.2.2.2 v).trans
          (set_move_perm l (i - 1) (2 * i - 1) v (by omega) (by omega) (by omega))

theorem hph2_perm {α : Type} [Inhabited α] (cmp : α → α → Int) (k : α) :
    ∀ (f ci : Nat) (l : List α), 1 ≤ ci → ci ≤ f → ci ≤ l.length →
      (hph2 cmp k f ci l).Perm (l.set (ci - 1) k) ∧
      (hph2 cmp k f ci l).length = l.length := by
  intro f
  induction f with
  | zero =>
    intro ci l h1 h2 h3
    exact absurd h2 (by omega)
  | succ f ih =>
    intro ci l h1 h2 h3
    rw [hph2]
    by_cases hc : ci = 1 ∨ cmp k (aget l (ci / 2 - 1)) < 0
    · rw [if_pos hc]
      exact ⟨List.Perm.refl _, by rw [List.length_set]⟩
    · rw [if_neg hc]
      have hne : ci ≠ 1 := fun h => hc (Or.inl h)
      have hI := ih (ci / 2) (l.set (ci - 1) (aget l (ci / 2 - 1)))
        (by omega) (by omega) (by rw [List.length_set]; omega)
      refine ⟨hI.1.trans ?_, hI.2.trans (by rw [List.length_set])⟩
      exact set_move_perm l (ci - 1) (ci / 2 - 1) k (by omega) (by omega) (by omega)

theorem hselect_perm {α : Type} [Inhabited α] (cmp : α → α → Int) (m : Nat) (k : α)
    (l : List α) (h1 : 1 ≤ m) (h2 : m ≤ l.length) :
    (hselect cmp m k l).Perm (l.set 0 k) ∧ (hselect cmp m k l).length = l.length := by
  rw [hselect]
  have hA := hph1_spec cmp (m + 1) m 1 l (le_refl 1) h1 h2
  have hB := hph2_perm cmp k ((hph1 cmp (m + 1) m 1 l).2 + 1) (hph1 cmp (m + 1) m 1 l).2
    (hph1 cmp (m + 1) m 1 l).1 hA.1 (by omega) (by rw [hA.2.2.1]; omega)
  exact ⟨hB.1.trans (hA.2.2.2 k), hB.2.trans hA.2.2.1⟩

theorem hsel_perm {α : Type} [Inhabited α] :
    ∀ (cmp : α → α → Int) (n : Nat) (l : List α), n ≤ l.length →
      (hsel cmp n l).Perm l ∧ (hsel cmp n l).length = l.length
  | cmp, 0, l, _ => by
    rw [hsel]
    exact ⟨List.Perm.refl l, rfl⟩
  | cmp, 1, l, _ => by
    rw [hsel]
    exact ⟨List.Perm.refl l, rfl⟩
  | cmp, m + 2, l, hn => by
    rw [hsel]
    have hS := hselect_perm cmp (m + 1) (aget l (m + 1)) (l.set (m + 1) (aget l 0))
      (by omega) (by rw [List.length_set]; omega)
    have hswp := swapfunc_perm l (m + 1) 0 (by omega) (by omega)
    have hP : (hselect cmp (m + 1) (aget l (m + 1))
        (l.set (m + 1) (aget l 0))).Perm l := hS.1.trans hswp
    have hL : (hselect cmp (m + 1) (aget l (m + 1))
        (l.set (m + 1) (aget l 0))).length = l.length :=
      hS.2.trans (by rw [List.length_set])
    have hI := hsel_perm cmp (m + 1)
      (hselect cmp (m + 1) (aget l (m + 1)) (l.set (m + 1) (aget l 0)))
      (by rw [hL]; omega)
    exact ⟨hI.1.trans hP, hI.2.trans hL⟩

theorem hcreate_perm {α : Type} [Inhabited α] (cmp : α → α → Int) :
    ∀ (f m i : Nat) (l : List α), 1 ≤ i → m ≤ l.length →
      (hcreate cmp f m i l).Perm l ∧ (hcreate cmp f m i l).length = l.length := by
  intro f
  induction f with
  | zero =>
    intro m i l _ _
    rw [hcreate]
    exact ⟨List.Perm.refl l, rfl⟩
  | succ f ih =>
    intro m i l h1 hm
    rw [hcreate]
    simp only []
    by_cases hc : m < 2 * i
    · rw [if_pos hc]
      exact ⟨List.Perm.refl l, rfl⟩
    · rw [if_neg hc]
      by_cases hcc : 2 * i < m ∧ cmp (aget l (2 * i - 1)) (aget l (2 * i)) < 0
      · rw [if_pos hcc]
        by_cases hd : cmp (aget l (2 * i + 1 - 1)) (aget l (i - 1)) ≤ 0
        · rw [if_pos hd]
          exact ⟨List.Perm.refl l, rfl⟩
        · rw [if_neg hd]
          have hsw := swapfunc_perm l (i - 1) (2 * i + 1 - 1) (by omega) (by omega)
          have hI := ih m (2 * i + 1) (swapfunc l (i - 1) (2 * i + 1 - 1))
            (by omega) (by rw [length_swapfunc]; exact hm)
          exact ⟨hI.1.trans hsw, hI.2.trans (length_swapfunc _ _ _)⟩
      · rw [if_neg hcc]
        by_cases hd : cmp (aget l (2 * i - 1)) (aget l (i - 1)) ≤ 0
        · rw [if_pos hd]
          exact ⟨List.Perm.refl l, rfl⟩
        · rw [if_neg hd]
          have hsw := swapfunc_perm l (i - 1) (2 * i - 1) (by omega) (by omega)
          have hI := ih m (2 * i) (swapfunc l (i - 1) (2 * i - 1))
            (by omega) (by rw [length_swapfunc]; exact hm)
          exact ⟨hI.1.trans hsw, hI.2.trans (length_swapfunc _ _ _)⟩

theorem hbuild_perm {α : Type} [Inhabited α] (cmp : α → α → Int) (m : Nat) :
    ∀ (j : Nat) (l : List α), m ≤ l.length →
      (hbuild cmp m j l).Perm l ∧ (hbuild cmp m j l).length = l.length := by
  intro j
  induction j with
  | zero =>
    intro l _
    rw [hbuild]
    exact ⟨List.Perm.refl l, rfl⟩
  | succ j ih =>
    intro l hm
    rw [hbuild]
    have hC := hcreate_perm cmp (m + 1) m (j + 1) l (by omega) hm
    have hI := ih (hcreate cmp (m + 1) m (j + 1) l) (by rw [hC.2]; exact hm)
    exact ⟨hI.1.trans hC.1, hI.2.trans hC.2⟩

theorem hrun_perm {α : Type} [Inhabited α] (cmp : α → α → Int) (l : List α) :
    (hrun cmp l).Perm l ∧ (hrun cmp l).length = l.length := by
  rw [hrun]
  have hB := hbuild_perm cmp l.length (l.length / 2) l (le_refl _)
  have hS := hsel_perm cmp l.length (hbuild cmp l.length (l.length / 2) l) hB.2.ge
  exact ⟨hS.1.trans hB.1, hS.2.trans hB.2⟩

theorem heapsortF_perm {α : Type} [Inhabited α] (cmp : α → α → Int) (es : Nat)
    (allocOk : Bool) (l : List α) :
    (heapsortF cmp es allocOk l).2.Perm l ∧
      (heapsortF cmp es allocOk l).2.length = l.length := by
  rw [heapsortF]
  by_cases h1 : l.length ≤ 1
  · rw [if_pos h1]
    exact ⟨List.Perm.refl l, rfl⟩
  · rw [if_neg h1]
    by_cases h2 : es = 0
    · rw [if_pos h2]
      exact ⟨List.Perm.refl l, rfl⟩
    · rw [if_neg h2]
      by_cases h3 : 8 < es ∧ ¬ allocOk
      · rw [if_pos h3]
        exact ⟨List.Perm.refl l, rfl⟩
      · rw [if_neg h3]
        exact hrun_perm cmp l

theorem lqsGo_perm {α : Type} [Inhabited α] (cfg : QCfg) (cmp : α → α → Int)
    (es : Nat) :
    ∀ (fuel maxItn itn k : Nat) (bad : Bool) (l : List α),
      (lqsGo cfg cmp es fuel maxItn itn k bad l).1.Perm l := by
  intro fuel
  induction fuel with
  | zero =>
    intro maxItn itn k bad l
    rw [lqsGo]
  | succ fuel ih =>
    intro maxItn itn k bad l
    rw [lqsGo]
    by_cases h1 : l.length ≤ 1
    · rw [if_pos h1]
    · rw [if_neg h1]
      by_cases h2 : l.length < USE_SMALL_SORT
      · rw [if_pos h2]
        exact small_sortq_perm cmp l
      · rw [if_neg h2]
        rw [USE_SMALL_SORT] at h2
        simp only []
        by_cases h3 : (insPass cmp l).2 = true
        · rw [if_pos h3]
          exact insPass_perm cmp l
        · rw [if_neg h3]
          set l1 : List α := (insPass cmp l).1 with hl1d
          have hl1p : l1.Perm l := by rw [hl1d]; exact insPass_perm cmp l
          have hl1n : l1.length = l.length := by rw [hl1d]; exact length_insPass cmp l
          set hres : Int × List α :=
            if maxItn < itn + 1 then heapsortF cmp es (cfg.alloc k) l1 else (-1, l1)
            with hhres
          have hhp : hres.2.Perm l1 ∧ hres.2.length = l1.length := by
            rw [hhres]
            by_cases ha : maxItn < itn + 1
            · rw [if_pos ha]
              exact heapsortF_perm cmp es (cfg.alloc k) l1
            · rw [if_neg ha]
              exact ⟨List.Perm.refl l1, rfl⟩
          set k' : Nat := if maxItn < itn + 1 ∧ 8 < es then k + 1 else k with hk'
          by_cases hAB : maxItn < itn + 1 ∧ hres.1 = 0
          · rw [if_pos hAB]
            exact hhp.1.trans hl1p
          · rw [if_neg hAB]
            set l2 : List α :=
              if bad = true then pivotRobust cmp hres.2 else pivotFast cmp hres.2
              with hl2d
            have hl2p : l2.Perm hres.2 ∧ l2.length = hres.2.length := by
              rw [hl2d]
              by_cases hb : bad = true
              · rw [if_pos hb]
                exact pivotRobust_perm cmp hres.2
              · rw [if_neg hb]
                exact pivotFast_perm cmp hres.2 (by rw [hhp.2, hl1n]; omega)
            have hl2P : l2.Perm l := hl2p.1.trans (hhp.1.trans hl1p)
            have hl2n : l2.length = l.length := hl2p.2.trans (hhp.2.trans hl1n)
            have hps := partitionF_spec cmp l2 (by omega)
            set P : PartOut α := partitionF cmp l2 with hPd
            obtain ⟨hq1, hq2, hq3, hq4, hq5, hq6, hq7, _, _, _, _, _⟩ := hps
            set L : Nat := partL P with hLd
            set R : Nat := partR P with hRd
            have hLa : L = P.pb - P.pa := hLd
            have hRa : R = P.pd - P.pc := hRd
            have hLR : L + R + 1 ≤ l.length := by rw [hLa, hRa]; omega
            have hPll : P.l.length = l.length := hq1.trans hl2n
            have hPlp : P.l.Perm l := hq2.trans hl2P
            have hdd : (P.l.drop L).drop (l.length - L - R) = P.l.drop (l.length - R) := by
              rw [List.drop_drop]
              congr 1
              omega
            have hsplit : (P.l.take L ++ (P.l.drop L).take (l.length - L - R)) ++
                P.l.drop (l.length - R) = P.l := by
              rw [List.append_assoc, ← hdd, List.take_append_drop, List.take_append_drop]
            have hX : ((P.l.take L ++ (P.l.drop L).take (l.length - L - R)) ++
                P.l.drop (l.length - R)).Perm l := by rw [hsplit]; exact hPlp
            by_cases hLRle : L ≤ R
            · rw [if_pos hLRle]
              set a1 : List α × Nat :=
                if 1 < L then lqsGo cfg cmp es fuel (cfg.MI L) 0 k' false (P.l.take L)
                else (P.l.take L, k')
                with ha1d
              have ha1 : a1.1.Perm (P.l.take L) := by
                rw [ha1d]
                by_cases h5 : 1 < L
                · rw [if_pos h5]
                  exact ih (cfg.MI L) 0 k' false (P.l.take L)
                · rw [if_neg h5]
              by_cases h6 : 1 < R
              · rw [if_pos h6]
                have ha2 := ih maxItn (itn + 1) a1.2 (cfg.bad L R P.d1 P.d2 l.length)
                  (P.l.drop (l.length - R))
                exact ((ha1.append (List.Perm.refl _)).append ha2).trans hX
              · rw [if_neg h6]
                exact ((ha1.append (List.Perm.refl _)).append (List.Perm.refl _)).trans hX
            · rw [if_neg hLRle]
              set a1 : List α × Nat :=
                if 1 < R then
                  lqsGo cfg cmp es fuel (cfg.MI R) 0 k' false (P.l.drop (l.length - R))
                else (P.l.drop (l.length - R), k')
                with ha1d
              have ha1 : a1.1.Perm (P.l.drop (l.length - R)) := by
                rw [ha1d]
                by_cases h5 : 1 < R
                · rw [if_pos h5]
                  exact ih (cfg.MI R) 0 k' false (P.l.drop (l.length - R))
                · rw [if_neg h5]
              by_cases h6 : 1 < L
              · rw [if_pos h6]
                have ha2 := ih maxItn (itn + 1) a1.2 (cfg.bad L R P.d1 P.d2 l.length)
                  (P.l.take L)
                exact ((ha2.append (List.Perm.refl _)).append ha1).trans hX
              · rw [if_neg h6]
                exact (((List.Perm.refl _).append (List.Perm.refl _)).append ha1).trans hX

/-- Claim C2: for every record array, every record size `es ≥ 1`, every total
comparator and every resolution of the floating-point and allocator
nondeterminism (`cfg`), the array returned by `qsort` is a permutation
(multiset equality of records) of the input array. -/
theorem claim_C2 {α : Type} [Inhabited α] (cfg : QCfg) (cmp : α → α → Int)
    (es : Nat) (l : List α) (hes : 1 ≤ es) :
    (qsortF cfg cmp es l).Perm l := by
  rw [qsortF]
  by_cases h1 : l.length ≤ 1 ∨ es = 0
  · rw [if_pos h1]
  · rw [if_neg h1]
    by_cases h2 : l.length < USE_SMALL_SORT
    · rw [if_pos h2]
      exact small_sortq_perm cmp l
    · rw [if_neg h2, local_qsortF]
      exact lqsGo_perm cfg cmp es l.length (cfg.MI l.length) 0 0 false l

/-- Witness for claim C2 at a concrete input. -/
theorem claim_C2_witness :
    1 ≤ 8 ∧ (qsortF qcfg0 intCmp 8 [(3 : Int), 1, 2]).Perm [3, 1, 2] :=
  ⟨by decide, claim_C2 qcfg0 intCmp 8 [3, 1, 2] (by decide)⟩

theorem cmp_self {α : Type} (cmp : α → α → Int) (hlaw : LawfulCmp cmp) (x : α) :
    cmp x x = 0 := by
  by_cases hpos : cmp x x > 0
  · have := (hlaw.1 x x).mp hpos
    omega
  · by_cases hneg : cmp x x < 0
    · have := (hlaw.1 x x).mpr hneg
      omega
    · omega

theorem cmp_flip_le {α : Type} (cmp : α → α → Int) (hlaw : LawfulCmp cmp) (x y : α)
    (h : cmp x y ≤ 0) : 0 ≤ cmp y x := by
  by_contra hc
  push_neg at hc
  have := (hlaw.1 x y).mpr hc
  omega

theorem cmp_flip_ge {α : Type} (cmp : α → α → Int) (hlaw : LawfulCmp cmp) (x y : α)
    (h : 0 ≤ cmp x y) : cmp y x ≤ 0 := by
  by_contra hc
  push_neg at hc
  have := (hlaw.1 y x).mp hc
  omega

theorem aget_mem {α : Type} [Inhabited α] (l : List α) (i : Nat) (h : i < l.length) :
    aget l i ∈ l := by
  rw [aget, List.getD, List.get?_eq_getElem?, List.getElem?_eq_getElem h, Option.getD_some]
  exact List.getElem_mem h

theorem mem_aget {α : Type} [Inhabited α] (l : List α) (x : α) (h : x ∈ l) :
    ∃ i, i < l.length ∧ x = aget l i := by
  obtain ⟨i, hi, he⟩ := List.mem_iff_getElem.mp h
  refine ⟨i, hi, ?_⟩
  rw [aget, List.getD, List.get?_eq_getElem?, List.getElem?_eq_getElem hi, Option.getD_some]
  exact he.symm

theorem aget_take {α : Type} [Inhabited α] (l : List α) (n i : Nat) (h : i < n) :
    aget (l.take n) i = aget l i := by
  rw [aget, aget, List.getD, List.getD, List.get?_eq_getElem?, List.get?_eq_getElem?,
    List.getElem?_take, if_pos h]

theorem aget_drop {α : Type} [Inhabited α] (l : List α) (n i : Nat) :
    aget (l.drop n) i = aget l (n + i) := by
  rw [aget, aget, List.getD, List.getD, List.get?_eq_getElem?, List.get?_eq_getElem?,
    List.getElem?_drop]

theorem aget_append_left {α : Type} [Inhabited α] (l1 l2 : List α) (i : Nat)
    (h : i < l1.length) : aget (l1 ++ l2) i = aget l1 i := by
  rw [aget, aget, List.getD, List.getD, List.get?_eq_getElem?, List.get?_eq_getElem?,
    List.getElem?_append, if_pos h]

theorem aget_append_right {α : Type} [Inhabited α] (l1 l2 : List α) (i : Nat)
    (h : l1.length ≤ i) : aget (l1 ++ l2) i = aget l2 (i - l1.length) := by
  rw [aget, aget, List.getD, List.getD, List.get?_eq_getElem?, List.get?_eq_getElem?,
    List.getElem?_append, if_neg (by omega)]

theorem sortedA_short {α : Type} [Inhabited α] (cmp : α → α → Int) (l : List α)
    (h : l.length ≤ 1) : SortedA cmp l := by
  intro i hi
  omega

theorem sortedA_append {α : Type} [Inhabited α] (cmp : α → α → Int) (l1 l2 : List α)
    (h1 : SortedA cmp l1) (h2 : SortedA cmp l2)
    (hx : ∀ x, x ∈ l1 → ∀ y, y ∈ l2 → cmp x y ≤ 0) :
    SortedA cmp (l1 ++ l2) := by
  intro i hi
  rw [List.length_append] at hi
  by_cases ha : i + 1 < l1.length
  · rw [aget_append_left l1 l2 i (by omega), aget_append_left l1 l2 (i + 1) ha]
    exact h1 i ha
  · by_cases hb : i < l1.length
    · rw [aget_append_left l1 l2 i hb, aget_append_right l1 l2 (i + 1) (by omega)]
      exact hx _ (aget_mem l1 i hb) _ (aget_mem l2 _ (by omega))
    · rw [aget_append_right l1 l2 i (by omega), aget_append_right l1 l2 (i + 1) (by omega)]
      have he : i + 1 - l1.length = (i - l1.length) + 1 := by omega
      rw [he]
      exact h2 (i - l1.length) (by omega)

theorem bubble_sorted {α : Type} [Inhabited α] (cmp : α → α → Int) (hlaw : LawfulCmp cmp) :
    ∀ (i : Nat) (l : List α), i < l.length →
      (∀ t, t + 1 < i → cmp (aget l t) (aget l (t + 1)) ≤ 0) →
      (∀ t, t + 1 < i + 1 →
        cmp (aget (bubble cmp l i) t) (aget (bubble cmp l i) (t + 1)) ≤ 0) ∧
      (∀ t, i < t → aget (bubble cmp l i) t = aget l t) ∧
      (aget (bubble cmp l i) i = aget l i ∨
        aget (bubble cmp l i) i = aget l (i - 1)) := by
  intro i
  induction i with
  | zero =>
    intro l hlen hpre
    rw [bubble]
    exact ⟨fun t ht => absurd ht (by omega), fun t _ => rfl, Or.inl rfl⟩
  | succ j ih =>
    intro l hlen hpre
    rw [bubble]
    by_cases hc : cmp (aget l j) (aget l (j + 1)) > 0
    · rw [if_pos hc]
      have hv1 : aget (swapfunc l (j + 1) j) j = aget l (j + 1) :=
        aget_swapfunc_snd l (j + 1) j (by omega)
      have hv2 : aget (swapfunc l (j + 1) j) (j + 1) = aget l j := by
        rw [aget_swapfunc_fst l (j + 1) j hlen, if_neg (by omega)]
      have hoth : ∀ t, t ≠ j → t ≠ j + 1 → aget (swapfunc l (j + 1) j) t = aget l t :=
        fun t h1 h2 => aget_swapfunc_other l (j + 1) j t h2 h1
      have hI := ih (swapfunc l (j + 1) j) (by rw [length_swapfunc]; omega)
        (fun t ht => by
          rw [hoth t (by omega) (by omega), hoth (t + 1) (by omega) (by omega)]
          exact hpre t (by omega))
      refine ⟨?_, ?_, ?_⟩
      · intro t ht
        by_cases h2 : t + 1 < j + 1
        · exact hI.1 t h2
        · have hteq : t = j := by omega
          subst hteq
          rw [hI.2.1 (t + 1) (by omega), hv2]
          rcases hI.2.2 with h | h
          · rw [h, hv1]
            have := (hlaw.1 (aget l t) (aget l (t + 1))).mp hc
            omega
          · by_cases hj : t = 0
            · subst hj
              rw [show (0 : Nat) - 1 = 0 from rfl] at h
              rw [h, hv1]
              have := (hlaw.1 (aget l 0) (aget l (0 + 1))).mp hc
              omega
            · rw [hoth (t - 1) (by omega) (by omega)] at h
              rw [h]
              have hp := hpre (t - 1) (by omega)
              rw [show t - 1 + 1 = t by omega] at hp
              exact hp
      · intro t ht
        rw [hI.2.1 t (by omega), hoth t (by omega) (by omega)]
      · rw [hI.2.1 (j + 1) (by omega), hv2]
        exact Or.inr rfl
    · rw [if_neg hc]
      refine ⟨?_, fun t _ => rfl, Or.inl rfl⟩
      intro t ht
      by_cases h2 : t + 1 < j + 1
      · exact hpre t h2
      · have hteq : t = j := by omega
        subst hteq
        omega

theorem ssAux_sorts {α : Type} [Inhabited α] (cmp : α → α → Int) (hlaw : LawfulCmp cmp) :
    ∀ (r : Nat) (l : List α) (i : Nat), 1 ≤ i → i + r = l.length →
      (∀ t, t + 1 < i → cmp (aget l t) (aget l (t + 1)) ≤ 0) →
      SortedA cmp (ssAux cmp r l i)
  | 0, l, i, _, hr, hpre => by
    rw [ssAux]
    exact fun t ht => hpre t (by omega)
  | r + 1, l, i, h1, hr, hpre => by
    rw [ssAux]
    have hb := bubble_sorted cmp hlaw i l (by omega) hpre
    exact ssAux_sorts cmp hlaw r (bubble cmp l i) (i + 1) (by omega)
      (by rw [length_bubble]; omega) hb.1

theorem small_sortq_sorts {α : Type} [Inhabited α] (cmp : α → α → Int)
    (hlaw : LawfulCmp cmp) (l : List α) : SortedA cmp (small_sortq cmp l) := by
  rw [small_sortq]
  match l with
  | [] =>
    show SortedA cmp []
    exact sortedA_short cmp [] (by simp)
  | a :: t =>
    exact ssAux_sorts cmp hlaw ((a :: t).length - 1) (a :: t) 1 (le_refl 1)
      (by simp; omega) (fun u hu => absurd hu (by omega))

theorem insPassAux_true {α : Type} [Inhabited α] (cmp : α → α → Int)
    (hlaw : LawfulCmp cmp) :
    ∀ (r : Nat) (l : List α) (i cnt : Nat), 1 ≤ i → i + r = l.length →
      (∀ t, t + 1 < i → cmp (aget l t) (aget l (t + 1)) ≤ 0) →
      (insPassAux cmp r l i cnt).2 = true →
      SortedA cmp (insPassAux cmp r l i cnt).1
  | 0, l, i, cnt, _, hr, hpre, _ => by
    rw [insPassAux]
    show SortedA cmp l
    exact fun t ht => hpre t (by omega)
  | r + 1, l, i, cnt, h1, hr, hpre, htrue => by
    rw [insPassAux] at htrue ⊢
    by_cases hc : cmp (aget l (i - 1)) (aget l i) > 0
    · rw [if_pos hc] at htrue ⊢
      by_cases hm : MAX_INS_MOVES < cnt + 1
      · rw [if_pos hm] at htrue
        simp at htrue
      · rw [if_neg hm] at htrue ⊢
        have hb := bubble_sorted cmp hlaw i l (by omega) hpre
        exact insPassAux_true cmp hlaw r (bubble cmp l i) (i + 1) (cnt + 1) (by omega)
          (by rw [length_bubble]; omega) hb.1 htrue
    · rw [if_neg hc] at htrue ⊢
      have hb := bubble_sorted cmp hlaw i l (by omega) hpre
      exact insPassAux_true cmp hlaw r (bubble cmp l i) (i + 1) cnt (by omega)
        (by rw [length_bubble]; omega) hb.1 htrue

theorem insPass_true_sorted {α : Type} [Inhabited α] (cmp : α → α → Int)
    (hlaw : LawfulCmp cmp) (l : List α) (h : (insPass cmp l).2 = true) :
    SortedA cmp (insPass cmp l).1 := by
  by_cases hl : l.length = 0
  · have h0 : l.length - 1 = 0 := by omega
    rw [insPass, h0]
    show SortedA cmp l
    exact sortedA_short cmp l (by omega)
  · rw [insPass] at h ⊢
    exact insPassAux_true cmp hlaw (l.length - 1) l 1 0 (le_refl 1) (by omega)
      (fun u hu => absurd hu (by omega)) h

theorem heap_dom {α : Type} [Inhabited α] (cmp : α → α → Int) (hlaw : LawfulCmp cmp)
    (n : Nat) (l : List α) (hh : Heap cmp n l) :
    ∀ i, 1 ≤ i → i ≤ n → cmp (aget l (i - 1)) (aget l 0) ≤ 0 := by
  intro i
  induction i using Nat.strong_induction_on with
  | _ i ih =>
    intro h1 h2
    by_cases hi : i = 1
    · subst hi
      have := cmp_self cmp hlaw (aget l 0)
      rw [show (1 : Nat) - 1 = 0 from rfl]
      omega
    · have hedge := hh i (by omega) h2
      have hpar := ih (i / 2) (by omega) (by omega) (by omega)
      exact hlaw.2 _ _ _ hedge hpar

theorem hcreate_lift {α : Type} [Inhabited α] (cmp : α → α → Int) (hlaw : LawfulCmp cmp)
    (m i cp : Nat) (l res : List α)
    (h1 : 1 ≤ i) (hm : m ≤ l.length)
    (hcp : cp = 2 * i ∨ cp = 2 * i + 1) (hcpm : cp ≤ m)
    (hsib : ∀ s, (s = 2 * i ∨ s = 2 * i + 1) → s ≤ m →
      cmp (aget l (s - 1)) (aget l (cp - 1)) ≤ 0)
    (hd : ¬ cmp (aget l (cp - 1)) (aget l (i - 1)) ≤ 0)
    (hpre : ∀ j, 2 ≤ j → j ≤ m → i < j / 2 →
      cmp (aget l (j - 1)) (aget l (j / 2 - 1)) ≤ 0)
    (hQ : ∀ j, 2 ≤ j → j ≤ m → cp ≤ j / 2 →
      cmp (aget res (j - 1)) (aget res (j / 2 - 1)) ≤ 0)
    (hF : ∀ t, t ≠ cp - 1 → t < 2 * cp - 1 →
      aget res t = aget (swapfunc l (i - 1) (cp - 1)) t)
    (hR : aget res (cp - 1) = aget (swapfunc l (i - 1) (cp - 1)) (cp - 1) ∨
      ∃ d, (d = 2 * cp ∨ d = 2 * cp + 1) ∧ d ≤ m ∧
        aget res (cp - 1) = aget (swapfunc l (i - 1) (cp - 1)) (d - 1)) :
    (∀ j, 2 ≤ j → j ≤ m → i ≤ j / 2 →
      cmp (aget res (j - 1)) (aget res (j / 2 - 1)) ≤ 0) ∧
    (∀ t, t ≠ i - 1 → t < 2 * i - 1 → aget res t = aget l t) ∧
    (aget res (i - 1) = aget l (i - 1) ∨
      ∃ d, (d = 2 * i ∨ d = 2 * i + 1) ∧ d ≤ m ∧
        aget res (i - 1) = aget l (d - 1)) := by
  have hicp : i - 1 ≠ cp - 1 := by omega
  have hil : i - 1 < l.length := by omega
  have hcpl : cp - 1 < l.length := by omega
  have hv1 : aget (swapfunc l (i - 1) (cp - 1)) (i - 1) = aget l (cp - 1) := by
    rw [aget_swapfunc_fst l (i - 1) (cp - 1) hil, if_neg (Ne.symm hicp)]
  have hv2 : aget (swapfunc l (i - 1) (cp - 1)) (cp - 1) = aget l (i - 1) :=
    aget_swapfunc_snd l (i - 1) (cp - 1) hcpl
  have hoth : ∀ t, t ≠ i - 1 → t ≠ cp - 1 →
      aget (swapfunc l (i - 1) (cp - 1)) t = aget l t :=
    fun t ha hb => aget_swapfunc_other l (i - 1) (cp - 1) t ha hb
  have hresroot : aget res (i - 1) = aget l (cp - 1) := by
    rw [hF (i - 1) hicp (by omega), hv1]
  have hrescp : cmp (aget res (cp - 1)) (aget l (cp - 1)) ≤ 0 := by
    rcases hR with h | ⟨d, hd12, hdm, h⟩
    · rw [h, hv2]
      have hgt : cmp (aget l (cp - 1)) (aget l (i - 1)) > 0 := by omega
      have := (hlaw.1 (aget l (cp - 1)) (aget l (i - 1))).mp hgt
      omega
    · rw [h, hoth (d - 1) (by omega) (by omega)]
      have hdp := hpre d (by omega) hdm (by omega)
      rw [show d / 2 = cp from by omega] at hdp
      exact hdp
  refine ⟨?_, ?_, ?_⟩
  · intro j h2 hjm hij
    by_cases hjc : cp ≤ j / 2
    · exact hQ j h2 hjm hjc
    · by_cases hji : i < j / 2
      · have hja : j - 1 ≠ cp - 1 := by
          intro hcon
          have hjcp : j = cp := by omega
          omega
        rw [hF (j - 1) hja (by omega), hF (j / 2 - 1) (by omega) (by omega),
          hoth (j - 1) (by omega) hja, hoth (j / 2 - 1) (by omega) (by omega)]
        exact hpre j h2 hjm hji
      · have hj2 : j / 2 = i := by omega
        have hj12 : j = 2 * i ∨ j = 2 * i + 1 := by omega
        rw [hj2]
        by_cases hjcp : j = cp
        · rw [hjcp, hresroot]
          exact hrescp
        · have hsa : j - 1 ≠ cp - 1 := by omega
          rw [hF (j - 1) hsa (by omega), hoth (j - 1) (by omega) hsa, hresroot]
          exact hsib j hj12 hjm
  · intro t ht1 ht2
    have hta : t ≠ cp - 1 := by omega
    rw [hF t hta (by omega), hoth t ht1 hta]
  · right
    exact ⟨cp, hcp, hcpm, hresroot⟩

theorem hcreate_heap {α : Type} [Inhabited α] (cmp : α → α → Int) (hlaw : LawfulCmp cmp) :
    ∀ (f m i : Nat) (l : List α), 1 ≤ i → m ≤ l.length → m + 1 ≤ f + i →
      (∀ j, 2 ≤ j → j ≤ m → i < j / 2 →
        cmp (aget l (j - 1)) (aget l (j / 2 - 1)) ≤ 0) →
      (∀ j, 2 ≤ j → j ≤ m → i ≤ j / 2 →
        cmp (aget (hcreate cmp f m i l) (j - 1))
          (aget (hcreate cmp f m i l) (j / 2 - 1)) ≤ 0) ∧
      (∀ t, t ≠ i - 1 → t < 2 * i - 1 → aget (hcreate cmp f m i l) t = aget l t) ∧
      (aget (hcreate cmp f m i l) (i - 1) = aget l (i - 1) ∨
        ∃ d, (d = 2 * i ∨ d = 2 * i + 1) ∧ d ≤ m ∧
          aget (hcreate cmp f m i l) (i - 1) = aget l (d - 1)) := by
  intro f
  induction f with
  | zero =>
    intro m i l h1 hm hf hpre
    rw [hcreate]
    refine ⟨?_, fun t _ _ => rfl, Or.inl rfl⟩
    intro j h2 hjm hij
    omega
  | succ f ih =>
    intro m i l h1 hm hf hpre
    rw [hcreate]
    simp only []
    by_cases hc : m < 2 * i
    · rw [if_pos hc]
      refine ⟨?_, fun t _ _ => rfl, Or.inl rfl⟩
      intro j h2 hjm hij
      by_cases he : i < j / 2
      · exact hpre j h2 hjm he
      · omega
    · rw [if_neg hc]
      by_cases hcc : 2 * i < m ∧ cmp (aget l (2 * i - 1)) (aget l (2 * i)) < 0
      · rw [if_pos hcc]
        have hsib : ∀ s, (s = 2 * i ∨ s = 2 * i + 1) → s ≤ m →
            cmp (aget l (s - 1)) (aget l (2 * i + 1 - 1)) ≤ 0 := by
          intro s hs hsm
          rw [show (2 * i + 1 - 1 : Nat) = 2 * i from rfl]
          rcases hs with hs | hs
          · rw [hs]
            omega
          · rw [hs, show (2 * i + 1 - 1 : Nat) = 2 * i from rfl]
            have := cmp_self cmp hlaw (aget l (2 * i))
            omega
        by_cases hd : cmp (aget l (2 * i + 1 - 1)) (aget l (i - 1)) ≤ 0
        · rw [if_pos hd]
          refine ⟨?_, fun t _ _ => rfl, Or.inl rfl⟩
          intro j h2 hjm hij
          by_cases hji : i < j / 2
          · exact hpre j h2 hjm hji
          · have hj2 : j / 2 = i := by omega
            have hj12 : j = 2 * i ∨ j = 2 * i + 1 := by omega
            rw [hj2]
            by_cases hjcp : j = 2 * i + 1
            · rw [hjcp]
              exact hd
            · have hj2i : j = 2 * i := by omega
              rw [hj2i]
              have h1s := hsib (2 * i) (Or.inl rfl) (by omega)
              rw [show (2 * i + 1 - 1 : Nat) = 2 * i from rfl] at h1s
              have hd' := hd
              rw [show (2 * i + 1 - 1 : Nat) = 2 * i from rfl] at hd'
              exact hlaw.2 _ _ _ h1s hd'
        · rw [if_neg hd]
          have hI := ih m (2 * i + 1) (swapfunc l (i - 1) (2 * i + 1 - 1)) (by omega)
            (by rw [length_swapfunc]; exact hm) (by omega)
            (fun j h2 hjm hj => by
              rw [aget_swapfunc_other l (i - 1) (2 * i + 1 - 1) (j - 1)
                  (by omega) (by omega),
                aget_swapfunc_other l (i - 1) (2 * i + 1 - 1) (j / 2 - 1)
                  (by omega) (by omega)]
              exact hpre j h2 hjm (by omega))
          exact hcreate_lift cmp hlaw m i (2 * i + 1) l
            (hcreate cmp f m (2 * i + 1) (swapfunc l (i - 1) (2 * i + 1 - 1)))
            h1 hm (Or.inr rfl) (by omega) hsib hd hpre hI.1 hI.2.1 hI.2.2
      · rw [if_neg hcc]
        have hge : ¬ (2 * i < m ∧ cmp (aget l (2 * i - 1)) (aget l (2 * i)) < 0) := hcc
        have hsib : ∀ s, (s = 2 * i ∨ s = 2 * i + 1) → s ≤ m →
            cmp (aget l (s - 1)) (aget l (2 * i - 1)) ≤ 0 := by
          intro s hs hsm
          rcases hs with hs | hs
          · rw [hs]
            have := cmp_self cmp hlaw (aget l (2 * i - 1))
            omega
          · rw [hs, show (2 * i + 1 - 1 : Nat) = 2 * i from rfl]
            have hnlt : ¬ cmp (aget l (2 * i - 1)) (aget l (2 * i)) < 0 :=
              fun hlt => hge ⟨by omega, hlt⟩
            exact cmp_flip_ge cmp hlaw _ _ (by omega)
        by_cases hd : cmp (aget l (2 * i - 1)) (aget l (i - 1)) ≤ 0
        · rw [if_pos hd]
          refine ⟨?_, fun t _ _ => rfl, Or.inl rfl⟩
          intro j h2 hjm hij
          by_cases hji : i < j / 2
          · exact hpre j h2 hjm hji
          · have hj2 : j / 2 = i := by omega
            have hj12 : j = 2 * i ∨ j = 2 * i + 1 := by omega
            rw [hj2]
            by_cases hjcp : j = 2 * i
            · rw [hjcp]
              exact hd
            · have hj2i : j = 2 * i + 1 := by omega
              rw [hj2i]
              have h1s := hsib (2 * i + 1) (Or.inr rfl) (by omega)
              exact hlaw.2 _ _ _ h1s hd
        · rw [if_neg hd]
          have hI := ih m (2 * i) (swapfunc l (i - 1) (2 * i - 1)) (by omega)
            (by rw [length_swapfunc]; exact hm) (by omega)
            (fun j h2 hjm hj => by
              rw [aget_swapfunc_other l (i - 1) (2 * i - 1) (j - 1)
                  (by omega) (by omega),
                aget_swapfunc_other l (i - 1) (2 * i - 1) (j / 2 - 1)
                  (by omega) (by omega)]
              exact hpre j h2 hjm (by omega))
          exact hcreate_lift cmp hlaw m i (2 * i) l
            (hcreate cmp f m (2 * i) (swapfunc l (i - 1) (2 * i - 1)))
            h1 hm (Or.inl rfl) (by omega) hsib hd hpre hI.1 hI.2.1 hI.2.2

theorem hbuild_heap {α : Type} [Inhabited α] (cmp : α → α → Int) (hlaw : LawfulCmp cmp)
    (m : Nat) :
    ∀ (j : Nat) (l : List α), m ≤ l.length →
      (∀ i, 2 ≤ i → i ≤ m → j < i / 2 →
        cmp (aget l (i - 1)) (aget l (i / 2 - 1)) ≤ 0) →
      Heap cmp m (hbuild cmp m j l) ∧ (hbuild cmp m j l).length = l.length := by
  intro j
  induction j with
  | zero =>
    intro l hm hpre
    rw [hbuild]
    exact ⟨fun i h2 him => hpre i h2 him (by omega), rfl⟩
  | succ j ih =>
    intro l hm hpre
    rw [hbuild]
    have hC := hcreate_heap cmp hlaw (m + 1) m (j + 1) l (by omega) hm (by omega)
      (fun i h2 him hji => hpre i h2 him hji)
    have hlen := (hcreate_perm cmp (m + 1) m (j + 1) l (by omega) hm).2
    have hI := ih (hcreate cmp (m + 1) m (j + 1) l) (by rw [hlen]; exact hm)
      (fun i h2 him hji => hC.1 i h2 him (by omega))
    exact ⟨hI.1, hI.2.trans hlen⟩

theorem hph1_heap {α : Type} [Inhabited α] (cmp : α → α → Int) (hlaw : LawfulCmp cmp) :
    ∀ (f m i : Nat) (l : List α), 1 ≤ i → i ≤ m → m ≤ l.length → m + 1 ≤ f + i →
      Heap cmp m l →
      Heap cmp m (hph1 cmp f m i l).1 ∧
      m < 2 * (hph1 cmp f m i l).2 ∧
      (∀ t, m ≤ t → aget (hph1 cmp f m i l).1 t = aget l t) ∧
      (∀ v, Below cmp m v l → Below cmp m v (hph1 cmp f m i l).1) := by
  intro f
  induction f with
  | zero =>
    intro m i l h1 h2 hm hf hh
    exact absurd hf (by omega)
  | succ f ih =>
    intro m i l h1 h2 hm hf hh
    rw [hph1]
    simp only []
    by_cases hc : m < 2 * i
    · rw [if_pos hc]
      exact ⟨hh, hc, fun t _ => rfl, fun v hb => hb⟩
    · rw [if_neg hc]
      by_cases hcc : 2 * i < m ∧ cmp (aget l (2 * i - 1)) (aget l (2 * i)) < 0
      · rw [if_pos hcc]
        have hsib : ∀ s, (s = 2 * i ∨ s = 2 * i + 1) → s ≤ m →
            cmp (aget l (s - 1)) (aget l (2 * i + 1 - 1)) ≤ 0 := by
          intro s hs hsm
          rw [show (2 * i + 1 - 1 : Nat) = 2 * i from rfl]
          rcases hs with hs | hs
          · rw [hs]
            omega
          · rw [hs, show (2 * i + 1 - 1 : Nat) = 2 * i from rfl]
            have := cmp_self cmp hlaw (aget l (2 * i))
            omega
        have hheap2 : Heap cmp m (l.set (i - 1) (aget l (2 * i + 1 - 1))) := by
          intro jj hj2 hjm
          by_cases hji : jj = i
          · rw [hji, aget_set_self l (i - 1) _ (by omega),
              aget_set_ne l (i - 1) (i / 2 - 1) _ (by omega)]
            have e1 := hh (2 * i + 1) (by omega) (by omega)
            rw [show (2 * i + 1) / 2 = i from by omega] at e1
            have e2 := hh i (by omega) (by omega)
            exact hlaw.2 _ _ _ e1 e2
          · by_cases hjp : jj / 2 = i
            · rw [hjp, aget_set_ne l (i - 1) (jj - 1) _ (by omega),
                aget_set_self l (i - 1) _ (by omega)]
              exact hsib jj (by omega) hjm
            · rw [aget_set_ne l (i - 1) (jj - 1) _ (by omega),
                aget_set_ne l (i - 1) (jj / 2 - 1) _ (by omega)]
              exact hh jj hj2 hjm
        have hfr2 : ∀ t, m ≤ t →
            aget (l.set (i - 1) (aget l (2 * i + 1 - 1))) t = aget l t := by
          intro t ht
          rw [aget_set_ne l (i - 1) t _ (by omega)]
        have hbel2 : ∀ v, Below cmp m v l →
            Below cmp m v (l.set (i - 1) (aget l (2 * i + 1 - 1))) := by
          intro v hb jj hjm
          by_cases hji : jj = i - 1
          · rw [hji, aget_set_self l (i - 1) _ (by omega)]
            exact hb ((2 * i + 1 - 1)) (by omega)
          · rw [aget_set_ne l (i - 1) jj _ (fun h => hji h.symm)]
            exact hb jj hjm
        have hI := ih m (2 * i + 1) (l.set (i - 1) (aget l (2 * i + 1 - 1))) (by omega) (by omega)
          (by rw [List.length_set]; exact hm) (by omega) hheap2
        exact ⟨hI.1, hI.2.1, fun t ht => (hI.2.2.1 t ht).trans (hfr2 t ht),
          fun v hb => hI.2.2.2 v (hbel2 v hb)⟩
      · rw [if_neg hcc]
        have hsib : ∀ s, (s = 2 * i ∨ s = 2 * i + 1) → s ≤ m →
            cmp (aget l (s - 1)) (aget l (2 * i - 1)) ≤ 0 := by
          intro s hs hsm
          rcases hs with hs | hs
          · rw [hs]
            have := cmp_self cmp hlaw (aget l (2 * i - 1))
            omega
          · rw [hs, show (2 * i + 1 - 1 : Nat) = 2 * i from rfl]
            have hnlt : ¬ cmp (aget l (2 * i - 1)) (aget l (2 * i)) < 0 :=
              fun hlt => hcc ⟨by omega, hlt⟩
            exact cmp_flip_ge cmp hlaw _ _ (by omega)
        have hheap2 : Heap cmp m (l.set (i - 1) (aget l (2 * i - 1))) := by
          intro jj hj2 hjm
          by_cases hji : jj = i
          · rw [hji, aget_set_self l (i - 1) _ (by omega),
              aget_set_ne l (i - 1) (i / 2 - 1) _ (by omega)]
            have e1 := hh (2 * i) (by omega) (by omega)
            rw [show (2 * i) / 2 = i from by omega] at e1
            have e2 := hh i (by omega) (by omega)
            exact hlaw.2 _ _ _ e1 e2
          · by_cases hjp : jj / 2 = i
            · rw [hjp, aget_set_ne l (i - 1) (jj - 1) _ (by omega),
                aget_set_self l (i - 1) _ (by omega)]
              exact hsib jj (by omega) hjm
            · rw [aget_set_ne l (i - 1) (jj - 1) _ (by omega),
                aget_set_ne l (i - 1) (jj / 2 - 1) _ (by omega)]
              exact hh jj hj2 hjm
        have hfr2 : ∀ t, m ≤ t →
            aget (l.set (i - 1) (aget l (2 * i - 1))) t = aget l t := by
          intro t ht
          rw [aget_set_ne l (i - 1) t _ (by omega)]
        have hbel2 : ∀ v, Below cmp m v l →
            Below cmp m v (l.set (i - 1) (aget l (2 * i - 1))) := by
          intro v hb jj hjm
          by_cases hji : jj = i - 1
          · rw [hji, aget_set_self l (i - 1) _ (by omega)]
            exact hb ((2 * i - 1)) (by omega)
          · rw [aget_set_ne l (i - 1) jj _ (fun h => hji h.symm)]
            exact hb jj hjm
        have hI := ih m (2 * i) (l.set (i - 1) (aget l (2 * i - 1))) (by omega) (by omega)
          (by rw [List.length_set]; exact hm) (by omega) hheap2
        exact ⟨hI.1, hI.2.1, fun t ht => (hI.2.2.1 t ht).trans (hfr2 t ht),
          fun v hb => hI.2.2.2 v (hbel2 v hb)⟩

theorem hph2_heap {α : Type} [Inhabited α] (cmp : α → α → Int) (hlaw : LawfulCmp cmp)
    (k : α) (m : Nat) :
    ∀ (f ci : Nat) (l : List α), 1 ≤ ci → ci ≤ m → ci ≤ f → m ≤ l.length →
      Heap cmp m l →
      (∀ d, (d = 2 * ci ∨ d = 2 * ci + 1) → d ≤ m → cmp (aget l (d - 1)) k ≤ 0) →
      Heap cmp m (hph2 cmp k f ci l) ∧
      (∀ t, m ≤ t → aget (hph2 cmp k f ci l) t = aget l t) ∧
      (∀ v, Below cmp m v l → cmp k v ≤ 0 → Below cmp m v (hph2 cmp k f ci l)) := by
  intro f
  induction f with
  | zero =>
    intro ci l h1 hcm h2 hm hh hk
    exact absurd h2 (by omega)
  | succ f ih =>
    intro ci l h1 hcm h2 hm hh hk
    rw [hph2]
    by_cases hc : ci = 1 ∨ cmp k (aget l (ci / 2 - 1)) < 0
    · rw [if_pos hc]
      refine ⟨?_, ?_, ?_⟩
      · intro jj hj2 hjm
        by_cases hji : jj = ci
        · rw [hji, aget_set_self l (ci - 1) k (by omega),
            aget_set_ne l (ci - 1) (ci / 2 - 1) k (by omega)]
          omega
        · by_cases hjp : jj / 2 = ci
          · rw [hjp, aget_set_ne l (ci - 1) (jj - 1) k (by omega),
              aget_set_self l (ci - 1) k (by omega)]
            exact hk jj (by omega) hjm
          · rw [aget_set_ne l (ci - 1) (jj - 1) k (by omega),
              aget_set_ne l (ci - 1) (jj / 2 - 1) k (by omega)]
            exact hh jj hj2 hjm
      · intro t ht
        rw [aget_set_ne l (ci - 1) t k (by omega)]
      · intro v hb hkv jj hjm
        by_cases hji : jj = ci - 1
        · rw [hji, aget_set_self l (ci - 1) k (by omega)]
          exact hkv
        · rw [aget_set_ne l (ci - 1) jj k (fun h => hji h.symm)]
          exact hb jj hjm
    · rw [if_neg hc]
      have hne : ci ≠ 1 := fun h => hc (Or.inl h)
      have hnlt : ¬ cmp k (aget l (ci / 2 - 1)) < 0 := fun h => hc (Or.inr h)
      have hflip : cmp (aget l (ci / 2 - 1)) k ≤ 0 :=
        cmp_flip_ge cmp hlaw _ _ (by omega)
      have hheap2 : Heap cmp m (l.set (ci - 1) (aget l (ci / 2 - 1))) := by
        intro jj hj2 hjm
        by_cases hji : jj = ci
        · rw [hji, aget_set_self l (ci - 1) _ (by omega),
            aget_set_ne l (ci - 1) (ci / 2 - 1) _ (by omega)]
          have := cmp_self cmp hlaw (aget l (ci / 2 - 1))
          omega
        · by_cases hjp : jj / 2 = ci
          · rw [hjp, aget_set_ne l (ci - 1) (jj - 1) _ (by omega),
              aget_set_self l (ci - 1) _ (by omega)]
            have e1 := hh jj hj2 hjm
            rw [hjp] at e1
            have e2 := hh ci (by omega) hcm
            exact hlaw.2 _ _ _ e1 e2
          · rw [aget_set_ne l (ci - 1) (jj - 1) _ (by omega),
              aget_set_ne l (ci - 1) (jj / 2 - 1) _ (by omega)]
            exact hh jj hj2 hjm
      have hk2 : ∀ d, (d = 2 * (ci / 2) ∨ d = 2 * (ci / 2) + 1) → d ≤ m →
          cmp (aget (l.set (ci - 1) (aget l (ci / 2 - 1))) (d - 1)) k ≤ 0 := by
        intro d hd hdm
        by_cases hdc : d = ci
        · rw [hdc, show ci - 1 = ci - 1 from rfl, aget_set_self l (ci - 1) _ (by omega)]
          exact hflip
        · rw [aget_set_ne l (ci - 1) (d - 1) _ (by omega)]
          have e1 := hh d (by omega) hdm
          rw [show d / 2 = ci / 2 from by omega] at e1
          exact hlaw.2 _ _ _ e1 hflip
      have hI := ih (ci / 2) (l.set (ci - 1) (aget l (ci / 2 - 1))) (by omega) (by omega)
        (by omega) (by rw [List.length_set]; exact hm) hheap2 hk2
      refine ⟨hI.1, ?_, ?_⟩
      · intro t ht
        rw [hI.2.1 t ht, aget_set_ne l (ci - 1) t _ (by omega)]
      · intro v hb hkv
        refine hI.2.2 v ?_ hkv
        intro jj hjm
        by_cases hji : jj = ci - 1
        · rw [hji, aget_set_self l (ci - 1) _ (by omega)]
          exact hb (ci / 2 - 1) (by omega)
        · rw [aget_set_ne l (ci - 1) jj _ (fun h => hji h.symm)]
          exact hb jj hjm

theorem hselect_heap {α : Type} [Inhabited α] (cmp : α → α → Int) (hlaw : LawfulCmp cmp)
    (m : Nat) (k : α) (l : List α) (h1 : 1 ≤ m) (h2 : m ≤ l.length)
    (hh : Heap cmp m l) :
    Heap cmp m (hselect cmp m k l) ∧
    (∀ t, m ≤ t → aget (hselect cmp m k l) t = aget l t) ∧
    (∀ v, Below cmp m v l → cmp k v ≤ 0 → Below cmp m v (hselect cmp m k l)) := by
  rw [hselect]
  have hA := hph1_spec cmp (m + 1) m 1 l (le_refl 1) h1 h2
  have hH := hph1_heap cmp hlaw (m + 1) m 1 l (le_refl 1) h1 h2 (by omega) hh
  have hB := hph2_heap cmp hlaw k m ((hph1 cmp (m + 1) m 1 l).2 + 1)
    (hph1 cmp (m + 1) m 1 l).2 (hph1 cmp (m + 1) m 1 l).1 hA.1 hA.2.1 (by omega)
    (by rw [hA.2.2.1]; exact h2) hH.1
    (fun d hd hdm => absurd hdm (by have h21 := hH.2.1; omega))
  exact ⟨hB.1, fun t ht => (hB.2.1 t ht).trans (hH.2.2.1 t ht),
    fun v hb hkv => hB.2.2 v (hH.2.2.2 v hb) hkv⟩

theorem hsel_sorted {α : Type} [Inhabited α] (cmp : α → α → Int) (hlaw : LawfulCmp cmp) :
    ∀ (n : Nat) (l : List α), n ≤ l.length → Heap cmp n l →
      (∀ t, n ≤ t → t + 1 < l.length → cmp (aget l t) (aget l (t + 1)) ≤ 0) →
      (∀ j t, j < n → n ≤ t → t < l.length → cmp (aget l j) (aget l t) ≤ 0) →
      SortedA cmp (hsel cmp n l)
  | 0, l, hn, hh, hb, hc => by
    rw [hsel]
    exact fun i hi => hb i (by omega) hi
  | 1, l, hn, hh, hb, hc => by
    rw [hsel]
    intro i hi
    by_cases h0 : i = 0
    · subst h0
      exact hc 0 (0 + 1) (by omega) (by omega) (by omega)
    · exact hb i (by omega) hi
  | m + 2, l, hn, hh, hb, hc => by
    rw [hsel]
    have hheap1 : Heap cmp (m + 1) (l.set (m + 1) (aget l 0)) := by
      intro i h2 him
      rw [aget_set_ne l (m + 1) (i - 1) _ (by omega),
        aget_set_ne l (m + 1) (i / 2 - 1) _ (by omega)]
      exact hh i h2 (by omega)
    have hS := hselect_heap cmp hlaw (m + 1) (aget l (m + 1))
      (l.set (m + 1) (aget l 0)) (by omega) (by rw [List.length_set]; omega) hheap1
    have hsp := hselect_perm cmp (m + 1) (aget l (m + 1)) (l.set (m + 1) (aget l 0))
      (by omega) (by rw [List.length_set]; omega)
    have hlen2 : (hselect cmp (m + 1) (aget l (m + 1))
        (l.set (m + 1) (aget l 0))).length = l.length :=
      hsp.2.trans (by rw [List.length_set])
    have hb2 : ∀ t, m + 1 ≤ t →
        t + 1 < (hselect cmp (m + 1) (aget l (m + 1))
          (l.set (m + 1) (aget l 0))).length →
        cmp (aget (hselect cmp (m + 1) (aget l (m + 1))
            (l.set (m + 1) (aget l 0))) t)
          (aget (hselect cmp (m + 1) (aget l (m + 1))
            (l.set (m + 1) (aget l 0))) (t + 1)) ≤ 0 := by
      intro t ht htl
      rw [hlen2] at htl
      rw [hS.2.1 t ht, hS.2.1 (t + 1) (by omega)]
      by_cases hteq : t = m + 1
      · rw [hteq, aget_set_self l (m + 1) _ (by omega),
          aget_set_ne l (m + 1) (m + 1 + 1) _ (by omega)]
        exact hc 0 (m + 1 + 1) (by omega) (by omega) (by omega)
      · rw [aget_set_ne l (m + 1) t _ (by omega),
          aget_set_ne l (m + 1) (t + 1) _ (by omega)]
        exact hb t (by omega) (by omega)
    have hc2 : ∀ j t, j < m + 1 → m + 1 ≤ t →
        t < (hselect cmp (m + 1) (aget l (m + 1))
          (l.set (m + 1) (aget l 0))).length →
        cmp (aget (hselect cmp (m + 1) (aget l (m + 1))
            (l.set (m + 1) (aget l 0))) j)
          (aget (hselect cmp (m + 1) (aget l (m + 1))
            (l.set (m + 1) (aget l 0))) t) ≤ 0 := by
      intro j t hj ht htl
      rw [hlen2] at htl
      rw [hS.2.1 t ht]
      by_cases hteq : t = m + 1
      · rw [hteq, aget_set_self l (m + 1) _ (by omega)]
        have hbel : Below cmp (m + 1) (aget l 0) (l.set (m + 1) (aget l 0)) := by
          intro jj hjj
          rw [aget_set_ne l (m + 1) jj _ (by omega)]
          have hd := heap_dom cmp hlaw (m + 2) l hh (jj + 1) (by omega) (by omega)
          rw [show jj + 1 - 1 = jj from rfl] at hd
          exact hd
        have hkd : cmp (aget l (m + 1)) (aget l 0) ≤ 0 := by
          have hd := heap_dom cmp hlaw (m + 2) l hh (m + 2) (by omega) (by omega)
          rw [show m + 2 - 1 = m + 1 from rfl] at hd
          exact hd
        exact hS.2.2 (aget l 0) hbel hkd j hj
      · rw [aget_set_ne l (m + 1) t _ (by omega)]
        have hbel : Below cmp (m + 1) (aget l t) (l.set (m + 1) (aget l 0)) := by
          intro jj hjj
          rw [aget_set_ne l (m + 1) jj _ (by omega)]
          exact hc jj t (by omega) (by omega) (by omega)
        have hkd : cmp (aget l (m + 1)) (aget l t) ≤ 0 :=
          hc (m + 1) t (by omega) (by omega) (by omega)
        exact hS.2.2 (aget l t) hbel hkd j hj
    exact hsel_sorted cmp hlaw (m + 1)
      (hselect cmp (m + 1) (aget l (m + 1)) (l.set (m + 1) (aget l 0)))
      (by rw [hlen2]; omega) hS.1 hb2 hc2

theorem hrun_sorted {α : Type} [Inhabited α] (cmp : α → α → Int) (hlaw : LawfulCmp cmp)
    (l : List α) : SortedA cmp (hrun cmp l) := by
  rw [hrun]
  have hB := hbuild_heap cmp hlaw l.length (l.length / 2) l (le_refl _)
    (fun i h2 him hji => absurd hji (by omega))
  exact hsel_sorted cmp hlaw l.length (hbuild cmp l.length (l.length / 2) l)
    hB.2.ge hB.1
    (fun t ht htl => absurd htl (by rw [hB.2]; omega))
    (fun j t hj ht htl => absurd htl (by rw [hB.2]; omega))

theorem heapsortF_sorted {α : Type} [Inhabited α] (cmp : α → α → Int)
    (hlaw : LawfulCmp cmp) (es : Nat) (allocOk : Bool) (l : List α)
    (h : (heapsortF cmp es allocOk l).1 = 0) :
    SortedA cmp (heapsortF cmp es allocOk l).2 := by
  rw [heapsortF] at h ⊢
  by_cases h1 : l.length ≤ 1
  · rw [if_pos h1]
    exact sortedA_short cmp l h1
  · rw [if_neg h1] at h ⊢
    by_cases h2 : es = 0
    · rw [if_pos h2] at h
      have h' : (-1 : Int) = 0 := h
      exact absurd h' (by decide)
    · rw [if_neg h2] at h ⊢
      by_cases h3 : 8 < es ∧ ¬ allocOk
      · rw [if_pos h3] at h
        have h' : (-1 : Int) = 0 := h
        exact absurd h' (by decide)
      · rw [if_neg h3]
        exact hrun_sorted cmp hlaw l

theorem lqsGo_sorts {α : Type} [Inhabited α] (cfg : QCfg) (cmp : α → α → Int)
    (es : Nat) (hlaw : LawfulCmp cmp) :
    ∀ (fuel maxItn itn k : Nat) (bad : Bool) (l : List α), l.length ≤ fuel →
      SortedA cmp (lqsGo cfg cmp es fuel maxItn itn k bad l).1 := by
  intro fuel
  induction fuel with
  | zero =>
    intro maxItn itn k bad l hfuel
    rw [lqsGo]
    exact sortedA_short cmp l (by omega)
  | succ fuel ih =>
    intro maxItn itn k bad l hfuel
    rw [lqsGo]
    by_cases h1 : l.length ≤ 1
    · rw [if_pos h1]
      exact sortedA_short cmp l h1
    · rw [if_neg h1]
      by_cases h2 : l.length < USE_SMALL_SORT
      · rw [if_pos h2]
        exact small_sortq_sorts cmp hlaw l
      · rw [if_neg h2]
        rw [USE_SMALL_SORT] at h2
        simp only []
        by_cases h3 : (insPass cmp l).2 = true
        · rw [if_pos h3]
          exact insPass_true_sorted cmp hlaw l h3
        · rw [if_neg h3]
          set l1 : List α := (insPass cmp l).1 with hl1d
          have hl1n : l1.length = l.length := by rw [hl1d]; exact length_insPass cmp l
          set hres : Int × List α :=
            if maxItn < itn + 1 then heapsortF cmp es (cfg.alloc k) l1 else (-1, l1)
            with hhres
          have hhn : hres.2.length = l1.length := by
            rw [hhres]
            by_cases ha : maxItn < itn + 1
            · rw [if_pos ha]
              exact (heapsortF_perm cmp es (cfg.alloc k) l1).2
            · rw [if_neg ha]
          set k' : Nat := if maxItn < itn + 1 ∧ 8 < es then k + 1 else k with hk'
          by_cases hAB : maxItn < itn + 1 ∧ hres.1 = 0
          · rw [if_pos hAB]
            have hr0 := hAB.2
            rw [hhres, if_pos hAB.1] at hr0
            show SortedA cmp hres.2
            rw [hhres, if_pos hAB.1]
            exact heapsortF_sorted cmp hlaw es (cfg.alloc k) l1 hr0
          · rw [if_neg hAB]
            set l2 : List α :=
              if bad = true then pivotRobust cmp hres.2 else pivotFast cmp hres.2
              with hl2d
            have hl2n : l2.length = l.length := by
              rw [hl2d]
              by_cases hb : bad = true
              · rw [if_pos hb]
                exact (pivotRobust_perm cmp hres.2).2.trans (hhn.trans hl1n)
              · rw [if_neg hb]
                exact (pivotFast_perm cmp hres.2 (by rw [hhn, hl1n]; omega)).2.trans
                  (hhn.trans hl1n)
            have hps := partitionF_spec cmp l2 (by omega)
            set P : PartOut α := partitionF cmp l2 with hPd
            set L : Nat := partL P with hLd
            set R : Nat := partR P with hRd
            obtain ⟨hq1, hq2, hq3, hq4, hq5, hq6, hq7, _, _, z1, z2, z3⟩ := hps
            have hz2 := z2 (cmp_self cmp hlaw (aget l2 0))
            have hLa : L = P.pb - P.pa := hLd
            have hRa : R = P.pd - P.pc := hRd
            have hLR : L + R + 1 ≤ l.length := by rw [hLa, hRa]; omega
            have hPll : P.l.length = l.length := hq1.trans hl2n
            rw [hl2n] at hz2 z3
            have hmemL : ∀ x, x ∈ P.l.take L → cmp x (aget l2 0) < 0 := by
              intro x hx
              obtain ⟨t, htl, he⟩ := mem_aget _ x hx
              rw [List.length_take] at htl
              rw [he, aget_take P.l L t (by omega)]
              exact z1 t (by omega)
            have hmemM : ∀ y, y ∈ (P.l.drop L).take (l.length - L - R) →
                cmp y (aget l2 0) = 0 := by
              intro y hy
              obtain ⟨t, htl, he⟩ := mem_aget _ y hy
              rw [List.length_take, List.length_drop] at htl
              rw [he, aget_take _ _ t (by omega), aget_drop P.l L t]
              exact hz2 (L + t) (by omega) (by omega)
            have hmemR : ∀ z, z ∈ P.l.drop (l.length - R) → cmp z (aget l2 0) > 0 := by
              intro z hz
              obtain ⟨t, htl, he⟩ := mem_aget _ z hz
              rw [List.length_drop] at htl
              rw [he, aget_drop P.l (l.length - R) t]
              exact z3 (l.length - R + t) (by omega) (by omega)
            have hM : SortedA cmp ((P.l.drop L).take (l.length - L - R)) := by
              intro t ht
              have hy1 := hmemM _ (aget_mem _ t (by omega))
              have hy2 := hmemM _ (aget_mem _ (t + 1) ht)
              have hf1 : cmp (aget l2 0)
                  (aget ((P.l.drop L).take (l.length - L - R)) (t + 1)) ≤ 0 :=
                cmp_flip_ge cmp hlaw _ _ (by omega)
              have hf0 : cmp (aget ((P.l.drop L).take (l.length - L - R)) t)
                  (aget l2 0) ≤ 0 := by omega
              exact hlaw.2 _ _ _ hf0 hf1
            have hcLM : ∀ x, cmp x (aget l2 0) < 0 → ∀ y, cmp y (aget l2 0) = 0 →
                cmp x y ≤ 0 := by
              intro x hx y hy
              have hf0 : cmp x (aget l2 0) ≤ 0 := by omega
              have hf1 : cmp (aget l2 0) y ≤ 0 := cmp_flip_ge cmp hlaw y (aget l2 0) (by omega)
              exact hlaw.2 _ _ _ hf0 hf1
            have hcLR : ∀ x, cmp x (aget l2 0) < 0 → ∀ z, cmp z (aget l2 0) > 0 →
                cmp x z ≤ 0 := by
              intro x hx z hz
              have := (hlaw.1 z (aget l2 0)).mp hz
              have hf0 : cmp x (aget l2 0) ≤ 0 := by omega
              have hf1 : cmp (aget l2 0) z ≤ 0 := by omega
              exact hlaw.2 _ _ _ hf0 hf1
            have hcMR : ∀ y, cmp y (aget l2 0) = 0 → ∀ z, cmp z (aget l2 0) > 0 →
                cmp y z ≤ 0 := by
              intro y hy z hz
              have := (hlaw.1 z (aget l2 0)).mp hz
              have hf0 : cmp y (aget l2 0) ≤ 0 := by omega
              have hf1 : cmp (aget l2 0) z ≤ 0 := by omega
              exact hlaw.2 _ _ _ hf0 hf1
            by_cases hLRle : L ≤ R
            · rw [if_pos hLRle]
              set a1 : List α × Nat :=
                if 1 < L then lqsGo cfg cmp es fuel (cfg.MI L) 0 k' false (P.l.take L)
                else (P.l.take L, k')
                with ha1d
              have ha1 : a1.1.Perm (P.l.take L) := by
                rw [ha1d]
                by_cases h5 : 1 < L
                · rw [if_pos h5]
                  exact lqsGo_perm cfg cmp es fuel (cfg.MI L) 0 k' false (P.l.take L)
                · rw [if_neg h5]
              have hA : SortedA cmp a1.1 := by
                rw [ha1d]
                by_cases h5 : 1 < L
                · rw [if_pos h5]
                  exact ih (cfg.MI L) 0 k' false (P.l.take L)
                    (by rw [List.length_take]; omega)
                · rw [if_neg h5]
                  exact sortedA_short cmp _ (by rw [List.length_take]; omega)
              have hAmem : ∀ x, x ∈ a1.1 → cmp x (aget l2 0) < 0 :=
                fun x hx => hmemL x (ha1.subset hx)
              by_cases h6 : 1 < R
              · rw [if_pos h6]
                have ha2 := lqsGo_perm cfg cmp es fuel maxItn (itn + 1) a1.2
                  (cfg.bad L R P.d1 P.d2 l.length) (P.l.drop (l.length - R))
                have hC : SortedA cmp (lqsGo cfg cmp es fuel maxItn (itn + 1) a1.2
                    (cfg.bad L R P.d1 P.d2 l.length) (P.l.drop (l.length - R))).1 :=
                  ih maxItn (itn + 1) a1.2 (cfg.bad L R P.d1 P.d2 l.length)
                    (P.l.drop (l.length - R)) (by rw [List.length_drop]; omega)
                have hCmem : ∀ z, z ∈ (lqsGo cfg cmp es fuel maxItn (itn + 1) a1.2
                    (cfg.bad L R P.d1 P.d2 l.length) (P.l.drop (l.length - R))).1 →
                    cmp z (aget l2 0) > 0 :=
                  fun z hz => hmemR z (ha2.subset hz)
                refine sortedA_append cmp _ _ (sortedA_append cmp _ _ hA hM ?_) hC ?_
                · exact fun x hx y hy => hcLM x (hAmem x hx) y (hmemM y hy)
                · intro x hx z hz
                  rcases List.mem_append.mp hx with hx | hx
                  · exact hcLR x (hAmem x hx) z (hCmem z hz)
                  · exact hcMR x (hmemM x hx) z (hCmem z hz)
              · rw [if_neg h6]
                have hC : SortedA cmp (P.l.drop (l.length - R)) :=
                  sortedA_short cmp _ (by rw [List.length_drop]; omega)
                refine sortedA_append cmp _ _ (sortedA_append cmp _ _ hA hM ?_) hC ?_
                · exact fun x hx y hy => hcLM x (hAmem x hx) y (hmemM y hy)
                · intro x hx z hz
                  rcases List.mem_append.mp hx with hx | hx
                  · exact hcLR x (hAmem x hx) z (hmemR z hz)
                  · exact hcMR x (hmemM x hx) z (hmemR z hz)
            · rw [if_neg hLRle]
              set a1 : List α × Nat :=
                if 1 < R then
                  lqsGo cfg cmp es fuel (cfg.MI R) 0 k' false (P.l.drop (l.length - R))
                else (P.l.drop (l.length - R), k')
                with ha1d
              have ha1 : a1.1.Perm (P.l.drop (l.length - R)) := by
                rw [ha1d]
                by_cases h5 : 1 < R
                · rw [if_pos h5]
                  exact lqsGo_perm cfg cmp es fuel (cfg.MI R) 0 k' false
                    (P.l.drop (l.length - R))
                · rw [if_neg h5]
              have hA : SortedA cmp a1.1 := by
                rw [ha1d]
                by_cases h5 : 1 < R
                · rw [if_pos h5]
                  exact ih (cfg.MI R) 0 k' false (P.l.drop (l.length - R))
                    (by rw [List.length_drop]; omega)
                · rw [if_neg h5]
                  exact sortedA_short cmp _ (by rw [List.length_drop]; omega)
              have hAmem : ∀ z, z ∈ a1.1 → cmp z (aget l2 0) > 0 :=
                fun z hz => hmemR z (ha1.subset hz)
              by_cases h6 : 1 < L
              · rw [if_pos h6]
                have ha2 := lqsGo_perm cfg cmp es fuel maxItn (itn + 1) a1.2
                  (cfg.bad L R P.d1 P.d2 l.length) (P.l.take L)
                have hC : SortedA cmp (lqsGo cfg cmp es fuel maxItn (itn + 1) a1.2
                    (cfg.bad L R P.d1 P.d2 l.length) (P.l.take L)).1 :=
                  ih maxItn (itn + 1) a1.2 (cfg.bad L R P.d1 P.d2 l.length)
                    (P.l.take L) (by rw [List.length_take]; omega)
                have hCmem : ∀ x, x ∈ (lqsGo cfg cmp es fuel maxItn (itn + 1) a1.2
                    (cfg.bad L R P.d1 P.d2 l.length) (P.l.take L)).1 →
                    cmp x (aget l2 0) < 0 :=
                  fun x hx => hmemL x (ha2.subset hx)
                refine sortedA_append cmp _ _ (sortedA_append cmp _ _ hC hM ?_) hA ?_
                · exact fun x hx y hy => hcLM x (hCmem x hx) y (hmemM y hy)
                · intro x hx z hz
                  rcases List.mem_append.mp hx with hx | hx
                  · exact hcLR x (hCmem x hx) z (hAmem z hz)
                  · exact hcMR x (hmemM x hx) z (hAmem z hz)
              · rw [if_neg h6]
                have hC : SortedA cmp (P.l.take L) :=
                  sortedA_short cmp _ (by rw [List.length_take]; omega)
                refine sortedA_append cmp _ _ (sortedA_append cmp _ _ hC hM ?_) hA ?_
                · exact fun x hx y hy => hcLM x (hmemL x hx) y (hmemM y hy)
                · intro x hx z hz
                  rcases List.mem_append.mp hx with hx | hx
                  · exact hcLR x (hmemL x hx) z (hAmem z hz)
                  · exact hcMR x (hmemM x hx) z (hAmem z hz)

/-- Claim C1: for every record array, every record size `es ≥ 1`, every lawful
total comparator and every resolution of the floating-point and allocator
nondeterminism (`cfg`), the array returned by `qsort` is sorted: the
comparator applied to record `i` and record `i + 1` is `≤ 0` for every
`0 ≤ i < n - 1`. -/
theorem claim_C1 {α : Type} [Inhabited α] (cfg : QCfg) (cmp : α → α → Int)
    (es : Nat) (l : List α) (hlaw : LawfulCmp cmp) (hes : 1 ≤ es) :
    SortedA cmp (qsortF cfg cmp es l) := by
  rw [qsortF]
  by_cases h1 : l.length ≤ 1 ∨ es = 0
  · rw [if_pos h1]
    rcases h1 with h | h
    · exact sortedA_short cmp l h
    · exact absurd h (by omega)
  · rw [if_neg h1]
    by_cases h2 : l.length < USE_SMALL_SORT
    · rw [if_pos h2]
      exact small_sortq_sorts cmp hlaw l
    · rw [if_neg h2, local_qsortF]
      exact lqsGo_sorts cfg cmp es hlaw l.length (cfg.MI l.length) 0 0 false l
        (le_refl _)

/-- Witness for claim C1 at a concrete input. -/
theorem claim_C1_witness :
    LawfulCmp intCmp ∧ 1 ≤ 8 ∧
      SortedA intCmp (qsortF qcfg0 intCmp 8 [(3 : Int), 1, 2]) :=
  ⟨intCmp_lawful, by decide,
   claim_C1 qcfg0 intCmp 8 [3, 1, 2] intCmp_lawful (by decide)⟩

/-- Claim C9: when the record size exceeds 8 the scratch area is `malloc`ed,
and on allocation failure `heapsort` returns the error code `-1` with the
array untouched; a driver whose every allocation fails (`qcfgF`-like `cfg`)
still returns a sorted permutation of its input — the quicksort path carries
on instead of aborting. -/
theorem claim_C9 {α : Type} [Inhabited α] (cfg : QCfg) (cmp : α → α → Int)
    (es : Nat) (l : List α) (hlaw : LawfulCmp cmp) (hes : 8 < es)
    (halloc : ∀ t, cfg.alloc t = false) (hn : 1 < l.length) :
    (heapsortF cmp es false l).1 = -1 ∧ (heapsortF cmp es false l).2 = l ∧
    SortedA cmp (qsortF cfg cmp es l) ∧ (qsortF cfg cmp es l).Perm l := by
  have hhs : heapsortF cmp es false l = (-1, l) := by
    rw [heapsortF, if_neg (by omega : ¬ l.length ≤ 1), if_neg (by omega : ¬ es = 0),
      if_pos ⟨hes, by simp⟩]
  refine ⟨by rw [hhs], by rw [hhs], ?_, ?_⟩
  · rw [qsortF]
    by_cases h1 : l.length ≤ 1 ∨ es = 0
    · rcases h1 with h | h
      · exact absurd h (by omega)
      · exact absurd h (by omega)
    · rw [if_neg h1]
      by_cases h2 : l.length < USE_SMALL_SORT
      · rw [if_pos h2]
        exact small_sortq_sorts cmp hlaw l
      · rw [if_neg h2, local_qsortF]
        exact lqsGo_sorts cfg cmp es hlaw l.length (cfg.MI l.length) 0 0 false l
          (le_refl _)
  · rw [qsortF]
    by_cases h1 : l.length ≤ 1 ∨ es = 0
    · rcases h1 with h | h
      · exact absurd h (by omega)
      · exact absurd h (by omega)
    · rw [if_neg h1]
      by_cases h2 : l.length < USE_SMALL_SORT
      · rw [if_pos h2]
        exact small_sortq_perm cmp l
      · rw [if_neg h2, local_qsortF]
        exact lqsGo_perm cfg cmp es l.length (cfg.MI l.length) 0 0 false l

/-- Witness for claim C9 at a concrete input. -/
theorem claim_C9_witness :
    LawfulCmp intCmp ∧ 8 < 9 ∧ (∀ t, qcfgF.alloc t = false) ∧
      1 < ([(2 : Int), 1] : List Int).length ∧
      ((heapsortF intCmp 9 false [(2 : Int), 1]).1 = -1 ∧
        (heapsortF intCmp 9 false [(2 : Int), 1]).2 = [2, 1] ∧
        SortedA intCmp (qsortF qcfgF intCmp 9 [(2 : Int), 1]) ∧
        (qsortF qcfgF intCmp 9 [(2 : Int), 1]).Perm [2, 1]) :=
  ⟨intCmp_lawful, by decide, fun t => rfl, by decide,
   claim_C9 qcfgF intCmp 9 [2, 1] intCmp_lawful (by decide) (fun t => rfl) (by decide)⟩
